import Mathlib

/-!
# MavlinkLogManager.cc : the ULog stream reassembler

A shallow embedding of `MavlinkLogFiles` and `MavlinkLogProcessor` from
`src/Vehicle/MavlinkLogManager.cc`, followed by theorems about them.

Conventions of the embedding

* A byte (`uint8_t`, one element of a `QByteArray`) is a `Nat`; every concrete
  input used below has all bytes below 256.
* `int` values are `Int`; `(uint16_t)x` is `x % 65536`, `(uint8_t)x` is `x % 256`.
* `QByteArray::remove(0, n)` is `List.drop n`, `QByteArray::left(n)` is
  `List.take n`, `QByteArray::append` is `++`, `clear()` is `[]`.
* The C stream `FILE* _fd` is a `File`: the bytes it has accepted, an
  environment script that decides how many bytes each coming `fwrite` takes, and
  the history of the `fwrite` calls made on it.
* Reading past the end of a buffer or writing to a null stream is undefined
  behaviour in C++; the embedding returns `none` there.
* The class declarations (`MavlinkLogManager.h`) are not part of the sources at
  hand. `_sequence` and `_numDrops` are `int` (they are compared with `-1` and
  added to an `int`), 32 bits wide. `_numDrops += num_drops` wraps in two's
  complement, as the compiled code does (`wrapInt32`); the sum leaves the range
  of `int` only after more than 2^31 lost chunks. `_written` is a `quint32`, the
  type `setSize` takes it with, and wraps at 2^32.
-/

namespace MavlinkLog

/-! ## MavlinkLogFiles -/

/-- The record of one log file (the data members of `MavlinkLogFiles`). -/
structure MavlinkLogFiles where
  name : String
  size : Nat
  selected : Bool
  uploading : Bool
  progress : Rat
  writing : Bool
  uploaded : Bool
deriving DecidableEq

/-- Characters of `QFileInfo::baseName()`: the part after the last `/`, up to
the first `.`. -/
def baseNameChars (path : List Char) : List Char :=
  (path.foldl (fun acc c => if c = '/' then [] else acc ++ [c]) []).takeWhile (fun c => c != '.')

/-- The constructor `MavlinkLogFiles(manager, filePath, newFile)` with
`newFile = true` (lines 38-56): nothing is read from the file system. -/
def MavlinkLogFiles.newFile (filePath : String) : MavlinkLogFiles :=
  { name := String.mk (baseNameChars filePath.data)
    size := 0
    selected := false
    uploading := false
    progress := 0
    writing := false
    uploaded := false }

/-- `MavlinkLogFiles::setSize(quint32 size)` (lines 59-64): the argument is a
`quint32`. -/
def MavlinkLogFiles.setSize (r : MavlinkLogFiles) (size : Nat) : MavlinkLogFiles :=
  { r with size := size % 4294967296 }

/-- `MavlinkLogFiles::setWriting` (lines 92-97). -/
def MavlinkLogFiles.setWriting (r : MavlinkLogFiles) (writing : Bool) : MavlinkLogFiles :=
  { r with writing := writing }

/-! ## The output stream -/

/-- One `fwrite(data, 1, len, fd)` call as the stream saw it: the `len` bytes
it was handed, and the count it returned. -/
structure FwriteCall where
  data : List Nat
  len : Nat
  ret : Nat
deriving DecidableEq

/-- The stream behind `FILE* _fd`. `contents` are the bytes accepted so far.
`limits` is the environment: the n-th coming `fwrite` takes at most the n-th
limit (a full disk is a limit of 0); when the script is used up every write is
taken whole. `calls` is the history of `fwrite` calls. -/
structure File where
  contents : List Nat
  limits : List Nat
  calls : List FwriteCall
deriving DecidableEq

/-- The C library `fwrite(data, 1, len, fd)`: takes the first `n` of the `len`
bytes, where `n` is `len` cut by the current limit, and returns `n`. -/
def fwrite (data : List Nat) (len : Nat) (fd : File) : Nat × File :=
  let n := match fd.limits with
    | [] => len
    | l :: _ => min len l
  (n, { contents := fd.contents ++ data.take n
        limits := fd.limits.tail
        calls := fd.calls ++ [{ data := data.take len, len := len, ret := n }] })

/-! ## MavlinkLogProcessor -/

/-- A value stored in a 32-bit `int`: two's-complement wrap-around into
`-2^31 .. 2^31 - 1`. -/
def wrapInt32 (x : Int) : Int :=
  (x + 2147483648) % 4294967296 - 2147483648

/-- The data members of `MavlinkLogProcessor` (initialiser list, lines 109-118).
`_written` is kept as a `quint32`, the type `setSize` receives it with;
`_numDrops` is a 32-bit `int`. -/
structure MavlinkLogProcessor where
  fd : Option File
  written : Nat
  sequence : Int
  numDrops : Int
  gotHeader : Bool
  error : Bool
  ulogMessage : List Nat
  fileName : String
  record : Option MavlinkLogFiles
deriving DecidableEq

namespace MavlinkLogProcessor

/-- The constructor `MavlinkLogProcessor()` (lines 109-118). -/
def new : MavlinkLogProcessor :=
  { fd := none
    written := 0
    sequence := -1
    numDrops := 0
    gotHeader := false
    error := false
    ulogMessage := []
    fileName := ""
    record := none }

/-- `close()` (lines 127-134). -/
def close (s : MavlinkLogProcessor) : MavlinkLogProcessor :=
  { s with fd := none }

/-- `valid()` (lines 137-141). -/
def valid (s : MavlinkLogProcessor) : Bool :=
  s.fd.isSome && s.record.isSome

/-- `create(manager, path, id)` (lines 144-160). The formatted file name and the
result of `fopen(_fileName, "wb")` come from the environment. -/
def create (s : MavlinkLogProcessor) (fileName : String) (fopen : Option File) :
    Bool × MavlinkLogProcessor :=
  let s1 := { s with fileName := fileName, fd := fopen }
  match fopen with
  | some _ =>
    (true, { s1 with
              record := some ((MavlinkLogFiles.newFile fileName).setWriting true)
              sequence := -1 })
  | none => (false, s1)

/-- `_checkSequence(seq, num_drops)` (lines 163-194). Returns the result, the
value left in `num_drops`, and the new state. -/
def _checkSequence (s : MavlinkLogProcessor) (seq : Nat) :
    Bool × Int × MavlinkLogProcessor :=
  if s.sequence = -1 then
    (true, 0, { s with sequence := (seq : Int) })
  else if s.sequence % 65536 = (seq : Int) then
    (false, 0, s)
  else if (seq : Int) > s.sequence % 65536 then
    if (seq : Int) - s.sequence > 32768 then
      (false, 0, s)
    else
      let num_drops : Int := (seq : Int) - s.sequence - 1
      (true, num_drops,
        { s with numDrops := wrapInt32 (s.numDrops + num_drops), sequence := (seq : Int) })
  else
    if s.sequence - (seq : Int) > 32768 then
      let num_drops : Int := 65536 - s.sequence - 1 + (seq : Int)
      (true, num_drops,
        { s with numDrops := wrapInt32 (s.numDrops + num_drops), sequence := (seq : Int) })
    else
      (false, 0, s)

/-- `_writeData(data, len)` (lines 197-211). `data` is the buffer behind the
pointer; asking for more bytes than it holds, or writing to a null `_fd`, is
undefined behaviour (`none`). -/
def _writeData (s : MavlinkLogProcessor) (data : List Nat) (len : Nat) :
    Option MavlinkLogProcessor :=
  if s.error = false then
    match s.fd with
    | none => none
    | some f =>
      if data.length < len then none
      else
        let r := fwrite data len f
        if r.1 = len then
          let w := (s.written + len) % 4294967296
          some { s with
                  fd := some r.2
                  error := false
                  written := w
                  record := s.record.map (fun rec => rec.setSize w) }
        else
          some { s with fd := some r.2, error := true }
  else
    some s

/-- `_writeUlogMessage(data)` (lines 214-229). Returns the new state and the
returned array (which is also what is left in the argument). The body of the
`while` ends in `return data`, so it runs at most once. -/
def _writeUlogMessage (s : MavlinkLogProcessor) (data : List Nat) :
    Option (MavlinkLogProcessor × List Nat) :=
  match data with
  | b0 :: b1 :: _ :: _ =>
    let message_length := b0 + b1 * 256 + 3
    if message_length > data.length then
      some (s, data)
    else
      (_writeData s data message_length).map (fun s1 => (s1, data.drop message_length))
  | _ => some (s, data)

/-- Lines 272-287 of `processStreamData`: the part of the loop body after the
gap handling. Returns the state at the `break`. -/
def processTail (s : MavlinkLogProcessor) (first_message : Nat) (data : List Nat) :
    Option MavlinkLogProcessor :=
  if first_message = 255 ∧ s.ulogMessage.length > 0 then
    some { s with ulogMessage := s.ulogMessage ++ data }
  else
    (if s.ulogMessage.length ≠ 0 then
      (_writeData s s.ulogMessage s.ulogMessage.length).bind fun s1 =>
      (if first_message ≠ 0 then
        _writeData s1 (data.take first_message) first_message
      else some s1).bind fun s2 =>
      some { s2 with ulogMessage := [] }
    else some s).bind fun s3 =>
    (_writeUlogMessage s3 (if first_message ≠ 0 then data.drop first_message else data)).bind
      fun r => some { r.1 with ulogMessage := r.2 }

/-- The dropout record of lines 256-257 for `num_drops` (already capped). -/
def bogus (num_drops : Int) : List Nat :=
  [2, 0, 79, (num_drops * 10 % 256).toNat, 0]

/-- Lines 251-287 of `processStreamData`: the loop body after the header
block. Returns the state at the `break`. -/
def processBody (s : MavlinkLogProcessor) (num_drops : Int) (first_message : Nat)
    (data : List Nat) : Option MavlinkLogProcessor :=
  (if s.gotHeader = true ∧ num_drops > 0 then
    _writeData s (bogus (if num_drops > 25 then 25 else num_drops)) 5
  else some s).bind fun s1 =>
  if num_drops > 0 then
    (_writeUlogMessage s1 s1.ulogMessage).bind fun r =>
    let s2 := { r.1 with ulogMessage := [] }
    if first_message = 255 then
      some s2
    else
      processTail s2 0 (if first_message > 0 then data.drop first_message else data)
  else
    processTail s1 first_message data

/-- `processStreamData(sequence, first_message, data)` (lines 232-290).
Returns the result and the new state. -/
def processStreamData (s : MavlinkLogProcessor) (sequence first_message : Nat)
    (data : List Nat) : Option (Bool × MavlinkLogProcessor) :=
  let c := _checkSequence { s with error := false } sequence
  if c.1 = true then
    if c.2.2.gotHeader = false then
      if data.length < 16 then
        some (false, c.2.2)
      else
        (_writeData c.2.2 data 16).bind fun s1 =>
        (processBody { s1 with gotHeader := true } c.2.1 first_message (data.drop 16)).bind
          fun s2 => some (!s2.error, s2)
    else
      (processBody c.2.2 c.2.1 first_message data).bind fun s2 => some (!s2.error, s2)
  else
    some (!c.2.2.error, c.2.2)

end MavlinkLogProcessor

/-! ## Sessions -/

/-- An empty stream whose writes all succeed. -/
def File.empty : File :=
  { contents := [], limits := [], calls := [] }

/-- A session as the manager starts it: `new MavlinkLogProcessor` followed by a
successful `create` on the stream `f`. -/
def session (fileName : String) (f : File) : MavlinkLogProcessor :=
  (MavlinkLogProcessor.new.create fileName (some f)).2

/-- The bytes accepted by the stream of a processor (none when closed). -/
def sink (s : MavlinkLogProcessor) : List Nat :=
  match s.fd with
  | some f => f.contents
  | none => []

/-- Processes the chunks `(sequence, first_message, data)` in order on one
processor, as repeated `processStreamData` calls; the results are dropped. -/
def feed (s : MavlinkLogProcessor) : List (Nat × Nat × List Nat) → Option MavlinkLogProcessor
  | [] => some s
  | c :: cs => (s.processStreamData c.1 c.2.1 c.2.2).bind fun r => feed r.2 cs

/-! ## Concrete inputs -/

/-- A 16-byte ULog file header (magic, version 1, zero timestamp). -/
def ulogHeader : List Nat := [85, 76, 111, 103, 1, 18, 53, 1, 0, 0, 0, 0, 0, 0, 0, 0]

/-- A 32-byte first chunk: the header and 16 more bytes. -/
def chunk1 : List Nat :=
  ulogHeader ++ [16, 17, 18, 19, 20, 21, 22, 23, 24, 25, 26, 27, 28, 29, 30, 31]

/-- A short continuation chunk. -/
def chunk2 : List Nat := [32, 33, 34, 35]

/-- A session whose last recorded sequence number is 65530. -/
def at65530 : MavlinkLogProcessor :=
  { session "007.ulg" File.empty with sequence := 65530 }

/-- A 25-byte first chunk: the header and two complete records (of 4 and 5
bytes). -/
def twoRecords : List Nat := ulogHeader ++ [1, 0, 65, 7] ++ [2, 0, 66, 8, 9]

/-- A new file on a full disk: the first write takes nothing, later ones
succeed. -/
def fullDisk : File := { contents := [], limits := [0], calls := [] }

/-- A session whose error flag is set. -/
def errorSet : MavlinkLogProcessor :=
  { session "007.ulg" File.empty with error := true, gotHeader := true }

/-- A session with the header received and last sequence number 100. -/
def headerIn : MavlinkLogProcessor :=
  { session "007.ulg" File.empty with sequence := 100, gotHeader := true }

/-! ## Auxiliary functions -/

/-- The number of bytes `_writeUlogMessage` hands to `_writeData` for `data`
(0 when it writes nothing). -/
def firstMessage (data : List Nat) : Nat :=
  match data with
  | b0 :: b1 :: _ :: _ => if b0 + b1 * 256 + 3 > data.length then 0 else b0 + b1 * 256 + 3
  | _ => 0

/-- The bytes the stream took in the calls `cs`. -/
def acceptedBytes : List FwriteCall → List Nat
  | [] => []
  | c :: cs => c.data.take c.ret ++ acceptedBytes cs

/-- The bytes `_writeData` counts for the calls `cs`: the length of every call
that was taken whole. -/
def countedBytes : List FwriteCall → Nat
  | [] => 0
  | c :: cs => (if c.ret = c.len then c.len else 0) + countedBytes cs

/-- The processor went from `s` to `s'` by the `fwrite` calls `cs`. -/
def Trace (s s' : MavlinkLogProcessor) (cs : List FwriteCall) : Prop :=
  ∃ f f', s.fd = some f ∧ s'.fd = some f' ∧
    f'.calls = f.calls ++ cs ∧
    f'.contents = f.contents ++ acceptedBytes cs ∧
    s'.written = (s.written + countedBytes cs) % 4294967296 ∧
    (s'.error = true ↔ (s.error = true ∨ ∃ c ∈ cs, c.ret ≠ c.len)) ∧
    (s.error = true → cs = []) ∧
    (∀ c ∈ cs.dropLast, c.ret = c.len) ∧
    (f.limits = [] → f'.limits = [] ∧ ∀ c ∈ cs, c.ret = c.len)

/-- State after a `_writeData` of `bytes` that the stream `f` took whole. -/
def wrote (s : MavlinkLogProcessor) (f : File) (bytes : List Nat) : MavlinkLogProcessor :=
  { s with
      fd := some { contents := f.contents ++ bytes
                   limits := []
                   calls := f.calls ++ [{ data := bytes, len := bytes.length, ret := bytes.length }] }
      error := false
      written := (s.written + bytes.length) % 4294967296
      record := s.record.map (fun rec => rec.setSize ((s.written + bytes.length) % 4294967296)) }

/-! ## MavlinkLogManager

The record objects live in `_logFiles`; every other reference to one of them
(`_currentLogfile`, the `_record` of the processor) is a pointer. An entry of
`logFiles` is the address of an object together with its members, and the
objects in the list are distinct. Using a pointer to a deleted object is
undefined behaviour (`none`). What the manager does to its collaborators (the
vehicle, the network, the file system, its listeners) is appended to `effects`;
what they answer (the time, `fopen`, whether a log file can be read) is an
argument of the operation. The notifications that only tell a view to refresh
(`...Changed`) are left out. -/

/-- The constructor `MavlinkLogFiles(manager, filePath, newFile)` with
`newFile = false` (lines 38-56): the size of the file and the existence of its
sidecar come from the file system. -/
def MavlinkLogFiles.existing (filePath : String) (size : Nat) (sideCar : Bool) :
    MavlinkLogFiles :=
  { name := String.mk (baseNameChars filePath.data)
    size := size % 4294967296
    selected := false
    uploading := false
    progress := 0
    writing := false
    uploaded := sideCar }

/-- `MavlinkLogFiles::setSelected` (lines 67-73). -/
def MavlinkLogFiles.setSelected (r : MavlinkLogFiles) (selected : Bool) : MavlinkLogFiles :=
  { r with selected := selected }

/-- `MavlinkLogFiles::setUploading` (lines 76-81). -/
def MavlinkLogFiles.setUploading (r : MavlinkLogFiles) (uploading : Bool) : MavlinkLogFiles :=
  { r with uploading := uploading }

/-- `MavlinkLogFiles::setProgress` (lines 84-89); a `qreal` is kept as an exact
rational. -/
def MavlinkLogFiles.setProgress (r : MavlinkLogFiles) (progress : Rat) : MavlinkLogFiles :=
  { r with progress := progress }

/-- `MavlinkLogFiles::setUploaded` (lines 100-105). -/
def MavlinkLogFiles.setUploaded (r : MavlinkLogFiles) (uploaded : Bool) : MavlinkLogFiles :=
  { r with uploaded := uploaded }

/-- What the manager does to its collaborators. -/
inductive Effect where
  | startMavlinkLog (vehicle : Nat)
  | stopMavlinkLog (vehicle : Nat)
  | post (url logFile : String)
  | abortUpload
  | failed
  | succeed
  | readyRead
  | removeFile (path : String)
  | removeSidecar (path : String)
  | createSidecar (path : String)
deriving DecidableEq

/-- The object behind `_logProcessor`: the members of the processor and the
address its `_record` holds. `state.record` is the processor's view of that
object: it is read from `logFiles` before a call of the processor and written
back after it. -/
structure ProcessorObject where
  state : MavlinkLogProcessor
  record : Nat
deriving DecidableEq

/-- The data members of `MavlinkLogManager` (initialiser list, lines 294-306),
the timer `_ackTimer` (is it running), and the world around it: the next free
address for a record object, the number of network replies that have not
finished, and the effects so far. -/
structure MavlinkLogManager where
  emailAddress : String
  description : String
  uploadURL : String
  enableAutoUpload : Bool
  enableAutoStart : Bool
  logFiles : List (Nat × MavlinkLogFiles)
  currentLogfile : Option Nat
  vehicle : Option Nat
  logRunning : Bool
  loggingDisabled : Bool
  logProcessor : Option ProcessorObject
  deleteAfterUpload : Bool
  loggingCmdTryCount : Int
  logPath : String
  ackTimer : Bool
  nextRecord : Nat
  replies : Nat
  effects : List Effect
deriving DecidableEq

/-- `kUlogExtension`. -/
def kUlogExtension : String := ".ulg"

/-- `kSidecarExtension`. -/
def kSidecarExtension : String := ".uploaded"

/-- `kDefaultPx4URL`. -/
def kDefaultPx4URL : String := "http://logs.px4.io/upload"

/-- `MAV_CMD_LOGGING_START` of the MAVLink common message set. -/
def MAV_CMD_LOGGING_START : Nat := 2510

/-- `MAV_CMD_LOGGING_STOP` of the MAVLink common message set. -/
def MAV_CMD_LOGGING_STOP : Nat := 2511

/-- The object at address `p`, if it is alive. -/
def lookupRecord (l : List (Nat × MavlinkLogFiles)) (p : Nat) : Option MavlinkLogFiles :=
  match l with
  | [] => none
  | e :: rest => if e.1 = p then some e.2 else lookupRecord rest p

/-- A member function applied to the object at address `p`. -/
def updateRecord (l : List (Nat × MavlinkLogFiles)) (p : Nat)
    (f : MavlinkLogFiles → MavlinkLogFiles) : List (Nat × MavlinkLogFiles) :=
  l.map fun e => if e.1 = p then (e.1, f e.2) else e

/-- `QmlObjectListModel::removeOne(log)`: the first entry holding the address
`log` is removed. -/
def removeOne (l : List (Nat × MavlinkLogFiles)) (log : Nat) : List (Nat × MavlinkLogFiles) :=
  match l with
  | [] => []
  | e :: rest => if e.1 = log then rest else e :: removeOne rest log

/-- The loop of `_insertNewLog` (lines 456-468) on the list: before the first
record with a greater name, else at the end. `QString` compares character by
character, which is the order of the character lists. -/
def insertSorted (newLog : Nat × MavlinkLogFiles) :
    List (Nat × MavlinkLogFiles) → List (Nat × MavlinkLogFiles)
  | [] => [newLog]
  | f :: rest =>
    if newLog.2.name.data < f.2.name.data then newLog :: f :: rest
    else f :: insertSorted newLog rest

/-- The loop of `_getFirstSelected` (lines 475-482) from index `i` on. -/
def firstSelectedFrom : List (Nat × MavlinkLogFiles) → Nat → Int
  | [], _ => -1
  | f :: rest, i => if f.2.selected = true then (i : Int) else firstSelectedFrom rest (i + 1)

/-- The loop of `uploadLog` (lines 432-446) on the list: the records as the scan
leaves them, and the address of the record chosen (none when the scan runs
out). -/
def uploadScan (emailAddress uploadURL : String) :
    List (Nat × MavlinkLogFiles) → List (Nat × MavlinkLogFiles) × Option Nat
  | [] => ([], none)
  | f :: rest =>
    if f.2.selected = true then
      if f.2.uploaded = false ∧ emailAddress ≠ "" ∧ uploadURL ≠ "" then
        ((f.1, ((f.2.setSelected false).setUploading true).setProgress 0) :: rest, some f.1)
      else
        ((f.1, f.2.setSelected false) :: (uploadScan emailAddress uploadURL rest).1,
          (uploadScan emailAddress uploadURL rest).2)
    else
      (f :: (uploadScan emailAddress uploadURL rest).1,
        (uploadScan emailAddress uploadURL rest).2)

/-- Did the processor get a write taken whole between `before` and `after`? -/
def tookWhole (before after : MavlinkLogProcessor) : Bool :=
  match before.fd, after.fd with
  | some f, some f' => (f'.calls.drop f.calls.length).any fun c => c.ret == c.len
  | _, _ => false

/-- The format `%03d` of `sprintf` for a `uint8_t`. -/
def format03d (id : Nat) : String :=
  if id < 10 then "00" ++ toString id
  else if id < 100 then "0" ++ toString id
  else toString id

namespace MavlinkLogManager

/-- The constructor (lines 294-334). The stored settings, whether the log
directory exists or could be made, and the `.ulg` files found in it (path,
size, whether the sidecar exists) come from the environment. -/
def new (emailAddress description uploadURL : String)
    (enableAutoUpload enableAutoStart deleteAfterUpload : Bool) (logPath : String)
    (pathOk : Bool) (found : List (String × Nat × Bool)) : MavlinkLogManager :=
  let m : MavlinkLogManager :=
    { emailAddress := emailAddress
      description := description
      uploadURL := if uploadURL = "" then kDefaultPx4URL else uploadURL
      enableAutoUpload := enableAutoUpload
      enableAutoStart := enableAutoStart
      logFiles := []
      currentLogfile := none
      vehicle := none
      logRunning := false
      loggingDisabled := !pathOk
      logProcessor := none
      deleteAfterUpload := deleteAfterUpload
      loggingCmdTryCount := 0
      logPath := logPath ++ "/MavlinkLogs"
      ackTimer := false
      nextRecord := 0
      replies := 0
      effects := [] }
  if pathOk then
    found.foldl (fun m file =>
      { m with
          logFiles := insertSorted
            (m.nextRecord, MavlinkLogFiles.existing file.1 file.2.1 file.2.2) m.logFiles
          nextRecord := m.nextRecord + 1 }) m
  else m

/-- `setEmailAddress` (lines 356-363). -/
def setEmailAddress (m : MavlinkLogManager) (email : String) : MavlinkLogManager :=
  { m with emailAddress := email }

/-- `setDescription` (lines 366-373). -/
def setDescription (m : MavlinkLogManager) (description : String) : MavlinkLogManager :=
  { m with description := description }

/-- `setUploadURL` (lines 376-386). -/
def setUploadURL (m : MavlinkLogManager) (url : String) : MavlinkLogManager :=
  { m with uploadURL := if url = "" then kDefaultPx4URL else url }

/-- `setEnableAutoUpload` (lines 389-396). -/
def setEnableAutoUpload (m : MavlinkLogManager) (enable : Bool) : MavlinkLogManager :=
  { m with enableAutoUpload := enable }

/-- `setEnableAutoStart` (lines 399-406). -/
def setEnableAutoStart (m : MavlinkLogManager) (enable : Bool) : MavlinkLogManager :=
  { m with enableAutoStart := enable }

/-- `setDeleteAfterUpload` (lines 409-416). -/
def setDeleteAfterUpload (m : MavlinkLogManager) (enable : Bool) : MavlinkLogManager :=
  { m with deleteAfterUpload := enable }

/-- A view calling `setSelected` on the record object at address `log`. -/
def selectRecord (m : MavlinkLogManager) (log : Nat) (selected : Bool) :
    Option MavlinkLogManager :=
  match lookupRecord m.logFiles log with
  | none => none
  | some _ => some { m with logFiles := updateRecord m.logFiles log (fun r => r.setSelected selected) }

/-- `uploading()` (lines 419-423). -/
def uploading (m : MavlinkLogManager) : Bool :=
  m.currentLogfile.isSome

/-- `_makeFilename(baseName)` (lines 891-899). -/
def _makeFilename (m : MavlinkLogManager) (baseName : String) : String :=
  m.logPath ++ "/" ++ baseName ++ kUlogExtension

/-- `_sendLog(logFile)` (lines 594-660). `fileOk`: the log file exists and can be
opened for reading. -/
def _sendLog (m : MavlinkLogManager) (logFile : String) (fileOk : Bool) :
    Bool × MavlinkLogManager :=
  if m.emailAddress = "" then (false, m)
  else if m.uploadURL = "" then (false, m)
  else if fileOk = false then (false, m)
  else
    (true, { m with replies := m.replies + 1
                    effects := m.effects ++ [Effect.post m.uploadURL logFile] })

/-- `uploadLog()` (lines 426-449). -/
def uploadLog (m : MavlinkLogManager) (fileOk : Bool) : Option MavlinkLogManager :=
  (match m.currentLogfile with
    | some p =>
      match lookupRecord m.logFiles p with
      | none => none
      | some _ => some (updateRecord m.logFiles p fun r => r.setUploading false)
    | none => some m.logFiles).bind fun files =>
  match (uploadScan m.emailAddress m.uploadURL files).2 with
  | some p =>
    match lookupRecord (uploadScan m.emailAddress m.uploadURL files).1 p with
    | none => none
    | some r =>
      some (_sendLog
        { m with logFiles := (uploadScan m.emailAddress m.uploadURL files).1
                 currentLogfile := some p }
        (m._makeFilename r.name) fileOk).2
  | none =>
    some { m with logFiles := (uploadScan m.emailAddress m.uploadURL files).1
                  currentLogfile := none }

/-- `_insertNewLog(newLog)` (lines 452-469). -/
def _insertNewLog (m : MavlinkLogManager) (newLog : Nat × MavlinkLogFiles) : MavlinkLogManager :=
  { m with logFiles := insertSorted newLog m.logFiles }

/-- `_getFirstSelected()` (lines 472-483). -/
def _getFirstSelected (m : MavlinkLogManager) : Int :=
  firstSelectedFrom m.logFiles 0

/-- `_deleteLog(log)` (lines 500-518). -/
def _deleteLog (m : MavlinkLogManager) (log : Nat) : Option MavlinkLogManager :=
  match lookupRecord m.logFiles log with
  | none => none
  | some r =>
    some { m with
            effects := m.effects ++
              [Effect.removeFile (m._makeFilename r.name),
               Effect.removeSidecar ((m._makeFilename r.name).replace kUlogExtension kSidecarExtension)]
            logFiles := removeOne m.logFiles log }

/-- The `while (true)` loop of `deleteLog()` (lines 489-496), run for at most
`fuel` rounds; `none` when the rounds run out (or on undefined behaviour). -/
def deleteLogLoop : Nat → MavlinkLogManager → Option MavlinkLogManager
  | 0, _ => none
  | fuel + 1, m =>
    if m._getFirstSelected < 0 then some m
    else
      match m.logFiles.get? m._getFirstSelected.toNat with
      | none => none
      | some f => (m._deleteLog f.1).bind (deleteLogLoop fuel)

/-- `deleteLog()` (lines 486-497): one round more than there are records. -/
def deleteLog (m : MavlinkLogManager) : Option MavlinkLogManager :=
  deleteLogLoop (m.logFiles.length + 1) m

/-- `cancelUpload()` (lines 521-534). -/
def cancelUpload (m : MavlinkLogManager) : MavlinkLogManager :=
  { m with
      logFiles := m.logFiles.map fun f =>
        if f.2.selected = true ∧ some f.1 ≠ m.currentLogfile then (f.1, f.2.setSelected false)
        else f
      effects := if m.currentLogfile.isSome then m.effects ++ [Effect.abortUpload] else m.effects }

/-- `_createNewLog()` (lines 854-871), called with a vehicle `vehicle` present.
The time stamp and the result of `fopen` come from the environment. -/
def _createNewLog (m : MavlinkLogManager) (vehicle : Nat) (timestamp : String)
    (fopen : Option File) : Bool × MavlinkLogManager :=
  let created := MavlinkLogProcessor.new.create
    (m.logPath ++ "/" ++ format03d (vehicle % 256) ++ "-" ++ timestamp ++ kUlogExtension) fopen
  match created.1, created.2.record with
  | true, some r =>
    (true, { m with
              logProcessor := some { state := created.2, record := m.nextRecord }
              logFiles := insertSorted (m.nextRecord, r) m.logFiles
              nextRecord := m.nextRecord + 1 })
  | _, _ => (false, { m with logProcessor := none })

/-- `startLogging()` (lines 537-549). -/
def startLogging (m : MavlinkLogManager) (timestamp : String) (fopen : Option File) :
    MavlinkLogManager :=
  match m.vehicle with
  | some v =>
    let c := m._createNewLog v timestamp fopen
    if c.1 = true then
      { c.2 with
          effects := c.2.effects ++ [Effect.startMavlinkLog v]
          logRunning := true
          loggingCmdTryCount := 0
          ackTimer := true }
    else c.2
  | none => m

/-- `stopLogging()` (lines 552-581). -/
def stopLogging (m : MavlinkLogManager) (fileOk : Bool) : Option MavlinkLogManager :=
  let m1 : MavlinkLogManager :=
    match m.vehicle with
    | some v => { m with effects := m.effects ++ [Effect.stopMavlinkLog v] }
    | none => m
  match m1.logProcessor with
  | some p =>
    (if p.state.record.isSome = true then
      match lookupRecord m1.logFiles p.record with
      | none => none
      | some _ =>
        let m2 := { m1 with
          logFiles := updateRecord m1.logFiles p.record fun r => r.setWriting false }
        if m2.enableAutoUpload = true then
          let m3 := { m2 with
            logFiles := updateRecord m2.logFiles p.record fun r => r.setSelected true }
          if m3.uploading = false then m3.uploadLog fileOk else some m3
        else some m2
    else some m1).bind fun (m4 : MavlinkLogManager) =>
    some { m4 with
            logProcessor := none
            logRunning := false
            loggingCmdTryCount := if m4.vehicle.isSome then 0 else m4.loggingCmdTryCount
            ackTimer := if m4.vehicle.isSome then true else m4.ackTimer }
  | none => some m1

/-- `_processUploadResponse(http_code, data)` (lines 663-669). -/
def _processUploadResponse (m : MavlinkLogManager) (http_code : Int) :
    Bool × MavlinkLogManager :=
  (http_code = 200, { m with effects := m.effects ++ [Effect.readyRead] })

/-- `_uploadFinished()` (lines 684-720) for a reply that finished with status
`http_code`. -/
def _uploadFinished (m : MavlinkLogManager) (http_code : Int) (fileOk : Bool) :
    Option MavlinkLogManager :=
  let r := m._processUploadResponse http_code
  (if r.1 = true then
    let m1 := { r.2 with effects := r.2.effects ++ [Effect.succeed] }
    if m1.deleteAfterUpload = true then
      match m1.currentLogfile with
      | some p =>
        (m1._deleteLog p).map fun (m2 : MavlinkLogManager) => { m2 with currentLogfile := none }
      | none => some m1
    else
      match m1.currentLogfile with
      | some p =>
        match lookupRecord m1.logFiles p with
        | none => none
        | some rec =>
          some { m1 with
                  logFiles := updateRecord m1.logFiles p fun x => x.setUploaded true
                  effects := m1.effects ++
                    [Effect.createSidecar
                      ((m1._makeFilename rec.name).replace kUlogExtension kSidecarExtension)] }
      | none => some m1
  else
    some { r.2 with effects := r.2.effects ++ [Effect.failed] }).bind
    fun (m3 : MavlinkLogManager) =>
  ({ m3 with replies := m3.replies - 1 } : MavlinkLogManager).uploadLog fileOk

/-- `_uploadProgress(bytesSent, bytesTotal)` (lines 723-733); the quotient of
two `qreal` is kept as an exact rational. -/
def _uploadProgress (m : MavlinkLogManager) (bytesSent bytesTotal : Int) :
    Option MavlinkLogManager :=
  if bytesTotal ≠ 0 then
    match m.currentLogfile with
    | some p =>
      match lookupRecord m.logFiles p with
      | none => none
      | some _ =>
        some { m with logFiles := updateRecord m.logFiles p fun r =>
          r.setProgress ((bytesSent : Rat) / (bytesTotal : Rat)) }
    | none => some m
  else some m

/-- `_activeVehicleChanged(vehicle)` (lines 736-762). -/
def _activeVehicleChanged (m : MavlinkLogManager) (vehicle : Option Nat) (fileOk : Bool) :
    Option MavlinkLogManager :=
  (match m.vehicle with
    | some _ => ({ m with vehicle := none } : MavlinkLogManager).stopLogging fileOk
    | none => some m).bind fun (m1 : MavlinkLogManager) =>
  match vehicle with
  | some v => some { m1 with vehicle := some v }
  | none => some m1

/-- `_discardLog()` (lines 837-851). -/
def _discardLog (m : MavlinkLogManager) : Option MavlinkLogManager :=
  (match m.logProcessor with
    | some p =>
      (if p.state.record.isSome = true then m._deleteLog p.record else some m).map
        fun (m1 : MavlinkLogManager) => { m1 with logProcessor := none }
    | none => some m).bind fun (m2 : MavlinkLogManager) =>
  some { m2 with logRunning := false }

/-- `_processCmdAck()` (lines 765-792), the slot of the timer. -/
def _processCmdAck (m : MavlinkLogManager) : Option MavlinkLogManager :=
  let m1 := { m with loggingCmdTryCount := m.loggingCmdTryCount + 1 }
  if m.loggingCmdTryCount > 3 then
    let m2 := { m1 with ackTimer := false }
    if m2.logRunning = true then m2._discardLog else some m2
  else
    match m1.vehicle with
    | some v =>
      some { m1 with
              effects := m1.effects ++
                [if m1.logRunning = true then Effect.startMavlinkLog v
                 else Effect.stopMavlinkLog v]
              ackTimer := true }
    | none => some { m1 with ackTimer := false }

/-- `_mavlinkLogData(...)` (lines 795-814). The processor works on the record
object its `_record` points to; when that object has been deleted, the call is
undefined as soon as a write is taken whole (`setSize` on a dead object). -/
def _mavlinkLogData (m : MavlinkLogManager) (sequence first_message : Nat) (data : List Nat) :
    Option MavlinkLogManager :=
  let m1 := if m.logRunning = true then { m with ackTimer := false } else m
  match m1.logProcessor with
  | some p =>
    if p.state.valid = true then
      match ({ p.state with record := lookupRecord m1.logFiles p.record } :
          MavlinkLogProcessor).processStreamData sequence first_message data with
      | none => none
      | some res =>
        (match lookupRecord m1.logFiles p.record, res.2.record with
          | some _, some r' =>
            some { m1 with logFiles := updateRecord m1.logFiles p.record fun _ => r' }
          | _, _ =>
            if tookWhole p.state res.2 = true then none else some m1).bind
          fun (m2 : MavlinkLogManager) =>
        if res.1 = false then
          match m2.vehicle with
          | some v =>
            some { m2 with
                    logProcessor := none
                    logRunning := false
                    effects := m2.effects ++ [Effect.stopMavlinkLog v] }
          | none => none
        else
          some { m2 with
                  logProcessor := some { p with state := { res.2 with record := p.state.record } } }
    else some m1
  | none => some m1

/-- `_commandLongAck(compID, command, result)` (lines 817-834). -/
def _commandLongAck (m : MavlinkLogManager) (command result : Nat) :
    Option MavlinkLogManager :=
  if command = MAV_CMD_LOGGING_START ∨ command = MAV_CMD_LOGGING_STOP then
    let m1 := { m with ackTimer := false }
    if result ≠ 0 then
      if command = MAV_CMD_LOGGING_STOP then some m1
      else m1._discardLog
    else some m1
  else some m

/-- `_armedChanged(armed)` (lines 874-888). -/
def _armedChanged (m : MavlinkLogManager) (armed : Bool) (timestamp : String)
    (fopen : Option File) (fileOk : Bool) : Option MavlinkLogManager :=
  match m.vehicle with
  | some _ =>
    if armed = true then
      if m.enableAutoStart = true then some (m.startLogging timestamp fopen) else some m
    else
      if m.logRunning = true ∧ m.enableAutoStart = true then m.stopLogging fileOk else some m
  | none => some m

end MavlinkLogManager

/-! ## Sessions and managers for the invariants -/

/-- The bytes counted for the stream of a processor. -/
def countedOf (s : MavlinkLogProcessor) : Nat :=
  match s.fd with
  | some f => countedBytes f.calls
  | none => 0

/-- The size bookkeeping of a processor agrees with the history of its stream. -/
def Tracked (s : MavlinkLogProcessor) : Prop :=
  ∃ f r, s.fd = some f ∧ s.record = some r ∧ r.size = s.written ∧
    s.written = countedBytes f.calls % 4294967296 ∧
    f.contents = acceptedBytes f.calls ∧
    ∀ c ∈ f.calls, c.data.length = c.len

/-- A step from `s` to `s'` keeps the size bookkeeping and does not lower the
count. -/
def Keeps (s s' : MavlinkLogProcessor) : Prop :=
  Tracked s → Tracked s' ∧ countedOf s ≤ countedOf s'

/-- The states of a session: `create` on a new file `f0`, then any number of
`processStreamData` calls. -/
inductive SessionReachable (fileName : String) (f0 : File) : MavlinkLogProcessor → Prop
  | create : SessionReachable fileName f0 (session fileName f0)
  | process (s s' : MavlinkLogProcessor) (ok : Bool) (sequence first_message : Nat)
      (data : List Nat) :
      SessionReachable fileName f0 s →
      s.processStreamData sequence first_message data = some (ok, s') →
      SessionReachable fileName f0 s'

/-- A manager that found an empty log directory, with vehicle 7 connected. -/
def idle7 : MavlinkLogManager :=
  { MavlinkLogManager.new "pilot@example.org" "" "" true true false "/data" true [] with
      vehicle := some 7 }

/-- A manager that found three logs, the second of them uploaded before. -/
def threeLogs : MavlinkLogManager :=
  MavlinkLogManager.new "pilot@example.org" "" "" true true false "/data" true
    [("/data/MavlinkLogs/a.ulg", 20, true), ("/data/MavlinkLogs/b.ulg", 10, false),
     ("/data/MavlinkLogs/c.ulg", 5, false)]

/-- `n` expiries of the acknowledgement timer in a row. -/
def expire : Nat → MavlinkLogManager → Option MavlinkLogManager
  | 0, m => some m
  | n + 1, m => m._processCmdAck.bind (expire n)


/-- The records after `uploadLog` has released the previous upload target
(lines 429-431). -/
def releasedTarget (m : MavlinkLogManager) : List (Nat × MavlinkLogFiles) :=
  match m.currentLogfile with
  | some p => updateRecord m.logFiles p fun r => r.setUploading false
  | none => m.logFiles

/-- Three logs, `c` being uploaded and `b` selected in the meantime. -/
def uploadingC : Option MavlinkLogManager :=
  (threeLogs.selectRecord 2 true).bind fun m =>
  (m.uploadLog true).bind fun m => m.selectRecord 1 true

/-- Three logs with `b` and `c` selected. -/
def twoSelected : Option MavlinkLogManager :=
  (threeLogs.selectRecord 1 true).bind fun m => m.selectRecord 2 true

/-- Three logs with `b` and `c` selected, as a state. -/
def bcSelected : MavlinkLogManager :=
  { threeLogs with
      logFiles := updateRecord (updateRecord threeLogs.logFiles 1 fun r => r.setSelected true) 2
        fun r => r.setSelected true }

/-- The records after the upload of the target `p` has finished with status
`http_code` and the target has been released (lines 693-716 and 429-431, with
delete-after-upload off). -/
def finishedTarget (m : MavlinkLogManager) (p : Nat) (http_code : Int) :
    List (Nat × MavlinkLogFiles) :=
  if http_code = 200 then
    updateRecord m.logFiles p fun r => (r.setUploaded true).setUploading false
  else
    updateRecord m.logFiles p fun r => r.setUploading false

/-- Three logs, `b` being uploaded and `c` selected. -/
def uploadingB : MavlinkLogManager :=
  (bcSelected.uploadLog true).getD bcSelected

/-- A manager with vehicle 7 that has just started logging. -/
def started7 : MavlinkLogManager :=
  idle7.startLogging "2016-11-01-10-00-00-000" (some File.empty)

/-- The collection is ordered by name, ascending. -/
def SortedByName (l : List (Nat × MavlinkLogFiles)) : Prop :=
  l.Pairwise fun a b => a.2.name.data ≤ b.2.name.data

/-- The collections that insertions (`_insertNewLog`), deletions (`removeOne` in
`_deleteLog`) and the setters of the records, none of which writes the name,
build from the empty one. -/
inductive CollectionReachable : List (Nat × MavlinkLogFiles) → Prop
  | empty : CollectionReachable []
  | insert (l : List (Nat × MavlinkLogFiles)) (newLog : Nat × MavlinkLogFiles) :
      CollectionReachable l → CollectionReachable (insertSorted newLog l)
  | delete (l : List (Nat × MavlinkLogFiles)) (log : Nat) :
      CollectionReachable l → CollectionReachable (removeOne l log)
  | update (l : List (Nat × MavlinkLogFiles)) (p : Nat) (f : MavlinkLogFiles → MavlinkLogFiles) :
      (∀ r, (f r).name = r.name) →
      CollectionReachable l → CollectionReachable (updateRecord l p f)

/-! ## Chunks in sequence -/

/-- A payload of two complete records (of 4 and 5 bytes). -/
def twoRecordPayload : List Nat := [1, 0, 65, 7] ++ [2, 0, 66, 8, 9]

/-- A session with the header received, last sequence number 100, and the first
three bytes of a five-byte record buffered. -/
def straddling : MavlinkLogProcessor :=
  { headerIn with ulogMessage := [2, 0, 66] }

/-- The chunk numbered `seq` is accepted by `s` and no chunk was lost before
it. -/
def AcceptedNoDrops (s : MavlinkLogProcessor) (seq : Nat) : Prop :=
  (s._checkSequence seq).1 = true ∧ (s._checkSequence seq).2.1 = 0

/-- A session on the new file `f0` that has processed the chunks `chunks`
(sequence number and payload), each of them accepted with no drops and with
`first_message = 0`, the first of them with at least 16 bytes. -/
inductive CleanRun (fileName : String) (f0 : File) :
    MavlinkLogProcessor → List (Nat × List Nat) → Prop
  | create : CleanRun fileName f0 (session fileName f0) []
  | chunk (s s' : MavlinkLogProcessor) (ok : Bool) (seq : Nat) (data : List Nat)
      (chunks : List (Nat × List Nat)) :
      CleanRun fileName f0 s chunks →
      AcceptedNoDrops s seq →
      (chunks = [] → 16 ≤ data.length) →
      s.processStreamData seq 0 data = some (ok, s') →
      CleanRun fileName f0 s' (chunks ++ [(seq, data)])

/-- The session after the chunk `twoRecords` (sequence number 0). -/
def afterTwoRecords : MavlinkLogProcessor :=
  (((session "007.ulg" File.empty).processStreamData 0 0 twoRecords).map Prod.snd).getD
    (session "007.ulg" File.empty)

/-- A session with the header received, last sequence number 100, and a
complete four-byte record followed by two more bytes buffered. -/
def pendingRecord : MavlinkLogProcessor :=
  { headerIn with ulogMessage := [1, 0, 65, 7, 2, 0] }

/-! ## The manager and its events -/

/-- What happens to the manager: a call from a view or an event delivered to
one of its slots, together with what the environment answers in it. -/
inductive Event where
  | setEmailAddress (email : String)
  | setDescription (description : String)
  | setUploadURL (url : String)
  | setEnableAutoUpload (enable : Bool)
  | setEnableAutoStart (enable : Bool)
  | setDeleteAfterUpload (enable : Bool)
  | setSelected (log : Nat) (selected : Bool)
  | uploadLog (fileOk : Bool)
  | deleteLog
  | cancelUpload
  | startLogging (timestamp : String) (fopen : Option File)
  | stopLogging (fileOk : Bool)
  | uploadFinished (http_code : Int) (fileOk : Bool)
  | uploadProgress (bytesSent bytesTotal : Int)
  | activeVehicleChanged (vehicle : Option Nat) (fileOk : Bool)
  | processCmdAck
  | mavlinkLogData (sequence first_message : Nat) (data : List Nat)
  | commandLongAck (command result : Nat)
  | armedChanged (armed : Bool) (timestamp : String) (fopen : Option File) (fileOk : Bool)

/-- The member function that an event runs. -/
def MavlinkLogManager.handle (m : MavlinkLogManager) : Event → Option MavlinkLogManager
  | Event.setEmailAddress email => some (m.setEmailAddress email)
  | Event.setDescription description => some (m.setDescription description)
  | Event.setUploadURL url => some (m.setUploadURL url)
  | Event.setEnableAutoUpload enable => some (m.setEnableAutoUpload enable)
  | Event.setEnableAutoStart enable => some (m.setEnableAutoStart enable)
  | Event.setDeleteAfterUpload enable => some (m.setDeleteAfterUpload enable)
  | Event.setSelected log selected => m.selectRecord log selected
  | Event.uploadLog fileOk => m.uploadLog fileOk
  | Event.deleteLog => m.deleteLog
  | Event.cancelUpload => some m.cancelUpload
  | Event.startLogging timestamp fopen => some (m.startLogging timestamp fopen)
  | Event.stopLogging fileOk => m.stopLogging fileOk
  | Event.uploadFinished http_code fileOk => m._uploadFinished http_code fileOk
  | Event.uploadProgress bytesSent bytesTotal => m._uploadProgress bytesSent bytesTotal
  | Event.activeVehicleChanged vehicle fileOk => m._activeVehicleChanged vehicle fileOk
  | Event.processCmdAck => m._processCmdAck
  | Event.mavlinkLogData seq first_message data =>
    m._mavlinkLogData seq first_message data
  | Event.commandLongAck command result => m._commandLongAck command result
  | Event.armedChanged armed timestamp fopen fileOk =>
    m._armedChanged armed timestamp fopen fileOk

/-- The states of the manager: as constructed, then after any number of events
whose handling is defined. -/
inductive ManagerReachable : MavlinkLogManager → Prop
  | init (emailAddress description uploadURL : String)
      (enableAutoUpload enableAutoStart deleteAfterUpload : Bool) (logPath : String)
      (pathOk : Bool) (found : List (String × Nat × Bool)) :
      ManagerReachable (MavlinkLogManager.new emailAddress description uploadURL
        enableAutoUpload enableAutoStart deleteAfterUpload logPath pathOk found)
  | event (m m' : MavlinkLogManager) (e : Event) :
      ManagerReachable m → m.handle e = some m' → ManagerReachable m'

/-- The manager at line 566 of `stopLogging()`: the stop command sent, the
record `p` of the session marked not writing and selected. -/
def stopLoggingQueued (m : MavlinkLogManager) (p : Nat) : MavlinkLogManager :=
  { (match m.vehicle with
      | some v => { m with effects := m.effects ++ [Effect.stopMavlinkLog v] }
      | none => m) with
      logFiles := updateRecord (updateRecord m.logFiles p fun r => r.setWriting false) p
        fun r => r.setSelected true }

/-- Vehicle 7 after `startLogging()` and `stopLogging()`: waiting for the
acknowledgement of the stop command. -/
def stopped7 : MavlinkLogManager :=
  (started7.stopLogging true).getD started7

/-- A session whose drop count stands at the largest `int`, with last sequence
number 100. -/
def dropsAtMax : MavlinkLogProcessor :=
  { headerIn with numDrops := 2147483647 }

/-- The states of a session as the manager runs it: `create` on the file `f0`,
then `processStreamData` calls that all returned true; `_mavlinkLogData`
deletes the processor as soon as a call returns false (lines 803-807). -/
inductive SessionAlive (fileName : String) (f0 : File) : MavlinkLogProcessor → Prop
  | create : SessionAlive fileName f0 (session fileName f0)
  | process (s s' : MavlinkLogProcessor) (sequence first_message : Nat) (data : List Nat) :
      SessionAlive fileName f0 s →
      s.processStreamData sequence first_message data = some (true, s') →
      SessionAlive fileName f0 s'

/-- Three logs, `b` being uploaded and selected again by the user in the
meantime. -/
def reselectedB : Option MavlinkLogManager :=
  (threeLogs.selectRecord 1 true).bind fun m =>
  (m.uploadLog true).bind fun m => m.selectRecord 1 true

/-! ## The sequence check -/

theorem checkSequence_recorded (s : MavlinkLogProcessor) (last seq : Nat)
    (hlast : last < 65536) (hs : s.sequence = (last : Int)) :
    s._checkSequence seq =
      if (last < seq ∧ seq - last ≤ 32768) then
        (true, (seq : Int) - last - 1,
          { s with numDrops := wrapInt32 (s.numDrops + ((seq : Int) - last - 1))
                   sequence := (seq : Int) })
      else if (seq < last ∧ 32768 < last - seq) then
        (true, 65536 - (last : Int) - 1 + seq,
          { s with numDrops := wrapInt32 (s.numDrops + (65536 - (last : Int) - 1 + seq))
                   sequence := (seq : Int) })
      else (false, 0, s) := by
  have h1 : (last : Int) % 65536 = last := by omega
  have h2 : ¬ ((last : Int) = -1) := by omega
  unfold MavlinkLogProcessor._checkSequence
  rw [hs, h1, if_neg h2]
  split_ifs <;> first | rfl | omega

theorem wrapInt32_of_range (x : Int) (h1 : -2147483648 ≤ x) (h2 : x < 2147483648) :
    wrapInt32 x = x := by
  unfold wrapInt32
  omega

theorem checkSequence_unrecorded (s : MavlinkLogProcessor) (seq : Nat)
    (hs : s.sequence = -1) :
    s._checkSequence seq = (true, 0, { s with sequence := (seq : Int) }) := by
  unfold MavlinkLogProcessor._checkSequence
  rw [if_pos hs]

/-- C1 (amended): `_checkSequence` follows the case table. With a recorded
`lastSequence = last` in 0..65535, a chunk `seq` is accepted iff
`seq > last ∧ seq - last ≤ 32768` or `seq < last ∧ last - seq > 32768`; an
accepted chunk with `seq > last` reports `seq - last - 1` drops, one with
`seq < last` reports `65536 - last - 1 + seq`; on acceptance `_sequence`
becomes `seq` and `_numDrops` becomes the 32-bit `int` that holds the old count
plus the reported drops (between 0 and 32767), which is that sum itself (the
count grows by exactly the drops) whenever the sum is within the range of `int`;
a rejected chunk reports 0 drops and changes nothing. With no sequence recorded (`-1`) every
`seq` is accepted with 0 drops and `_sequence` becomes `seq`. -/
theorem checkSequence_case_table (s : MavlinkLogProcessor) (last seq : Nat)
    (hlast : last < 65536) :
    (s.sequence = (last : Int) →
      ((s._checkSequence seq).1 = true ↔
        (last < seq ∧ seq - last ≤ 32768) ∨ (seq < last ∧ 32768 < last - seq)) ∧
      ((s._checkSequence seq).1 = true → last < seq →
        (s._checkSequence seq).2.1 = (seq : Int) - last - 1) ∧
      ((s._checkSequence seq).1 = true → seq < last →
        (s._checkSequence seq).2.1 = 65536 - (last : Int) - 1 + seq) ∧
      ((s._checkSequence seq).1 = true →
        (s._checkSequence seq).2.2 =
          { s with sequence := (seq : Int)
                   numDrops := wrapInt32 (s.numDrops + (s._checkSequence seq).2.1) } ∧
        0 ≤ (s._checkSequence seq).2.1 ∧ (s._checkSequence seq).2.1 ≤ 32767 ∧
        (-2147483648 ≤ s.numDrops + (s._checkSequence seq).2.1 →
          s.numDrops + (s._checkSequence seq).2.1 < 2147483648 →
          (s._checkSequence seq).2.2.numDrops = s.numDrops + (s._checkSequence seq).2.1)) ∧
      ((s._checkSequence seq).1 = false →
        (s._checkSequence seq).2.1 = 0 ∧ (s._checkSequence seq).2.2 = s)) ∧
    (s.sequence = -1 →
      s._checkSequence seq = (true, 0, { s with sequence := (seq : Int) })) := by
  refine ⟨fun hs => ?_, checkSequence_unrecorded s seq⟩
  rw [checkSequence_recorded s last seq hlast hs]
  split_ifs with h1 h2
  · refine ⟨⟨fun _ => Or.inl h1, fun _ => rfl⟩, fun _ _ => rfl, fun _ h => by omega,
      fun _ => ⟨rfl, ?_, ?_, fun a b => wrapInt32_of_range _ a b⟩, fun h => by simp at h⟩
    · show (0 : Int) ≤ (seq : Int) - last - 1
      omega
    · show (seq : Int) - last - 1 ≤ 32767
      omega
  · refine ⟨⟨fun _ => Or.inr h2, fun _ => rfl⟩, fun _ h => by omega, fun _ _ => rfl,
      fun _ => ⟨rfl, ?_, ?_, fun a b => wrapInt32_of_range _ a b⟩, fun h => by simp at h⟩
    · show (0 : Int) ≤ 65536 - (last : Int) - 1 + seq
      omega
    · show 65536 - (last : Int) - 1 + seq ≤ 32767
      omega
  · refine ⟨⟨fun h => by simp at h, ?_⟩, fun h => by simp at h, fun h => by simp at h,
      fun h => by simp at h, fun _ => ⟨rfl, rfl⟩⟩
    rintro (h | h)
    · exact absurd h h1
    · exact absurd h h2

theorem checkSequence_case_table_witness :
    (at65530._checkSequence 3).1 = true ∧ (at65530._checkSequence 3).2.1 = 8 ∧
    (at65530._checkSequence 3).2.2.sequence = 3 ∧
    (at65530._checkSequence 3).2.2.numDrops = at65530.numDrops + 8 := by
  have h := (checkSequence_case_table at65530 65530 3 (by decide)).1 rfl
  have hacc : (at65530._checkSequence 3).1 = true := h.1.mpr (Or.inr ⟨by decide, by decide⟩)
  have hd : (at65530._checkSequence 3).2.1 = 8 := by
    have := h.2.2.1 hacc (by decide)
    rw [this]; decide
  refine ⟨hacc, hd, ?_, ?_⟩
  · rw [(h.2.2.2.1 hacc).1]; rfl
  · have := (h.2.2.2.1 hacc).2.2.2 (by rw [hd]; decide) (by rw [hd]; decide)
    rw [this, hd]

/-- C2: with a recorded `lastSequence = last` in 0..65535 and a forward gap
`1 ≤ g ≤ 32767`, `_checkSequence` on `(last + g) mod 65536` accepts and reports
`g - 1` drops, whether or not the sum wraps past 65535. -/
theorem checkSequence_forward_gap (s : MavlinkLogProcessor) (last g : Nat)
    (hlast : last < 65536) (hg1 : 1 ≤ g) (hg2 : g ≤ 32767) (hs : s.sequence = (last : Int)) :
    s._checkSequence ((last + g) % 65536) =
      (true, (g : Int) - 1,
        { s with numDrops := wrapInt32 (s.numDrops + ((g : Int) - 1))
                 sequence := (((last + g) % 65536 : Nat) : Int) }) := by
  rw [checkSequence_recorded s last _ hlast hs]
  by_cases hw : last + g < 65536
  · have hm : (last + g) % 65536 = last + g := Nat.mod_eq_of_lt hw
    have hc : last < (last + g) % 65536 ∧ (last + g) % 65536 - last ≤ 32768 := by omega
    rw [if_pos hc]
    have e : (((last + g) % 65536 : Nat) : Int) - last - 1 = (g : Int) - 1 := by omega
    rw [e]
  · have hm : (last + g) % 65536 = last + g - 65536 := by omega
    have hc1 : ¬ (last < (last + g) % 65536 ∧ (last + g) % 65536 - last ≤ 32768) := by omega
    have hc2 : (last + g) % 65536 < last ∧ 32768 < last - (last + g) % 65536 := by omega
    rw [if_neg hc1, if_pos hc2]
    have e : 65536 - (last : Int) - 1 + (((last + g) % 65536 : Nat) : Int) = (g : Int) - 1 := by
      omega
    rw [e]

theorem checkSequence_forward_gap_witness :
    at65530._checkSequence 3 =
      (true, 8, { at65530 with numDrops := wrapInt32 (at65530.numDrops + 8), sequence := 3 }) :=
  checkSequence_forward_gap at65530 65530 9 (by decide) (by decide) (by decide) rfl

/-! ## Rejected chunks -/

/-- C3: a rejected chunk is a no-op. With a recorded `lastSequence = last`, a
chunk with `seq = last`, or `seq < last ∧ last - seq ≤ 32768`, or
`seq > last ∧ seq - last > 32768` is rejected by the sequence check with 0
drops, and `processStreamData` returns `true` (no failure) and leaves the
stream, `_sequence`, `_numDrops`, `_written`, `_gotHeader`, `_ulogMessage` and
the record as they were: the only member touched is `_error`, which is
cleared. -/
theorem processStreamData_rejected_noop (s : MavlinkLogProcessor)
    (last seq first_message : Nat) (data : List Nat)
    (hlast : last < 65536) (hs : s.sequence = (last : Int))
    (hrej : seq = last ∨ (seq < last ∧ last - seq ≤ 32768) ∨ (last < seq ∧ 32768 < seq - last)) :
    s._checkSequence seq = (false, 0, s) ∧
    s.processStreamData seq first_message data = some (true, { s with error := false }) := by
  have h1 : ¬ (last < seq ∧ seq - last ≤ 32768) := by omega
  have h2 : ¬ (seq < last ∧ 32768 < last - seq) := by omega
  refine ⟨?_, ?_⟩
  · rw [checkSequence_recorded s last seq hlast hs, if_neg h1, if_neg h2]
  · unfold MavlinkLogProcessor.processStreamData
    rw [checkSequence_recorded { s with error := false } last seq hlast hs]
    rw [if_neg h1, if_neg h2]
    rfl

theorem processStreamData_rejected_noop_witness :
    headerIn._checkSequence 50 = (false, 0, headerIn) ∧
    headerIn.processStreamData 50 0 [1, 0, 65, 7] = some (true, { headerIn with error := false }) :=
  processStreamData_rejected_noop headerIn 100 50 0 [1, 0, 65, 7] (by decide) rfl
    (Or.inr (Or.inl ⟨by decide, by decide⟩))

/-! ## Two chunks without a record boundary -/

/-- C4 as stated fails: in a fresh session on a stream that takes every write,
the 32-byte `chunk1` (sequence 0, offset 255) and then `chunk2` (sequence 1,
offset 255) leave only the 16 header bytes in the stream, not the two payloads
one after the other. -/
theorem two_chunk_continuation_dropped :
    (feed (session "007.ulg" File.empty) [(0, 255, chunk1), (1, 255, chunk2)]).map sink
        = some (chunk1.take 16) ∧
    (feed (session "007.ulg" File.empty) [(0, 255, chunk1), (1, 255, chunk2)]).map sink
        ≠ some (chunk1 ++ chunk2) := by
  decide

/-- C4 (amended): in a fresh session on a stream that takes every write, a
first chunk (sequence 0, offset 255) of 16 to 271 bytes followed by a chunk
(sequence 1, offset 255) of at most 255 bytes makes both calls return `true` and
leaves in the stream exactly the first 16 bytes of the first payload: one
`fwrite`, of the header, and no dropout record; `_written` and the record's
size are both 16, the number of bytes written, and nothing is buffered. -/
theorem two_chunk_header_only (fileName : String) (f : File) (p1 p2 : List Nat)
    (hf : f.limits = []) (h16 : 16 ≤ p1.length) (h271 : p1.length ≤ 271)
    (h255 : p2.length ≤ 255) :
    ∃ s1 s2 f2,
      (session fileName f).processStreamData 0 255 p1 = some (true, s1) ∧
      s1.processStreamData 1 255 p2 = some (true, s2) ∧
      s2.fd = some f2 ∧
      f2.contents = f.contents ++ p1.take 16 ∧
      f2.calls = f.calls ++ [{ data := p1.take 16, len := 16, ret := 16 }] ∧
      s2.written = 16 ∧
      s2.record.map (fun r => r.size) = some 16 ∧
      s2.ulogMessage = [] := by
  have hd1 : p1.drop 271 = [] := List.drop_eq_nil_of_le h271
  have hd2 : p2.drop 255 = [] := List.drop_eq_nil_of_le h255
  have hn16 : ¬ p1.length < 16 := by omega
  have hm : min 16 p1.length = 16 := by omega
  simp [MavlinkLogProcessor.processStreamData, MavlinkLogProcessor._checkSequence, session,
    MavlinkLogProcessor.create, MavlinkLogProcessor.new, MavlinkLogProcessor._writeData, fwrite,
    hf, MavlinkLogProcessor.processBody, MavlinkLogProcessor.processTail,
    MavlinkLogProcessor._writeUlogMessage, hd1, hd2, hn16, hm, MavlinkLogFiles.setSize,
    MavlinkLogFiles.newFile, MavlinkLogFiles.setWriting]

theorem two_chunk_header_only_witness :
    ∃ s1 s2 f2,
      (session "007.ulg" File.empty).processStreamData 0 255 chunk1 = some (true, s1) ∧
      s1.processStreamData 1 255 chunk2 = some (true, s2) ∧
      s2.fd = some f2 ∧
      f2.contents = File.empty.contents ++ chunk1.take 16 ∧
      f2.calls = File.empty.calls ++ [{ data := chunk1.take 16, len := 16, ret := 16 }] ∧
      s2.written = 16 ∧
      s2.record.map (fun r => r.size) = some 16 ∧
      s2.ulogMessage = [] :=
  two_chunk_header_only "007.ulg" File.empty chunk1 chunk2 rfl (by decide) (by decide) (by decide)

/-- C5 at its failing input: one chunk (sequence 0, offset 0) holding the
header and two complete records. The call returns `true`, but the stream holds
only the header and the first record; the second record stays in
`_ulogMessage` and the stream differs from the payload. -/
theorem round_trip_second_record_held_back :
    ((session "007.ulg" File.empty).processStreamData 0 0 twoRecords).map
        (fun r => (r.1, sink r.2, r.2.ulogMessage))
      = some (true, ulogHeader ++ [1, 0, 65, 7], [2, 0, 66, 8, 9]) ∧
    ((session "007.ulg" File.empty).processStreamData 0 0 twoRecords).map (fun r => sink r.2)
      ≠ some twoRecords := by
  decide

/-- C6 as stated fails: on a disk that refuses the first write, the header
chunk makes `processStreamData` return `false` with `_error` set and nothing
written; the next call on the same processor writes its 4-byte record and
advances `_written` to 4. -/
theorem error_flag_cleared_by_next_call :
    ((session "007.ulg" fullDisk).processStreamData 0 0 ulogHeader).map
        (fun r => (r.1, r.2.error, sink r.2, r.2.written)) = some (false, true, [], 0) ∧
    (((session "007.ulg" fullDisk).processStreamData 0 0 ulogHeader).bind fun r =>
      (r.2.processStreamData 1 0 [1, 0, 65, 7]).map
        (fun r2 => (r2.1, sink r2.2, r2.2.written))) = some (true, [1, 0, 65, 7], 4) := by
  decide

theorem firstMessage_le (data : List Nat) : firstMessage data ≤ data.length := by
  unfold firstMessage
  split
  · split_ifs <;> omega
  · omega

theorem writeUlogMessage_eq (s : MavlinkLogProcessor) (data : List Nat) :
    s._writeUlogMessage data =
      if firstMessage data = 0 then some (s, data)
      else (s._writeData data (firstMessage data)).map
        (fun s1 => (s1, data.drop (firstMessage data))) := by
  rcases data with _ | ⟨b0, _ | ⟨b1, _ | ⟨b2, rest⟩⟩⟩
  · rfl
  · rfl
  · rfl
  · by_cases h : b0 + b1 * 256 + 3 > (b0 :: b1 :: b2 :: rest).length
    · simp only [MavlinkLogProcessor._writeUlogMessage, firstMessage, if_pos h, if_true]
    · have h0 : ¬ (b0 + b1 * 256 + 3 = 0) := by omega
      simp only [MavlinkLogProcessor._writeUlogMessage, firstMessage, if_neg h, if_neg h0]

theorem writeData_error_set (s : MavlinkLogProcessor) (data : List Nat) (len : Nat)
    (he : s.error = true) : s._writeData data len = some s := by
  simp [MavlinkLogProcessor._writeData, he]

theorem writeUlogMessage_error_set (s : MavlinkLogProcessor) (data : List Nat)
    (he : s.error = true) :
    s._writeUlogMessage data = some (s, data.drop (firstMessage data)) := by
  rw [writeUlogMessage_eq, writeData_error_set s _ _ he]
  split_ifs with h
  · rw [h]; rfl
  · rfl

theorem processTail_error_set (s : MavlinkLogProcessor) (first_message : Nat) (data : List Nat)
    (he : s.error = true) :
    ∃ s', s.processTail first_message data = some s' ∧ s'.fd = s.fd ∧
      s'.written = s.written ∧ s'.error = true ∧ s'.record = s.record := by
  unfold MavlinkLogProcessor.processTail
  split_ifs with h1 h2 h3 <;>
    simp [writeData_error_set, writeUlogMessage_error_set, he]

theorem processBody_error_set (s : MavlinkLogProcessor) (num_drops : Int) (first_message : Nat)
    (data : List Nat) (he : s.error = true) :
    ∃ s', s.processBody num_drops first_message data = some s' ∧ s'.fd = s.fd ∧
      s'.written = s.written ∧ s'.error = true ∧ s'.record = s.record := by
  unfold MavlinkLogProcessor.processBody
  split_ifs with h1 h2 h3 h4 h5 <;>
    simp only [writeData_error_set _ _ _ he, Option.some_bind,
      writeUlogMessage_error_set _ _ he] <;>
    first
    | exact ⟨_, rfl, rfl, rfl, he, rfl⟩
    | exact processTail_error_set { s with ulogMessage := [] } 0 _ he
    | exact processTail_error_set s first_message data he

/-- C6 (amended): the error flag blocks writes within the call that set it.
While `_error` is set, `_writeData` and `_writeUlogMessage` leave the processor
as it is, and the rest of the loop body of `processStreamData` leaves the
stream, `_written` and the record untouched and the flag set; the flag does
not outlive the call, since `processStreamData` clears it on entry (its result
is that of the same call with the flag cleared). -/
theorem error_flag_sticky_within_call (s : MavlinkLogProcessor) (num_drops : Int)
    (sequence first_message len : Nat) (data : List Nat) (he : s.error = true) :
    s._writeData data len = some s ∧
    (∃ rest, s._writeUlogMessage data = some (s, rest)) ∧
    (∃ s', s.processBody num_drops first_message data = some s' ∧ s'.fd = s.fd ∧
      s'.written = s.written ∧ s'.error = true ∧ s'.record = s.record) ∧
    s.processStreamData sequence first_message data =
      ({ s with error := false }).processStreamData sequence first_message data :=
  ⟨writeData_error_set s data len he, ⟨_, writeUlogMessage_error_set s data he⟩,
    processBody_error_set s num_drops first_message data he, rfl⟩


theorem error_flag_sticky_within_call_witness :
    errorSet._writeData [1, 0, 65, 7] 4 = some errorSet ∧
    (∃ rest, errorSet._writeUlogMessage [1, 0, 65, 7] = some (errorSet, rest)) ∧
    (∃ s', errorSet.processBody 1 0 [1, 0, 65, 7] = some s' ∧ s'.fd = errorSet.fd ∧
      s'.written = errorSet.written ∧ s'.error = true ∧ s'.record = errorSet.record) ∧
    errorSet.processStreamData 1 0 [1, 0, 65, 7] =
      ({ errorSet with error := false }).processStreamData 1 0 [1, 0, 65, 7] :=
  error_flag_sticky_within_call errorSet 1 1 0 4 [1, 0, 65, 7] rfl

/-! ## The header block -/

theorem checkSequence_error_irrelevant (s : MavlinkLogProcessor) (seq : Nat) (b : Bool) :
    ({ s with error := b })._checkSequence seq =
      ((s._checkSequence seq).1, (s._checkSequence seq).2.1,
        { (s._checkSequence seq).2.2 with error := b }) := by
  unfold MavlinkLogProcessor._checkSequence
  simp only []
  split_ifs <;> rfl

theorem checkSequence_frame (s : MavlinkLogProcessor) (seq : Nat) :
    (s._checkSequence seq).2.2.fd = s.fd ∧
    (s._checkSequence seq).2.2.written = s.written ∧
    (s._checkSequence seq).2.2.gotHeader = s.gotHeader ∧
    (s._checkSequence seq).2.2.error = s.error ∧
    (s._checkSequence seq).2.2.ulogMessage = s.ulogMessage ∧
    (s._checkSequence seq).2.2.record = s.record := by
  unfold MavlinkLogProcessor._checkSequence
  split_ifs <;> exact ⟨rfl, rfl, rfl, rfl, rfl, rfl⟩

/-- C9: corrupt header. When the header has not been received and an accepted
chunk (the first chunk of a session always is) carries fewer than 16 bytes,
`processStreamData` returns `false` and leaves the stream, `_written`,
`_gotHeader` (false), `_ulogMessage` and the record as they were; in a fresh
session that is an untouched stream, 0 bytes written and an empty buffer. -/
theorem processStreamData_corrupt_header (s : MavlinkLogProcessor)
    (sequence first_message : Nat) (data : List Nat)
    (hh : s.gotHeader = false) (hacc : (s._checkSequence sequence).1 = true)
    (hshort : data.length < 16) :
    ∃ s', s.processStreamData sequence first_message data = some (false, s') ∧
      s'.fd = s.fd ∧ s'.written = s.written ∧ s'.gotHeader = false ∧
      s'.ulogMessage = s.ulogMessage ∧ s'.record = s.record := by
  obtain ⟨h1, h2, h3, _, h5, h6⟩ := checkSequence_frame s sequence
  refine ⟨{ (s._checkSequence sequence).2.2 with error := false }, ?_, h1, h2, ?_, h5, h6⟩
  · unfold MavlinkLogProcessor.processStreamData
    rw [checkSequence_error_irrelevant]
    simp only []
    rw [if_pos hacc, if_pos (h3.trans hh), if_pos hshort]
  · exact h3.trans hh

theorem processStreamData_corrupt_header_witness :
    ∃ s', (session "007.ulg" File.empty).processStreamData 0 0 [85, 76, 111] = some (false, s') ∧
      s'.fd = some File.empty ∧ s'.written = 0 ∧ s'.gotHeader = false ∧
      s'.ulogMessage = [] ∧ s'.record = (session "007.ulg" File.empty).record :=
  processStreamData_corrupt_header (session "007.ulg" File.empty) 0 0 [85, 76, 111]
    rfl rfl (by decide)

/-! ## The history of `fwrite` calls -/

theorem acceptedBytes_append (a b : List FwriteCall) :
    acceptedBytes (a ++ b) = acceptedBytes a ++ acceptedBytes b := by
  induction a with
  | nil => rfl
  | cons c cs ih => simp [acceptedBytes, ih]

theorem countedBytes_append (a b : List FwriteCall) :
    countedBytes (a ++ b) = countedBytes a + countedBytes b := by
  induction a with
  | nil => simp [countedBytes]
  | cons c cs ih => simp [countedBytes, ih]; omega

theorem Trace.refl (s : MavlinkLogProcessor) (f : File) (hfd : s.fd = some f)
    (hw : s.written < 4294967296) : Trace s s [] := by
  refine ⟨f, f, hfd, hfd, by simp, by simp [acceptedBytes], ?_, by simp, by simp, by simp, by simp⟩
  simp only [countedBytes]; omega

theorem Trace.trans {a b c : MavlinkLogProcessor} {c1 c2 : List FwriteCall}
    (h1 : Trace a b c1) (h2 : Trace b c c2) : Trace a c (c1 ++ c2) := by
  obtain ⟨f, f1, hf, hf1, hc, hb, hw, he, hs, hd, hl⟩ := h1
  obtain ⟨g1, f2, hg1, hf2, hc', hb', hw', he', hs', hd', hl'⟩ := h2
  have hg : g1 = f1 := by rw [hf1] at hg1; exact (Option.some.inj hg1).symm
  subst hg
  refine ⟨f, f2, hf, hf2, ?_, ?_, ?_, ?_, ?_, ?_, ?_⟩
  · rw [hc', hc, List.append_assoc]
  · rw [hb', hb, acceptedBytes_append, List.append_assoc]
  · rw [hw', hw, countedBytes_append]; omega
  · rw [he', he]
    constructor
    · rintro ((h | ⟨x, hx, hx'⟩) | ⟨x, hx, hx'⟩)
      · exact Or.inl h
      · exact Or.inr ⟨x, List.mem_append_left _ hx, hx'⟩
      · exact Or.inr ⟨x, List.mem_append_right _ hx, hx'⟩
    · rintro (h | ⟨x, hx, hx'⟩)
      · exact Or.inl (Or.inl h)
      · rcases List.mem_append.mp hx with h | h
        · exact Or.inl (Or.inr ⟨x, h, hx'⟩)
        · exact Or.inr ⟨x, h, hx'⟩
  · intro h
    have h1 := hs h
    have h2 := hs' (he.mpr (Or.inl h))
    rw [h1, h2]; rfl
  · intro x hx
    by_cases hn : c2 = []
    · subst hn
      rw [List.append_nil] at hx
      exact hd x hx
    · rw [List.dropLast_append_of_ne_nil c1 hn] at hx
      rcases List.mem_append.mp hx with h | h
      · by_contra hne
        exact hn (hs' (he.mpr (Or.inr ⟨x, h, hne⟩)))
      · exact hd' x h
  · intro h
    obtain ⟨ha, hb⟩ := hl h
    obtain ⟨ha', hb'⟩ := hl' ha
    refine ⟨ha', fun x hx => ?_⟩
    rcases List.mem_append.mp hx with h | h
    · exact hb x h
    · exact hb' x h

theorem Trace.congr_right {s s' t : MavlinkLogProcessor} {cs : List FwriteCall}
    (h : Trace s s' cs) (hfd : t.fd = s'.fd) (hw : t.written = s'.written)
    (he : t.error = s'.error) : Trace s t cs := by
  obtain ⟨f, f', h1, h2, h3⟩ := h
  refine ⟨f, f', h1, hfd.trans h2, ?_⟩
  rw [hw, he]; exact h3

theorem Trace.congr_left {s s' t : MavlinkLogProcessor} {cs : List FwriteCall}
    (h : Trace s s' cs) (hfd : t.fd = s.fd) (hw : t.written = s.written)
    (he : t.error = s.error) : Trace t s' cs := by
  obtain ⟨f, f', h1, h2, h3⟩ := h
  refine ⟨f, f', hfd.trans h1, h2, ?_⟩
  rw [hw, he]; exact h3

theorem Trace.written_lt {s s' : MavlinkLogProcessor} {cs : List FwriteCall}
    (h : Trace s s' cs) : s'.written < 4294967296 := by
  obtain ⟨f, f', _, _, _, _, hw, _⟩ := h
  rw [hw]; omega

theorem Trace.fd_some {s s' : MavlinkLogProcessor} {cs : List FwriteCall}
    (h : Trace s s' cs) : ∃ f', s'.fd = some f' := by
  obtain ⟨f, f', _, h2, _⟩ := h
  exact ⟨f', h2⟩

theorem fwrite_fst_le (data : List Nat) (len : Nat) (f : File) : (fwrite data len f).1 ≤ len := by
  unfold fwrite
  split
  · exact Nat.le_refl _
  · exact Nat.min_le_left _ _

theorem fwrite_fst_reliable (data : List Nat) (len : Nat) (f : File) (hl : f.limits = []) :
    (fwrite data len f).1 = len := by
  unfold fwrite
  rw [hl]

theorem fwrite_snd (data : List Nat) (len : Nat) (f : File) :
    (fwrite data len f).2 =
      { contents := f.contents ++ data.take (fwrite data len f).1
        limits := f.limits.tail
        calls := f.calls ++ [{ data := data.take len, len := len, ret := (fwrite data len f).1 }] } :=
  rfl

theorem fwrite_trace (s s' : MavlinkLogProcessor) (f : File) (data : List Nat) (len : Nat)
    (hfd : s.fd = some f) (he : s.error = false)
    (hfd' : s'.fd = some (fwrite data len f).2)
    (hw' : s'.written =
      if (fwrite data len f).1 = len then (s.written + len) % 4294967296 else s.written)
    (hw : s.written < 4294967296)
    (he' : s'.error = true ↔ (fwrite data len f).1 ≠ len) :
    Trace s s' [{ data := data.take len, len := len, ret := (fwrite data len f).1 }] := by
  have hle := fwrite_fst_le data len f
  refine ⟨f, (fwrite data len f).2, hfd, hfd', ?_, ?_, ?_, ?_, ?_, ?_, ?_⟩
  · rw [fwrite_snd]
  · rw [fwrite_snd]
    simp only [acceptedBytes, List.append_nil, List.take_take, Nat.min_eq_left hle]
  · rw [hw']
    simp only [countedBytes]
    split_ifs <;> omega
  · rw [he', he]
    simp
  · intro h; rw [he] at h; cases h
  · simp
  · intro hl
    refine ⟨?_, ?_⟩
    · rw [fwrite_snd]; simp [hl]
    · simp [fwrite_fst_reliable data len f hl]

theorem writeData_trace (s : MavlinkLogProcessor) (f : File) (data : List Nat) (len : Nat)
    (hfd : s.fd = some f) (hw : s.written < 4294967296)
    (hlen : len ≤ data.length ∨ s.error = true) :
    ∃ s' cs, s._writeData data len = some s' ∧ Trace s s' cs ∧
      s'.gotHeader = s.gotHeader ∧ s'.ulogMessage = s.ulogMessage ∧
      (s.error = false → ∃ n, cs = [{ data := data.take len, len := len, ret := n }]) := by
  by_cases he : s.error = true
  · refine ⟨s, [], writeData_error_set s data len he, Trace.refl s f hfd hw, rfl, rfl, ?_⟩
    intro h; rw [he] at h; cases h
  · have he' : s.error = false := by simpa using he
    have hlen' : ¬ data.length < len := by
      rcases hlen with h | h
      · omega
      · exact absurd h he
    by_cases hn : (fwrite data len f).1 = len
    · refine ⟨{ s with
                  fd := some (fwrite data len f).2
                  error := false
                  written := (s.written + len) % 4294967296
                  record := s.record.map
                    (fun rec => rec.setSize ((s.written + len) % 4294967296)) },
          [{ data := data.take len, len := len, ret := (fwrite data len f).1 }], ?_, ?_,
          rfl, rfl, fun _ => ⟨_, rfl⟩⟩
      · simp only [MavlinkLogProcessor._writeData, he', hfd, if_true, if_neg hlen', if_pos hn]
      · apply fwrite_trace s _ f data len hfd he' rfl _ hw
        · simp [hn]
        · simp [hn]
    · refine ⟨{ s with fd := some (fwrite data len f).2, error := true },
          [{ data := data.take len, len := len, ret := (fwrite data len f).1 }], ?_, ?_,
          rfl, rfl, fun _ => ⟨_, rfl⟩⟩
      · simp only [MavlinkLogProcessor._writeData, he', hfd, if_true, if_neg hlen', if_neg hn]
      · apply fwrite_trace s _ f data len hfd he' rfl _ hw
        · simp [hn]
        · simp [hn]

theorem writeUlogMessage_trace (s : MavlinkLogProcessor) (f : File) (data : List Nat)
    (hfd : s.fd = some f) (hw : s.written < 4294967296) :
    ∃ s' cs, s._writeUlogMessage data = some (s', data.drop (firstMessage data)) ∧
      Trace s s' cs ∧ s'.gotHeader = s.gotHeader ∧ s'.ulogMessage = s.ulogMessage := by
  rw [writeUlogMessage_eq]
  split_ifs with h0
  · refine ⟨s, [], ?_, Trace.refl s f hfd hw, rfl, rfl⟩
    rw [h0]; rfl
  · obtain ⟨s', cs, h1, h2, h3, h4, _⟩ :=
      writeData_trace s f data (firstMessage data) hfd hw (Or.inl (firstMessage_le data))
    exact ⟨s', cs, by rw [h1]; rfl, h2, h3, h4⟩

theorem processTail_trace (s : MavlinkLogProcessor) (f : File) (first_message : Nat)
    (data : List Nat) (hfd : s.fd = some f) (hw : s.written < 4294967296)
    (hoff : first_message = 255 ∨ first_message ≤ data.length ∨ s.ulogMessage = []) :
    ∃ s' cs, s.processTail first_message data = some s' ∧ Trace s s' cs ∧
      s'.gotHeader = s.gotHeader := by
  unfold MavlinkLogProcessor.processTail
  split_ifs with h1 h2 h3
  · exact ⟨_, [], rfl, (Trace.refl s f hfd hw).congr_right rfl rfl rfl, rfl⟩
  · -- buffered bytes, then the leading bytes of the payload, then one record
    have hfm : first_message ≤ data.length := by
      rcases hoff with h | h | h
      · exact absurd ⟨h, Nat.pos_of_ne_zero h2⟩ h1
      · exact h
      · rw [h] at h2; exact absurd rfl h2
    obtain ⟨s1, c1, e1, t1, g1, _, _⟩ :=
      writeData_trace s f s.ulogMessage s.ulogMessage.length hfd hw (Or.inl (Nat.le_refl _))
    obtain ⟨f1, hf1⟩ := t1.fd_some
    obtain ⟨s2, c2, e2, t2, g2, _, _⟩ :=
      writeData_trace s1 f1 (data.take first_message) first_message hf1 t1.written_lt
        (Or.inl (by simp [hfm]))
    obtain ⟨f2, hf2⟩ := t2.fd_some
    obtain ⟨s3, c3, e3, t3, g3, _⟩ :=
      writeUlogMessage_trace { s2 with ulogMessage := [] } f2 (data.drop first_message) hf2
        t2.written_lt
    simp only [e1, Option.some_bind, e2, e3]
    exact ⟨_, (c1 ++ c2) ++ c3, rfl,
      ((t1.trans t2).trans (t3.congr_left rfl rfl rfl)).congr_right rfl rfl rfl,
      g3.trans (g2.trans g1)⟩
  · obtain ⟨s1, c1, e1, t1, g1, _, _⟩ :=
      writeData_trace s f s.ulogMessage s.ulogMessage.length hfd hw (Or.inl (Nat.le_refl _))
    obtain ⟨f1, hf1⟩ := t1.fd_some
    obtain ⟨s3, c3, e3, t3, g3, _⟩ :=
      writeUlogMessage_trace { s1 with ulogMessage := [] } f1 data hf1 t1.written_lt
    simp only [e1, Option.some_bind, e3]
    exact ⟨_, c1 ++ c3, rfl, (t1.trans (t3.congr_left rfl rfl rfl)).congr_right rfl rfl rfl,
      g3.trans g1⟩
  · obtain ⟨s3, c3, e3, t3, g3, _⟩ :=
      writeUlogMessage_trace s f (data.drop first_message) hfd hw
    simp only [Option.some_bind, e3]
    exact ⟨_, c3, rfl, t3.congr_right rfl rfl rfl, g3⟩
  · obtain ⟨s3, c3, e3, t3, g3, _⟩ := writeUlogMessage_trace s f data hfd hw
    simp only [Option.some_bind, e3]
    exact ⟨_, c3, rfl, t3.congr_right rfl rfl rfl, g3⟩

theorem processBody_trace (s : MavlinkLogProcessor) (f : File) (num_drops : Int)
    (first_message : Nat) (data : List Nat) (hfd : s.fd = some f)
    (hw : s.written < 4294967296)
    (hoff : 0 < num_drops ∨ first_message = 255 ∨ first_message ≤ data.length ∨
      s.ulogMessage = []) :
    ∃ s' cs, s.processBody num_drops first_message data = some s' ∧ Trace s s' cs ∧
      s'.gotHeader = s.gotHeader ∧
      (s.gotHeader = true → 0 < num_drops → s.error = false →
        ∃ n rest, cs = { data := MavlinkLogProcessor.bogus (if num_drops > 25 then 25 else num_drops)
                         len := 5, ret := n } :: rest) := by
  unfold MavlinkLogProcessor.processBody
  generalize hb : MavlinkLogProcessor.bogus (if num_drops > 25 then 25 else num_drops) = b
  generalize (if first_message > 0 then data.drop first_message else data) = data'
  have hb5 : 5 ≤ b.length := by rw [← hb]; exact Nat.le_refl 5
  have hbt : b.take 5 = b := by rw [← hb]; rfl
  by_cases hd : num_drops > 0
  · -- a gap: dropout record (when the header is in), flush, then the tail with offset 0
    have hpre : ∃ s1 c1, (if s.gotHeader = true ∧ num_drops > 0 then s._writeData b 5
        else some s) = some s1 ∧ Trace s s1 c1 ∧ s1.gotHeader = s.gotHeader ∧
        (s.gotHeader = true → s.error = false →
          ∃ n, c1 = [{ data := b, len := 5, ret := n }]) := by
      by_cases hg : s.gotHeader = true ∧ num_drops > 0
      · obtain ⟨s1, c1, e1, t1, g1, _, k1⟩ := writeData_trace s f b 5 hfd hw (Or.inl hb5)
        rw [if_pos hg]
        rw [hbt] at k1
        exact ⟨s1, c1, e1, t1, g1, fun _ he => k1 he⟩
      · rw [if_neg hg]
        exact ⟨s, [], rfl, Trace.refl s f hfd hw, rfl, fun hg' _ => absurd ⟨hg', hd⟩ hg⟩
    obtain ⟨s1, c1, e1, t1, g1, k1⟩ := hpre
    obtain ⟨f1, hf1⟩ := t1.fd_some
    obtain ⟨s2, c2, e2, t2, g2, _⟩ := writeUlogMessage_trace s1 f1 s1.ulogMessage hf1 t1.written_lt
    rw [e1]
    simp only [Option.some_bind, if_pos hd, e2]
    have hshape : ∀ rest : List FwriteCall, s.gotHeader = true → 0 < num_drops → s.error = false →
        ∃ n rest', (c1 ++ c2) ++ rest = { data := b, len := 5, ret := n } :: rest' := by
      intro rest hg _ he
      obtain ⟨n, hn⟩ := k1 hg he
      exact ⟨n, c2 ++ rest, by rw [hn]; simp⟩
    by_cases h255 : first_message = 255
    · rw [if_pos h255]
      refine ⟨_, (c1 ++ c2) ++ [], rfl, ?_, g2.trans g1, hshape []⟩
      rw [List.append_nil]
      exact (t1.trans t2).congr_right rfl rfl rfl
    · rw [if_neg h255]
      obtain ⟨f2, hf2⟩ := t2.fd_some
      obtain ⟨s3, c3, e3, t3, g3⟩ := processTail_trace { s2 with ulogMessage := [] } f2 0
        data' hf2 t2.written_lt (Or.inr (Or.inl (Nat.zero_le _)))
      exact ⟨s3, (c1 ++ c2) ++ c3, e3, (t1.trans t2).trans (t3.congr_left rfl rfl rfl),
        g3.trans (g2.trans g1), hshape c3⟩
  · have hn : ¬ (s.gotHeader = true ∧ num_drops > 0) := fun h => hd h.2
    rw [if_neg hn]
    simp only [Option.some_bind, if_neg hd]
    have hoff' : first_message = 255 ∨ first_message ≤ data.length ∨ s.ulogMessage = [] := by
      rcases hoff with h | h
      · exact absurd h hd
      · exact h
    obtain ⟨s3, c3, e3, t3, g3⟩ := processTail_trace s f first_message data hfd hw hoff'
    exact ⟨s3, c3, e3, t3, g3, fun _ h _ => absurd h hd⟩

theorem processStreamData_trace (s : MavlinkLogProcessor) (f : File)
    (sequence first_message : Nat) (data : List Nat)
    (hfd : s.fd = some f) (hw : s.written < 4294967296)
    (hoff : 0 < (s._checkSequence sequence).2.1 ∨ first_message = 255 ∨
      first_message ≤ (if s.gotHeader = true then data else data.drop 16).length ∨
      s.ulogMessage = []) :
    ∃ ok s' cs, s.processStreamData sequence first_message data = some (ok, s') ∧
      Trace { s with error := false } s' cs ∧
      (ok = false ↔ (s._checkSequence sequence).1 = true ∧
        ((s.gotHeader = false ∧ data.length < 16) ∨ s'.error = true)) ∧
      (s.gotHeader = true → s'.gotHeader = true) ∧
      (s.gotHeader = false → (s._checkSequence sequence).1 = true → 16 ≤ data.length →
        s'.gotHeader = true ∧
        ∃ n rest, cs = { data := data.take 16, len := 16, ret := n } :: rest) := by
  obtain ⟨h1, h2, h3, _, h5, _⟩ := checkSequence_frame s sequence
  unfold MavlinkLogProcessor.processStreamData
  rw [checkSequence_error_irrelevant]
  simp only []
  generalize hs1 : ({ (s._checkSequence sequence).2.2 with error := false } :
    MavlinkLogProcessor) = s1
  have e1 : s1.fd = some f := by rw [← hs1]; exact h1.trans hfd
  have e2 : s1.written = s.written := by rw [← hs1]; exact h2
  have e3 : s1.gotHeader = s.gotHeader := by rw [← hs1]; exact h3
  have e4 : s1.error = false := by rw [← hs1]
  have e5 : s1.ulogMessage = s.ulogMessage := by rw [← hs1]; exact h5
  have hw1 : s1.written < 4294967296 := by rw [e2]; exact hw
  have t0 : Trace { s with error := false } s1 [] :=
    (Trace.refl s1 f e1 hw1).congr_left (hfd.trans e1.symm) e2.symm e4.symm
  generalize (s._checkSequence sequence).1 = acc at *
  generalize (s._checkSequence sequence).2.1 = d at *
  rw [h3]
  by_cases hacc : acc = true
  · rw [if_pos hacc]
    by_cases hg : s.gotHeader = false
    · rw [if_pos hg]
      by_cases hshort : data.length < 16
      · rw [if_pos hshort]
        refine ⟨false, s1, [], rfl, t0, ?_, ?_, ?_⟩
        · simp [hacc, hg, hshort]
        · intro h; rw [hg] at h; cases h
        · intro _ _ h; omega
      · rw [if_neg hshort]
        obtain ⟨s2, c2, w2, t2, g2, u2, k2⟩ :=
          writeData_trace s1 f data 16 e1 hw1 (Or.inl (by omega))
        obtain ⟨f2, hf2⟩ := t2.fd_some
        have hoff' : 0 < d ∨ first_message = 255 ∨ first_message ≤ (data.drop 16).length ∨
            ({ s2 with gotHeader := true } : MavlinkLogProcessor).ulogMessage = [] := by
          have hne : ¬ (s.gotHeader = true) := by rw [hg]; simp
          rw [if_neg hne] at hoff
          rcases hoff with h | h | h | h
          · exact Or.inl h
          · exact Or.inr (Or.inl h)
          · exact Or.inr (Or.inr (Or.inl h))
          · exact Or.inr (Or.inr (Or.inr (u2.trans (e5.trans h))))
        obtain ⟨s3, c3, w3, t3, g3, _⟩ := processBody_trace { s2 with gotHeader := true } f2 d
          first_message (data.drop 16) hf2 t2.written_lt hoff'
        rw [w2]
        simp only [Option.some_bind, w3]
        refine ⟨!s3.error, s3, c2 ++ c3, rfl,
          (t0.trans t2).trans (t3.congr_left rfl rfl rfl), ?_, ?_, ?_⟩
        · cases s3.error <;> simp [hacc, hshort]
        · intro _; exact g3
        · intro _ _ _
          refine ⟨g3, ?_⟩
          obtain ⟨n, hn⟩ := k2 e4
          exact ⟨n, c3, by rw [hn]; rfl⟩
    · rw [if_neg hg]
      have hg' : s.gotHeader = true := by simpa using hg
      have hoff' : 0 < d ∨ first_message = 255 ∨ first_message ≤ data.length ∨
          s1.ulogMessage = [] := by
        rw [if_pos hg'] at hoff
        rw [e5]; exact hoff
      obtain ⟨s3, c3, w3, t3, g3, _⟩ :=
        processBody_trace s1 f d first_message data e1 hw1 hoff'
      simp only [w3, Option.some_bind]
      refine ⟨!s3.error, s3, [] ++ c3, rfl, t0.trans t3, ?_, ?_, ?_⟩
      · cases s3.error <;> simp [hacc, hg']
      · intro _; rw [g3, e3]; exact hg'
      · intro h; exact absurd h hg
  · rw [if_neg hacc]
    refine ⟨true, s1, [], rfl, t0, ?_, ?_, ?_⟩
    · simp [hacc]
    · intro h; rw [e3]; exact h
    · intro _ h; exact absurd h hacc


/-! ## Header handling and failure reporting -/

theorem writeData_gotHeader (s s' : MavlinkLogProcessor) (data : List Nat) (len : Nat)
    (h : s._writeData data len = some s') :
    s'.gotHeader = s.gotHeader ∧ s'.ulogMessage = s.ulogMessage := by
  by_cases he : s.error = false
  · cases hfd : s.fd with
    | none => simp [MavlinkLogProcessor._writeData, he, hfd] at h
    | some f =>
      by_cases hl : data.length < len
      · simp [MavlinkLogProcessor._writeData, he, hfd, hl] at h
      · by_cases hn : (fwrite data len f).1 = len
        · simp only [MavlinkLogProcessor._writeData, he, hfd, if_true, if_neg hl, if_pos hn] at h
          cases h; exact ⟨rfl, rfl⟩
        · simp only [MavlinkLogProcessor._writeData, he, hfd, if_true, if_neg hl, if_neg hn] at h
          cases h; exact ⟨rfl, rfl⟩
  · simp only [MavlinkLogProcessor._writeData, if_neg he] at h
    cases h; exact ⟨rfl, rfl⟩

theorem writeUlogMessage_gotHeader (s s' : MavlinkLogProcessor) (data rest : List Nat)
    (h : s._writeUlogMessage data = some (s', rest)) :
    s'.gotHeader = s.gotHeader := by
  rw [writeUlogMessage_eq] at h
  split_ifs at h
  · cases h; rfl
  · cases hw : s._writeData data (firstMessage data) with
    | none => rw [hw] at h; cases h
    | some s1 =>
      rw [hw] at h
      cases h
      exact (writeData_gotHeader s _ _ _ hw).1

theorem processTail_gotHeader (s s' : MavlinkLogProcessor) (first_message : Nat)
    (data : List Nat) (h : s.processTail first_message data = some s') :
    s'.gotHeader = s.gotHeader := by
  unfold MavlinkLogProcessor.processTail at h
  generalize (if first_message ≠ 0 then data.drop first_message else data) = data' at h
  by_cases h1 : first_message = 255 ∧ s.ulogMessage.length > 0
  · rw [if_pos h1] at h; cases h; rfl
  · rw [if_neg h1] at h
    simp only [Option.bind_eq_some] at h
    obtain ⟨s3, h3, r, hr, e⟩ := h
    cases e
    have g3 : s3.gotHeader = s.gotHeader := by
      by_cases h2 : s.ulogMessage.length ≠ 0
      · rw [if_pos h2] at h3
        simp only [Option.bind_eq_some] at h3
        obtain ⟨s1, w1, s2, w2, e2⟩ := h3
        cases e2
        have a1 := (writeData_gotHeader _ _ _ _ w1).1
        by_cases h0 : first_message ≠ 0
        · rw [if_pos h0] at w2
          exact ((writeData_gotHeader _ _ _ _ w2).1).trans a1
        · rw [if_neg h0] at w2
          cases w2; exact a1
      · rw [if_neg h2] at h3
        cases h3; rfl
    exact (writeUlogMessage_gotHeader _ _ _ _ hr).trans g3

theorem processBody_gotHeader (s s' : MavlinkLogProcessor) (num_drops : Int)
    (first_message : Nat) (data : List Nat)
    (h : s.processBody num_drops first_message data = some s') :
    s'.gotHeader = s.gotHeader := by
  unfold MavlinkLogProcessor.processBody at h
  generalize MavlinkLogProcessor.bogus (if num_drops > 25 then 25 else num_drops) = b at h
  generalize (if first_message > 0 then data.drop first_message else data) = data' at h
  simp only [Option.bind_eq_some] at h
  obtain ⟨s1, h1, h2⟩ := h
  have g1 : s1.gotHeader = s.gotHeader := by
    by_cases hc : s.gotHeader = true ∧ num_drops > 0
    · rw [if_pos hc] at h1
      exact (writeData_gotHeader _ _ _ _ h1).1
    · rw [if_neg hc] at h1
      cases h1; rfl
  by_cases hd : num_drops > 0
  · rw [if_pos hd] at h2
    simp only [Option.bind_eq_some] at h2
    obtain ⟨r, hr, h3⟩ := h2
    have g2 := writeUlogMessage_gotHeader _ _ _ _ hr
    by_cases h255 : first_message = 255
    · rw [if_pos h255] at h3
      cases h3
      exact g2.trans g1
    · rw [if_neg h255] at h3
      exact (processTail_gotHeader _ _ _ _ h3).trans (g2.trans g1)
  · rw [if_neg hd] at h2
    exact (processTail_gotHeader _ _ _ _ h2).trans g1

theorem processStreamData_header_in (s : MavlinkLogProcessor) (sequence first_message : Nat)
    (data : List Nat) (hg : s.gotHeader = true) :
    s.processStreamData sequence first_message data =
      if (s._checkSequence sequence).1 = true then
        (({ (s._checkSequence sequence).2.2 with error := false } :
            MavlinkLogProcessor).processBody
          (s._checkSequence sequence).2.1 first_message data).bind
          fun s2 => some (!s2.error, s2)
      else some (true, { (s._checkSequence sequence).2.2 with error := false }) := by
  obtain ⟨_, _, h3, _⟩ := checkSequence_frame s sequence
  unfold MavlinkLogProcessor.processStreamData
  rw [checkSequence_error_irrelevant]
  simp only []
  have hne : ¬ ((s._checkSequence sequence).2.2.gotHeader = false) := by
    rw [h3, hg]; simp
  rw [if_neg hne]
  rfl

/-- C8: header handling. First chunk of a session (no sequence recorded, header
not received, nothing buffered) with at least 16 bytes, for every sequence
number and every `first_message`: the call returns, `_gotHeader` becomes true,
and the first `fwrite` of the call is handed exactly `data[0..16)`, so that
these are the first bytes the stream receives from the session (all 16 of them
when the stream takes its writes whole, and then the call succeeds). In every
later call (`_gotHeader` true) the header block is skipped: the call is the
sequence check followed by the loop body on the whole payload, and `_gotHeader`
stays true. -/
theorem header_written_once (s : MavlinkLogProcessor) (f : File)
    (sequence first_message : Nat) (data : List Nat)
    (hfd : s.fd = some f) (hw : s.written < 4294967296) :
    (s.sequence = -1 → s.gotHeader = false → s.ulogMessage = [] → 16 ≤ data.length →
      ∃ ok s' f' n rest,
        s.processStreamData sequence first_message data = some (ok, s') ∧
        s'.gotHeader = true ∧ s'.fd = some f' ∧
        f'.calls = f.calls ++ { data := data.take 16, len := 16, ret := n } :: rest ∧
        f'.contents = f.contents ++ (data.take 16).take n ++ acceptedBytes rest ∧
        (f.limits = [] → n = 16 ∧ ok = true)) ∧
    (s.gotHeader = true →
      s.processStreamData sequence first_message data =
        (if (s._checkSequence sequence).1 = true then
          (({ (s._checkSequence sequence).2.2 with error := false } :
              MavlinkLogProcessor).processBody
            (s._checkSequence sequence).2.1 first_message data).bind
            fun s2 => some (!s2.error, s2)
        else some (true, { (s._checkSequence sequence).2.2 with error := false })) ∧
      ∀ ok s', s.processStreamData sequence first_message data = some (ok, s') →
        s'.gotHeader = true) := by
  refine ⟨fun hseq hg hb h16 => ?_, fun hg => ?_⟩
  · have hacc : (s._checkSequence sequence).1 = true := by
      rw [checkSequence_unrecorded s sequence hseq]
    obtain ⟨ok, s', cs, e, tr, hok, _, hh⟩ := processStreamData_trace s f sequence first_message
      data hfd hw (Or.inr (Or.inr (Or.inr hb)))
    obtain ⟨gh, n, rest, hcs⟩ := hh hg hacc h16
    obtain ⟨f0, f', hf0, hf', hc, hb', _, he', _, _, hl⟩ := tr
    have hf0' : f0 = f := by
      have : some f0 = some f := hf0.symm.trans hfd
      exact Option.some.inj this
    subst hf0'
    refine ⟨ok, s', f', n, rest, e, gh, hf', ?_, ?_, ?_⟩
    · rw [hc, hcs]
    · rw [hb', hcs]; simp [acceptedBytes]
    · intro hlim
      obtain ⟨_, hall⟩ := hl hlim
      refine ⟨?_, ?_⟩
      · have := hall { data := data.take 16, len := 16, ret := n } (by rw [hcs]; simp)
        exact this
      · have hne : ¬ (s'.error = true) := by
          rw [he']
          rintro (h | ⟨c, hc, hne⟩)
          · cases h
          · exact hne (hall c hc)
        have hnok : ¬ (ok = false) := by
          rw [hok]
          rintro ⟨_, h | h⟩
          · omega
          · exact hne h
        simpa using hnok
  · refine ⟨processStreamData_header_in s sequence first_message data hg, fun ok s' h => ?_⟩
    obtain ⟨_, _, h3, _⟩ := checkSequence_frame s sequence
    rw [processStreamData_header_in s sequence first_message data hg] at h
    by_cases hacc : (s._checkSequence sequence).1 = true
    · rw [if_pos hacc] at h
      simp only [Option.bind_eq_some] at h
      obtain ⟨s2, h2, e⟩ := h
      cases e
      rw [processBody_gotHeader _ _ _ _ _ h2]
      exact h3.trans hg
    · rw [if_neg hacc] at h
      cases h
      exact h3.trans hg

/-- C10: failure reporting within one call. For a call that stays inside its
payload (a gap was detected, or `first_message` is 255, or it does not exceed
the payload left after the header block, or nothing is buffered), with `cs` the
`fwrite` calls made during the call: `processStreamData` returns `false` iff
the chunk was accepted and either it was a header chunk shorter than 16 bytes
or one of the calls in `cs` returned a short count; only the last call in `cs`
can have failed, and the stream gained exactly the bytes taken by `cs`, so
nothing reaches the stream after a failed write; `_written` advanced by the
lengths of the calls that were taken whole only. -/
theorem processStreamData_failure_report (s : MavlinkLogProcessor) (f : File)
    (sequence first_message : Nat) (data : List Nat)
    (hfd : s.fd = some f) (hw : s.written < 4294967296)
    (hoff : 0 < (s._checkSequence sequence).2.1 ∨ first_message = 255 ∨
      first_message ≤ (if s.gotHeader = true then data else data.drop 16).length ∨
      s.ulogMessage = []) :
    ∃ ok s' f' cs,
      s.processStreamData sequence first_message data = some (ok, s') ∧
      s'.fd = some f' ∧
      f'.calls = f.calls ++ cs ∧
      (ok = false ↔ (s._checkSequence sequence).1 = true ∧
        ((s.gotHeader = false ∧ data.length < 16) ∨ ∃ c ∈ cs, c.ret ≠ c.len)) ∧
      (∀ c ∈ cs.dropLast, c.ret = c.len) ∧
      f'.contents = f.contents ++ acceptedBytes cs ∧
      s'.written = (s.written + countedBytes cs) % 4294967296 := by
  obtain ⟨ok, s', cs, e, tr, hok, _, _⟩ :=
    processStreamData_trace s f sequence first_message data hfd hw hoff
  obtain ⟨f0, f', hf0, hf', hc, hb', hw', he', _, hd, _⟩ := tr
  have hf0' : f0 = f := by
    have : some f0 = some f := hf0.symm.trans hfd
    exact Option.some.inj this
  subst hf0'
  refine ⟨ok, s', f', cs, e, hf', hc, ?_, hd, hb', hw'⟩
  rw [hok, he']
  simp


/-! ## Dropout records -/

theorem writeData_reliable (s : MavlinkLogProcessor) (f : File) (data : List Nat) (len : Nat)
    (he : s.error = false) (hfd : s.fd = some f) (hl : f.limits = []) (hlen : len ≤ data.length) :
    s._writeData data len = some (wrote s f (data.take len)) := by
  have h1 : ¬ data.length < len := by omega
  have h2 : (data.take len).length = len := by simp [hlen]
  simp [MavlinkLogProcessor._writeData, he, hfd, fwrite, hl, h1, wrote, h2]

theorem writeUlogMessage_reliable (s : MavlinkLogProcessor) (f : File) (data : List Nat)
    (he : s.error = false) (hfd : s.fd = some f) (hl : f.limits = []) :
    s._writeUlogMessage data =
      some (if firstMessage data = 0 then s else wrote s f (data.take (firstMessage data)),
        data.drop (firstMessage data)) := by
  rw [writeUlogMessage_eq]
  split_ifs with h0
  · rw [h0]; rfl
  · rw [writeData_reliable s f data _ he hfd hl (firstMessage_le data)]; rfl

theorem bogus_fourth_byte (d : Int) (hd : 0 < d) :
    MavlinkLogProcessor.bogus (if d > 25 then 25 else d) = [2, 0, 79, (10 * min d 25).toNat, 0] ∧
    (10 * min d 25).toNat ≤ 250 := by
  have hm : (if d > 25 then 25 else d) = min d 25 := by
    split_ifs with h
    · omega
    · omega
  rw [hm]
  have h1 : min d 25 * 10 % 256 = 10 * min d 25 := by omega
  refine ⟨?_, by omega⟩
  simp only [MavlinkLogProcessor.bogus, h1]

theorem writeUlogMessage_emits (s : MavlinkLogProcessor) (f : File) (data : List Nat)
    (he : s.error = false) (hfd : s.fd = some f) (hl : f.limits = []) :
    ∃ s' f', s._writeUlogMessage data = some (s', data.drop (firstMessage data)) ∧
      s'.error = false ∧ s'.fd = some f' ∧ f'.limits = [] ∧
      f'.contents = f.contents ++ data.take (firstMessage data) ∧
      s'.ulogMessage = s.ulogMessage := by
  rw [writeUlogMessage_reliable s f data he hfd hl]
  by_cases h0 : firstMessage data = 0
  · rw [if_pos h0]
    refine ⟨s, f, rfl, he, hfd, hl, ?_, rfl⟩
    rw [h0]; simp
  · rw [if_neg h0]
    exact ⟨_, _, rfl, rfl, rfl, rfl, rfl, rfl⟩

theorem processTail_emits (s : MavlinkLogProcessor) (f : File) (data : List Nat)
    (he : s.error = false) (hfd : s.fd = some f) (hl : f.limits = [])
    (hb : s.ulogMessage = []) :
    ∃ s' f', s.processTail 0 data = some s' ∧
      s'.error = false ∧ s'.fd = some f' ∧ f'.limits = [] ∧
      f'.contents = f.contents ++ data.take (firstMessage data) := by
  obtain ⟨s', f', e, he', hfd', hl', hc, _⟩ := writeUlogMessage_emits s f data he hfd hl
  refine ⟨{ s' with ulogMessage := data.drop (firstMessage data) }, f', ?_, he', hfd', hl', hc⟩
  simp [MavlinkLogProcessor.processTail, hb, e]

theorem dropout_record_reliable (s : MavlinkLogProcessor) (f : File)
    (sequence first_message : Nat) (data : List Nat)
    (hfd : s.fd = some f) (hl : f.limits = []) (hg : s.gotHeader = true)
    (hacc : (s._checkSequence sequence).1 = true)
    (hd : 0 < (s._checkSequence sequence).2.1) :
    ∃ s' f' w1 w2,
      s.processStreamData sequence first_message data = some (true, s') ∧
      s'.fd = some f' ∧
      f'.contents = f.contents ++
        [2, 0, 79, (10 * min (s._checkSequence sequence).2.1 25).toNat, 0] ++ w1 ++ w2 ∧
      w1 <+: s.ulogMessage ∧ w2 <+: data.drop first_message ∧
      (first_message = 255 → w2 = []) ∧
      (10 * min (s._checkSequence sequence).2.1 25).toNat ≤ 250 := by
  obtain ⟨h1, h2, h3, _, h5, _⟩ := checkSequence_frame s sequence
  obtain ⟨hb, hb250⟩ := bogus_fourth_byte _ hd
  rw [processStreamData_header_in s sequence first_message data hg, if_pos hacc]
  generalize hs1 : ({ (s._checkSequence sequence).2.2 with error := false } :
    MavlinkLogProcessor) = s1
  have e1 : s1.fd = some f := by rw [← hs1]; exact h1.trans hfd
  have e3 : s1.gotHeader = true := by rw [← hs1]; exact h3.trans hg
  have e4 : s1.error = false := by rw [← hs1]
  have e5 : s1.ulogMessage = s.ulogMessage := by rw [← hs1]; exact h5
  generalize (s._checkSequence sequence).2.1 = d at *
  have hdata : (if first_message > 0 then data.drop first_message else data)
      = data.drop first_message := by
    split_ifs with h
    · rfl
    · have : first_message = 0 := by omega
      rw [this]; rfl
  unfold MavlinkLogProcessor.processBody
  rw [hb, if_pos ⟨e3, hd⟩, writeData_reliable s1 f _ 5 e4 e1 hl (by simp), hdata]
  simp only [Option.some_bind, if_pos hd]
  generalize hbb : [2, 0, 79, (10 * min d 25).toNat, 0] = b
  have hbt : b.take 5 = b := by rw [← hbb]; rfl
  rw [hbt]
  obtain ⟨s3, f3, w3, he3, hf3, hl3, hc3, hu3⟩ :=
    writeUlogMessage_emits (wrote s1 f b) _ (wrote s1 f b).ulogMessage rfl rfl rfl
  rw [w3]
  simp only [Option.some_bind]
  have hpre : (wrote s1 f b).ulogMessage = s.ulogMessage := e5
  rw [hpre] at hc3
  simp only [] at hc3
  by_cases h255 : first_message = 255
  · rw [if_pos h255]
    simp only [Option.some_bind, he3, Bool.not_false]
    refine ⟨_, f3, s.ulogMessage.take (firstMessage s.ulogMessage), [], rfl, hf3, ?_,
      List.take_prefix _ _, List.nil_prefix, fun _ => rfl, hb250⟩
    rw [hc3]; simp
  · rw [if_neg h255]
    obtain ⟨s4, f4, w4, he4, hf4, hl4, hc4⟩ :=
      processTail_emits { s3 with ulogMessage := [] } f3 (data.drop first_message) he3 hf3 hl3 rfl
    rw [w4]
    simp only [Option.some_bind, he4, Bool.not_false]
    refine ⟨s4, f4, s.ulogMessage.take (firstMessage s.ulogMessage),
      (data.drop first_message).take (firstMessage (data.drop first_message)), rfl, hf4, ?_,
      List.take_prefix _ _, List.take_prefix _ _, fun h => absurd h h255, hb250⟩
    rw [hc4, hc3]

/-- Dropout synthesis in a state whose header is in: for an accepted chunk with
`d > 0` drops the first `fwrite` of the call is handed the 5-byte record
`[2, 0, 79, 10 * min(d, 25), 0]`, whose fourth byte is at most 250; when the
stream takes its writes whole the call succeeds and the stream gains that
record, then a part `w1` of the buffered message and a part `w2` of the payload
after `first_message`. -/
theorem dropout_record_after_header (s : MavlinkLogProcessor) (f : File)
    (sequence first_message : Nat) (data : List Nat)
    (hfd : s.fd = some f) (hw : s.written < 4294967296) (hg : s.gotHeader = true)
    (hacc : (s._checkSequence sequence).1 = true)
    (hd : 0 < (s._checkSequence sequence).2.1) :
    ∃ ok s' f' n rest,
      s.processStreamData sequence first_message data = some (ok, s') ∧
      s'.fd = some f' ∧
      f'.calls = f.calls ++
        { data := [2, 0, 79, (10 * min (s._checkSequence sequence).2.1 25).toNat, 0]
          len := 5, ret := n } :: rest ∧
      (10 * min (s._checkSequence sequence).2.1 25).toNat ≤ 250 ∧
      (f.limits = [] →
        ok = true ∧
        ∃ w1 w2,
          f'.contents = f.contents ++
            [2, 0, 79, (10 * min (s._checkSequence sequence).2.1 25).toNat, 0] ++ w1 ++ w2 ∧
          w1 <+: s.ulogMessage ∧ w2 <+: data.drop first_message ∧
          (first_message = 255 → w2 = [])) := by
  obtain ⟨h1, h2, h3, _, _, _⟩ := checkSequence_frame s sequence
  obtain ⟨hb, hb250⟩ := bogus_fourth_byte _ hd
  have hfd1 : ({ (s._checkSequence sequence).2.2 with error := false } :
      MavlinkLogProcessor).fd = some f := h1.trans hfd
  have hw1 : ({ (s._checkSequence sequence).2.2 with error := false } :
      MavlinkLogProcessor).written < 4294967296 := by
    show (s._checkSequence sequence).2.2.written < 4294967296
    rw [h2]; exact hw
  obtain ⟨s3, cs, w3, tr, _, shape⟩ := processBody_trace _ f (s._checkSequence sequence).2.1
    first_message data hfd1 hw1 (Or.inl hd)
  obtain ⟨n, rest, hcs⟩ := shape (h3.trans hg) hd rfl
  obtain ⟨f0, f', hf0, hf', hc, _⟩ := tr
  have hf0' : f0 = f := Option.some.inj (hf0.symm.trans hfd1)
  subst hf0'
  have hcall : s.processStreamData sequence first_message data = some (!s3.error, s3) := by
    rw [processStreamData_header_in s sequence first_message data hg, if_pos hacc, w3]
    rfl
  refine ⟨!s3.error, s3, f', n, rest, hcall, hf', ?_, hb250, fun hl => ?_⟩
  · rw [hc, hcs, hb]
  · obtain ⟨s', f'', w1, w2, e, hf'', hcont, hp1, hp2, h255, _⟩ :=
      dropout_record_reliable s f0 sequence first_message data hfd hl hg hacc hd
    rw [hcall] at e
    have e' := Option.some.inj e
    have e1 : (!s3.error) = true := congrArg Prod.fst e'
    have e2 : s3 = s' := congrArg Prod.snd e'
    subst e2
    have e3 : f'' = f' := Option.some.inj (hf''.symm.trans hf')
    subst e3
    exact ⟨e1, w1, w2, hcont, hp1, hp2, h255⟩

theorem header_written_once_witness :
    (∃ ok s' f' n rest,
      (session "007.ulg" File.empty).processStreamData 0 255 chunk1 = some (ok, s') ∧
      s'.gotHeader = true ∧ s'.fd = some f' ∧
      f'.calls = File.empty.calls ++ { data := chunk1.take 16, len := 16, ret := n } :: rest ∧
      f'.contents = File.empty.contents ++ (chunk1.take 16).take n ++ acceptedBytes rest ∧
      (File.empty.limits = [] → n = 16 ∧ ok = true)) ∧
    (∀ ok s', headerIn.processStreamData 101 0 [1, 0, 65, 7] = some (ok, s') →
      s'.gotHeader = true) :=
  ⟨(header_written_once (session "007.ulg" File.empty) File.empty 0 255 chunk1 rfl
      (by decide)).1 rfl rfl rfl (by decide),
    ((header_written_once headerIn File.empty 101 0 [1, 0, 65, 7] rfl (by decide)).2 rfl).2⟩

theorem processStreamData_failure_report_witness :
    ∃ ok s' f' cs,
      (session "007.ulg" fullDisk).processStreamData 0 0 ulogHeader = some (ok, s') ∧
      s'.fd = some f' ∧
      f'.calls = fullDisk.calls ++ cs ∧
      (ok = false ↔ ((session "007.ulg" fullDisk)._checkSequence 0).1 = true ∧
        (((session "007.ulg" fullDisk).gotHeader = false ∧ ulogHeader.length < 16) ∨
          ∃ c ∈ cs, c.ret ≠ c.len)) ∧
      (∀ c ∈ cs.dropLast, c.ret = c.len) ∧
      f'.contents = fullDisk.contents ++ acceptedBytes cs ∧
      s'.written = ((session "007.ulg" fullDisk).written + countedBytes cs) % 4294967296 :=
  processStreamData_failure_report (session "007.ulg" fullDisk) fullDisk 0 0 ulogHeader rfl
    (by decide) (Or.inr (Or.inr (Or.inr rfl)))

/-! ## Size tracking -/

theorem Keeps.same (s : MavlinkLogProcessor) : Keeps s s :=
  fun h => ⟨h, Nat.le_refl _⟩

theorem Keeps.andThen {a b c : MavlinkLogProcessor} (h1 : Keeps a b) (h2 : Keeps b c) :
    Keeps a c := fun h =>
  ⟨(h2 (h1 h).1).1, Nat.le_trans (h1 h).2 (h2 (h1 h).1).2⟩

theorem Tracked.congr {s t : MavlinkLogProcessor} (h : Tracked s) (hfd : t.fd = s.fd)
    (hr : t.record = s.record) (hw : t.written = s.written) : Tracked t := by
  obtain ⟨f, r, h1, h2, h3⟩ := h
  refine ⟨f, r, hfd.trans h1, hr.trans h2, ?_⟩
  rw [hw]; exact h3

theorem Keeps.to_state {s s' t : MavlinkLogProcessor} (h : Keeps s s') (hfd : t.fd = s'.fd)
    (hr : t.record = s'.record) (hw : t.written = s'.written) : Keeps s t := fun hs =>
  ⟨(h hs).1.congr hfd hr hw, by
    have := (h hs).2
    unfold countedOf at this ⊢
    rw [hfd]; exact this⟩

theorem Keeps.from_state {s s' t : MavlinkLogProcessor} (h : Keeps s s') (hfd : t.fd = s.fd)
    (hr : t.record = s.record) (hw : t.written = s.written) : Keeps t s' := fun ht => by
  have hs : Tracked s := ht.congr hfd.symm hr.symm hw.symm
  refine ⟨(h hs).1, ?_⟩
  have := (h hs).2
  unfold countedOf at this ⊢
  rw [hfd]; exact this

theorem writeData_keeps (s s' : MavlinkLogProcessor) (data : List Nat) (len : Nat)
    (h : s._writeData data len = some s') : Keeps s s' := by
  intro ht
  obtain ⟨f, r, hfd, hr, hsz, hw, hc, hl⟩ := ht
  by_cases he : s.error = false
  · by_cases hlen : data.length < len
    · simp [MavlinkLogProcessor._writeData, he, hfd, hlen] at h
    · have hle := fwrite_fst_le data len f
      have hcalls : (fwrite data len f).2.calls = f.calls ++
          [{ data := data.take len, len := len, ret := (fwrite data len f).1 }] := rfl
      have hcont : (fwrite data len f).2.contents =
          f.contents ++ data.take (fwrite data len f).1 := rfl
      have hacc : acceptedBytes ((fwrite data len f).2.calls) = (fwrite data len f).2.contents := by
        rw [hcalls, hcont, acceptedBytes_append, hc]
        simp only [acceptedBytes, List.append_nil, List.take_take, Nat.min_eq_left hle]
      have hlens : ∀ c ∈ (fwrite data len f).2.calls, c.data.length = c.len := by
        intro c hcm
        rw [hcalls] at hcm
        rcases List.mem_append.mp hcm with hm | hm
        · exact hl c hm
        · rw [List.mem_singleton] at hm
          subst hm
          simp only [List.length_take]
          omega
      by_cases hn : (fwrite data len f).1 = len
      · simp only [MavlinkLogProcessor._writeData, he, hfd, if_true, if_neg hlen, if_pos hn] at h
        cases h
        have hcnt : countedBytes (fwrite data len f).2.calls = countedBytes f.calls + len := by
          rw [hcalls, countedBytes_append]
          simp [countedBytes, hn]
        refine ⟨⟨(fwrite data len f).2, r.setSize ((s.written + len) % 4294967296), rfl, ?_, ?_,
          ?_, hacc.symm, hlens⟩, ?_⟩
        · simp [hr]
        · simp [MavlinkLogFiles.setSize]
        · show (s.written + len) % 4294967296 = _
          rw [hcnt, hw]; omega
        · have e1 : countedOf s = countedBytes f.calls := by simp only [countedOf, hfd]
          show countedOf s ≤ countedBytes (fwrite data len f).2.calls
          rw [e1, hcnt]; omega
      · simp only [MavlinkLogProcessor._writeData, he, hfd, if_true, if_neg hlen, if_neg hn] at h
        cases h
        have hcnt : countedBytes (fwrite data len f).2.calls = countedBytes f.calls := by
          rw [hcalls, countedBytes_append]
          simp [countedBytes, hn]
        refine ⟨⟨(fwrite data len f).2, r, rfl, hr, hsz, ?_, hacc.symm, hlens⟩, ?_⟩
        · show s.written = _
          rw [hcnt]; exact hw
        · have e1 : countedOf s = countedBytes f.calls := by simp only [countedOf, hfd]
          show countedOf s ≤ countedBytes (fwrite data len f).2.calls
          rw [e1, hcnt]
  · simp only [MavlinkLogProcessor._writeData, if_neg he] at h
    cases h
    exact ⟨⟨f, r, hfd, hr, hsz, hw, hc, hl⟩, Nat.le_refl _⟩

theorem writeUlogMessage_keeps (s s' : MavlinkLogProcessor) (data rest : List Nat)
    (h : s._writeUlogMessage data = some (s', rest)) : Keeps s s' := by
  rw [writeUlogMessage_eq] at h
  split_ifs at h
  · cases h; exact Keeps.same s
  · cases hw : s._writeData data (firstMessage data) with
    | none => rw [hw] at h; cases h
    | some s1 =>
      rw [hw] at h
      cases h
      exact writeData_keeps s _ _ _ hw

theorem processTail_keeps (s s' : MavlinkLogProcessor) (first_message : Nat)
    (data : List Nat) (h : s.processTail first_message data = some s') : Keeps s s' := by
  unfold MavlinkLogProcessor.processTail at h
  generalize (if first_message ≠ 0 then data.drop first_message else data) = data' at h
  by_cases h1 : first_message = 255 ∧ s.ulogMessage.length > 0
  · rw [if_pos h1] at h; cases h
    exact (Keeps.same s).to_state rfl rfl rfl
  · rw [if_neg h1] at h
    simp only [Option.bind_eq_some] at h
    obtain ⟨s3, h3, r, hr, e⟩ := h
    cases e
    have g3 : Keeps s s3 := by
      by_cases h2 : s.ulogMessage.length ≠ 0
      · rw [if_pos h2] at h3
        simp only [Option.bind_eq_some] at h3
        obtain ⟨s1, w1, s2, w2, e2⟩ := h3
        cases e2
        have a1 := writeData_keeps _ _ _ _ w1
        by_cases h0 : first_message ≠ 0
        · rw [if_pos h0] at w2
          exact (a1.andThen (writeData_keeps _ _ _ _ w2)).to_state rfl rfl rfl
        · rw [if_neg h0] at w2
          cases w2; exact a1.to_state rfl rfl rfl
      · rw [if_neg h2] at h3
        cases h3; exact Keeps.same s
    exact (g3.andThen (writeUlogMessage_keeps _ _ _ _ hr)).to_state rfl rfl rfl

theorem processBody_keeps (s s' : MavlinkLogProcessor) (num_drops : Int)
    (first_message : Nat) (data : List Nat)
    (h : s.processBody num_drops first_message data = some s') : Keeps s s' := by
  unfold MavlinkLogProcessor.processBody at h
  generalize MavlinkLogProcessor.bogus (if num_drops > 25 then 25 else num_drops) = b at h
  generalize (if first_message > 0 then data.drop first_message else data) = data' at h
  simp only [Option.bind_eq_some] at h
  obtain ⟨s1, h1, h2⟩ := h
  have g1 : Keeps s s1 := by
    by_cases hc : s.gotHeader = true ∧ num_drops > 0
    · rw [if_pos hc] at h1
      exact writeData_keeps _ _ _ _ h1
    · rw [if_neg hc] at h1
      cases h1; exact Keeps.same s
  by_cases hd : num_drops > 0
  · rw [if_pos hd] at h2
    simp only [Option.bind_eq_some] at h2
    obtain ⟨r, hr, h3⟩ := h2
    have g2 := writeUlogMessage_keeps _ _ _ _ hr
    by_cases h255 : first_message = 255
    · rw [if_pos h255] at h3
      cases h3
      exact (g1.andThen g2).to_state rfl rfl rfl
    · rw [if_neg h255] at h3
      exact (g1.andThen g2).andThen ((processTail_keeps _ _ _ _ h3).from_state rfl rfl rfl)
  · rw [if_neg hd] at h2
    exact g1.andThen (processTail_keeps _ _ _ _ h2)

theorem processStreamData_keeps (s s' : MavlinkLogProcessor) (ok : Bool)
    (sequence first_message : Nat) (data : List Nat)
    (h : s.processStreamData sequence first_message data = some (ok, s')) : Keeps s s' := by
  obtain ⟨h1, h2, _, _, _, h6⟩ := checkSequence_frame s sequence
  unfold MavlinkLogProcessor.processStreamData at h
  rw [checkSequence_error_irrelevant] at h
  simp only [] at h
  generalize hs1 : ({ (s._checkSequence sequence).2.2 with error := false } :
    MavlinkLogProcessor) = s1 at h
  have k0 : Keeps s s1 := by
    rw [← hs1]
    exact (Keeps.same s).to_state h1 h6 h2
  generalize (s._checkSequence sequence).1 = acc at h
  generalize (s._checkSequence sequence).2.1 = d at h
  generalize (s._checkSequence sequence).2.2.gotHeader = g at h
  by_cases hacc : acc = true
  · rw [if_pos hacc] at h
    by_cases hg : g = false
    · rw [if_pos hg] at h
      by_cases hshort : data.length < 16
      · rw [if_pos hshort] at h
        cases h; exact k0
      · rw [if_neg hshort] at h
        simp only [Option.bind_eq_some] at h
        obtain ⟨s2, w2, s3, w3, e⟩ := h
        cases e
        exact (k0.andThen (writeData_keeps _ _ _ _ w2)).andThen
          ((processBody_keeps _ _ _ _ _ w3).from_state rfl rfl rfl)
    · rw [if_neg hg] at h
      simp only [Option.bind_eq_some] at h
      obtain ⟨s3, w3, e⟩ := h
      cases e
      exact k0.andThen (processBody_keeps _ _ _ _ _ w3)
  · rw [if_neg hacc] at h
    cases h; exact k0

theorem session_tracked (fileName : String) (f0 : File)
    (hc : f0.contents = []) (hk : f0.calls = []) : Tracked (session fileName f0) := by
  refine ⟨f0, (MavlinkLogFiles.newFile fileName).setWriting true, rfl, rfl, rfl, ?_, ?_, ?_⟩
  · rw [hk]; rfl
  · rw [hc, hk]; rfl
  · rw [hk]; intro c h; cases h

theorem reachable_tracked (fileName : String) (f0 : File)
    (hc : f0.contents = []) (hk : f0.calls = []) (s : MavlinkLogProcessor)
    (h : SessionReachable fileName f0 s) : Tracked s := by
  induction h with
  | create => exact session_tracked fileName f0 hc hk
  | process s s' ok sequence first_message data _ hstep ih =>
    exact (processStreamData_keeps s s' ok sequence first_message data hstep ih).1

/-- C12 at its failing input: with a vehicle connected, `startLogging()` twice
(both files opened). The first processor is deleted without its record being
told, and the collection holds two records with `writing = true`. -/
theorem two_records_writing :
    ((idle7.startLogging "2016-11-01-10-00-00-000" (some File.empty)).startLogging
        "2016-11-01-10-00-01-000" (some File.empty)).logFiles.map (fun f => f.2.writing)
      = [true, true] := by
  decide

/-- C13 as stated fails: after `startLogging()` and four expiries of the timer
the processor, its record, `_logRunning` and the timer are all still there, and
the start command has been sent five times (once by `startLogging`, four times
again). -/
theorem still_waiting_after_four_expiries :
    (expire 4 (idle7.startLogging "2016-11-01-10-00-00-000" (some File.empty))).map
        (fun m => (m.logProcessor.isSome, m.logFiles.length, m.logRunning, m.ackTimer))
      = some (true, 1, true, true) ∧
    (expire 4 (idle7.startLogging "2016-11-01-10-00-00-000" (some File.empty))).map
        (fun m => m.effects)
      = some (List.replicate 5 (Effect.startMavlinkLog 7)) := by
  decide

theorem lookupRecord_insertSorted (x : Nat × MavlinkLogFiles) (l : List (Nat × MavlinkLogFiles))
    (hfresh : ∀ e ∈ l, e.1 ≠ x.1) : lookupRecord (insertSorted x l) x.1 = some x.2 := by
  induction l with
  | nil => simp [insertSorted, lookupRecord]
  | cons e rest ih =>
    have h1 : e.1 ≠ x.1 := hfresh e (List.mem_cons_self _ _)
    have ih' := ih (fun y hy => hfresh y (List.mem_cons_of_mem _ hy))
    unfold insertSorted
    split_ifs
    · simp [lookupRecord]
    · simp only [lookupRecord, if_neg h1, ih']

theorem removeOne_insertSorted (x : Nat × MavlinkLogFiles) (l : List (Nat × MavlinkLogFiles))
    (hfresh : ∀ e ∈ l, e.1 ≠ x.1) : removeOne (insertSorted x l) x.1 = l := by
  induction l with
  | nil => simp [insertSorted, removeOne]
  | cons e rest ih =>
    have h1 : e.1 ≠ x.1 := hfresh e (List.mem_cons_self _ _)
    have ih' := ih (fun y hy => hfresh y (List.mem_cons_of_mem _ hy))
    unfold insertSorted
    split_ifs
    · simp [removeOne]
    · simp only [removeOne, if_neg h1, ih']

/-- C13 (amended): after a successful `startLogging()` with a vehicle present, the
timer expiring with no acknowledgement and no log data in between, the session is
still there after the fourth expiry (session, record, timer and `logRunning` all
kept, the start command sent five times: once by `startLogging()` and once on each
of the four expiries); it is the fifth expiry that discards the session, removes
the new record from the collection, stops the timer and clears `logRunning`,
sending no further command. -/
theorem start_given_up_at_fifth_expiry (m : MavlinkLogManager) (v : Nat) (timestamp : String)
    (f : File) (hv : m.vehicle = some v) (hfresh : ∀ e ∈ m.logFiles, e.1 ≠ m.nextRecord) :
    ∃ m4 m5 path,
      expire 4 (m.startLogging timestamp (some f)) = some m4 ∧
      m4.logProcessor.isSome = true ∧ m4.logRunning = true ∧ m4.ackTimer = true ∧
      lookupRecord m4.logFiles m.nextRecord ≠ none ∧
      m4.effects = m.effects ++ List.replicate 5 (Effect.startMavlinkLog v) ∧
      expire 5 (m.startLogging timestamp (some f)) = some m5 ∧
      m5.logProcessor = none ∧ m5.logFiles = m.logFiles ∧
      m5.ackTimer = false ∧ m5.logRunning = false ∧
      m5.effects = m.effects ++ List.replicate 5 (Effect.startMavlinkLog v) ++
        [Effect.removeFile path,
         Effect.removeSidecar (path.replace kUlogExtension kSidecarExtension)] := by
  have hl := lookupRecord_insertSorted
    (m.nextRecord, (MavlinkLogFiles.newFile (m.logPath ++ "/" ++ format03d (v % 256) ++ "-" ++
      timestamp ++ kUlogExtension)).setWriting true) m.logFiles hfresh
  have hr := removeOne_insertSorted
    (m.nextRecord, (MavlinkLogFiles.newFile (m.logPath ++ "/" ++ format03d (v % 256) ++ "-" ++
      timestamp ++ kUlogExtension)).setWriting true) m.logFiles hfresh
  simp only [] at hl hr
  simp [expire, MavlinkLogManager.startLogging, hv, MavlinkLogManager._createNewLog,
    MavlinkLogProcessor.create, MavlinkLogProcessor.new, MavlinkLogManager._processCmdAck,
    MavlinkLogManager._discardLog, MavlinkLogManager._deleteLog, hl, hr, List.replicate]

theorem start_given_up_at_fifth_expiry_witness :
    ∃ m4 m5 path,
      expire 4 (idle7.startLogging "2016-11-01-10-00-00-000" (some File.empty)) = some m4 ∧
      m4.logProcessor.isSome = true ∧ m4.logRunning = true ∧ m4.ackTimer = true ∧
      lookupRecord m4.logFiles idle7.nextRecord ≠ none ∧
      m4.effects = idle7.effects ++ List.replicate 5 (Effect.startMavlinkLog 7) ∧
      expire 5 (idle7.startLogging "2016-11-01-10-00-00-000" (some File.empty)) = some m5 ∧
      m5.logProcessor = none ∧ m5.logFiles = idle7.logFiles ∧
      m5.ackTimer = false ∧ m5.logRunning = false ∧
      m5.effects = idle7.effects ++ List.replicate 5 (Effect.startMavlinkLog 7) ++
        [Effect.removeFile path,
         Effect.removeSidecar (path.replace kUlogExtension kSidecarExtension)] :=
  start_given_up_at_fifth_expiry idle7 7 "2016-11-01-10-00-00-000" File.empty rfl
    (fun _ h => nomatch h)

/-! ## The upload queue -/

/-- C14 at its failing input: three logs, `b` and `c` selected by the user, an
email address configured. `uploadLog()` starts the transfer of `b`; a second
`uploadLog()` before that transfer has finished starts the transfer of `c` as
well: two replies are outstanding. -/
theorem second_transfer_while_first_runs :
    (twoSelected.bind fun m => (m.uploadLog true).map fun m =>
        (m.replies, m.currentLogfile)) = some (1, some 1) ∧
    (twoSelected.bind fun m => (m.uploadLog true).bind fun m => (m.uploadLog true).map fun m =>
        (m.replies, m.currentLogfile)) = some (2, some 2) ∧
    (twoSelected.bind fun m => (m.uploadLog true).bind fun m => (m.uploadLog true).map fun m =>
        m.effects) =
      some [Effect.post "http://logs.px4.io/upload" "/data/MavlinkLogs/b.ulg",
            Effect.post "http://logs.px4.io/upload" "/data/MavlinkLogs/c.ulg"] := by
  decide

theorem setSelected_false_of_unselected (r : MavlinkLogFiles) (h : r.selected = false) :
    r.setSelected false = r := by
  cases r
  simp only [MavlinkLogFiles.setSelected] at h ⊢
  simp only [h]

theorem uploadScan_none (emailAddress uploadURL : String) (l : List (Nat × MavlinkLogFiles))
    (h : (∀ e ∈ l, ¬ (e.2.selected = true ∧ e.2.uploaded = false)) ∨ emailAddress = "" ∨
      uploadURL = "") :
    uploadScan emailAddress uploadURL l =
      (l.map fun e => (e.1, e.2.setSelected false), none) := by
  induction l with
  | nil => rfl
  | cons e rest ih =>
    have ih' := ih (by
      rcases h with h | h
      · exact Or.inl fun x hx => h x (List.mem_cons_of_mem _ hx)
      · exact Or.inr h)
    unfold uploadScan
    by_cases hs : e.2.selected = true
    · have hn : ¬ (e.2.uploaded = false ∧ emailAddress ≠ "" ∧ uploadURL ≠ "") := by
        rintro ⟨h1, h2, h3⟩
        rcases h with h | h | h
        · exact h e (List.mem_cons_self _ _) ⟨hs, h1⟩
        · exact h2 h
        · exact h3 h
      rw [if_pos hs, if_neg hn, ih']
      rfl
    · have hs' : e.2.selected = false := by simpa using hs
      rw [if_neg hs, ih']
      simp only [List.map_cons, setSelected_false_of_unselected e.2 hs']

theorem uploadScan_found (emailAddress uploadURL : String)
    (pre post : List (Nat × MavlinkLogFiles)) (p : Nat) (r : MavlinkLogFiles)
    (he : emailAddress ≠ "") (hu : uploadURL ≠ "")
    (hsel : r.selected = true) (hup : r.uploaded = false)
    (hpre : ∀ e ∈ pre, ¬ (e.2.selected = true ∧ e.2.uploaded = false)) :
    uploadScan emailAddress uploadURL (pre ++ (p, r) :: post) =
      ((pre.map fun e => (e.1, e.2.setSelected false)) ++
        (p, ((r.setSelected false).setUploading true).setProgress 0) :: post, some p) := by
  induction pre with
  | nil =>
    simp only [List.nil_append, List.map_nil, uploadScan]
    rw [if_pos hsel, if_pos ⟨hup, he, hu⟩]
  | cons e rest ih =>
    have ih' := ih (fun x hx => hpre x (List.mem_cons_of_mem _ hx))
    simp only [List.cons_append, List.map_cons]
    unfold uploadScan
    by_cases hs : e.2.selected = true
    · have hn : ¬ (e.2.uploaded = false ∧ emailAddress ≠ "" ∧ uploadURL ≠ "") := by
        rintro ⟨h1, _, _⟩
        exact hpre e (List.mem_cons_self _ _) ⟨hs, h1⟩
      rw [if_pos hs, if_neg hn, ih']
    · have hs' : e.2.selected = false := by simpa using hs
      rw [if_neg hs, ih']
      simp only [setSelected_false_of_unselected e.2 hs']

theorem lookupRecord_append_self (pre post : List (Nat × MavlinkLogFiles)) (p : Nat)
    (r : MavlinkLogFiles) : ∃ r', lookupRecord (pre ++ (p, r) :: post) p = some r' := by
  induction pre with
  | nil => exact ⟨r, by simp [lookupRecord]⟩
  | cons e rest ih =>
    obtain ⟨r', hr'⟩ := ih
    simp only [List.cons_append, lookupRecord]
    split_ifs
    · exact ⟨_, rfl⟩
    · exact ⟨r', hr'⟩

theorem uploadLog_released (m : MavlinkLogManager) (fileOk : Bool)
    (hcur : ∀ p, m.currentLogfile = some p → lookupRecord m.logFiles p ≠ none) :
    m.uploadLog fileOk =
      match (uploadScan m.emailAddress m.uploadURL (releasedTarget m)).2 with
      | some p =>
        match lookupRecord (uploadScan m.emailAddress m.uploadURL (releasedTarget m)).1 p with
        | none => none
        | some r =>
          some (MavlinkLogManager._sendLog
            { m with logFiles := (uploadScan m.emailAddress m.uploadURL (releasedTarget m)).1
                     currentLogfile := some p }
            (m._makeFilename r.name) fileOk).2
      | none =>
        some { m with logFiles := (uploadScan m.emailAddress m.uploadURL (releasedTarget m)).1
                      currentLogfile := none } := by
  unfold MavlinkLogManager.uploadLog releasedTarget
  cases hc : m.currentLogfile with
  | none => rfl
  | some p =>
    cases hl : lookupRecord m.logFiles p with
    | none => exact absurd hl (hcur p hc)
    | some r =>
      simp only [hl]
      rfl

/-- C15 (amended): `uploadLog()` first clears the `uploading` flag of the previous
upload target (when there is one), wherever it stands in the collection. On the
records so released, with a non-empty email and URL, the first record in
collection order that is selected and not uploaded becomes the upload target,
with `selected` cleared, `uploading` set and `progress` 0; every record before it
has `selected` cleared and the records after it are as released; one transfer
is started when the file can be opened. If no released record is selected and
not uploaded, or the email or the URL is empty, every record has `selected`
cleared, nothing else changes, and there is no upload target. -/
theorem uploadLog_selects_first_eligible (m : MavlinkLogManager) (fileOk : Bool)
    (hcur : ∀ p, m.currentLogfile = some p → lookupRecord m.logFiles p ≠ none) :
    (m.emailAddress ≠ "" → m.uploadURL ≠ "" →
      ∀ (pre post : List (Nat × MavlinkLogFiles)) (p : Nat) (r : MavlinkLogFiles),
        releasedTarget m = pre ++ (p, r) :: post →
        r.selected = true → r.uploaded = false →
        (∀ e ∈ pre, ¬ (e.2.selected = true ∧ e.2.uploaded = false)) →
        ∃ m', m.uploadLog fileOk = some m' ∧
          m'.currentLogfile = some p ∧
          m'.logFiles = (pre.map fun e => (e.1, { e.2 with selected := false })) ++
            (p, { r with selected := false, uploading := true, progress := 0 }) :: post ∧
          m'.replies = (if fileOk = true then m.replies + 1 else m.replies)) ∧
    (((∀ e ∈ releasedTarget m, ¬ (e.2.selected = true ∧ e.2.uploaded = false)) ∨
        m.emailAddress = "" ∨ m.uploadURL = "") →
      m.uploadLog fileOk =
        some { m with
                logFiles := (releasedTarget m).map fun e => (e.1, { e.2 with selected := false })
                currentLogfile := none }) := by
  refine ⟨fun he hu pre post p r hrel hsel hup hpre => ?_, fun h => ?_⟩
  · have hscan := uploadScan_found m.emailAddress m.uploadURL pre post p r he hu hsel hup hpre
    rw [← hrel] at hscan
    obtain ⟨r', hr'⟩ := lookupRecord_append_self
      (pre.map fun e => (e.1, e.2.setSelected false)) post p
      (((r.setSelected false).setUploading true).setProgress 0)
    rw [uploadLog_released m fileOk hcur, hscan]
    simp only [hr']
    refine ⟨_, rfl, ?_, ?_, ?_⟩
    · simp only [MavlinkLogManager._sendLog, he, hu, if_false]
      split_ifs <;> rfl
    · simp only [MavlinkLogManager._sendLog, he, hu, if_false]
      split_ifs <;> rfl
    · simp only [MavlinkLogManager._sendLog, he, hu, if_false]
      cases fileOk <;> simp
  · rw [uploadLog_released m fileOk hcur, uploadScan_none _ _ _ h]
    rfl

/-- C15 as stated fails: with `c` (the third record) the upload target and `b` (the
second) selected, `uploadLog()` makes `b` the target and `c`, a record after the
new target, changes: its `uploading` flag goes from true to false. -/
theorem uploadLog_releases_later_record :
    uploadingC.map (fun m => (m.logFiles.map fun f => (f.1, f.2.selected, f.2.uploading),
        m.currentLogfile))
      = some ([(0, false, false), (1, true, false), (2, false, true)], some 2) ∧
    (uploadingC.bind fun m => (m.uploadLog true).map fun m =>
        (m.logFiles.map fun f => (f.1, f.2.selected, f.2.uploading), m.currentLogfile))
      = some ([(0, false, false), (1, false, true), (2, false, false)], some 1) := by
  decide

theorem lookupRecord_updateRecord_self (l : List (Nat × MavlinkLogFiles)) (p : Nat)
    (r : MavlinkLogFiles) (f : MavlinkLogFiles → MavlinkLogFiles)
    (h : lookupRecord l p = some r) : lookupRecord (updateRecord l p f) p = some (f r) := by
  induction l with
  | nil => simp [lookupRecord] at h
  | cons e rest ih =>
    simp only [lookupRecord] at h
    simp only [updateRecord, List.map_cons]
    by_cases he : e.1 = p
    · rw [if_pos he] at h
      cases h
      simp only [if_pos he, lookupRecord, if_true]
    · rw [if_neg he] at h
      simp only [if_neg he, lookupRecord]
      exact ih h

theorem updateRecord_updateRecord (l : List (Nat × MavlinkLogFiles)) (p : Nat)
    (f g : MavlinkLogFiles → MavlinkLogFiles) :
    updateRecord (updateRecord l p f) p g = updateRecord l p (fun r => g (f r)) := by
  induction l with
  | nil => rfl
  | cons e rest ih =>
    simp only [updateRecord, List.map_cons, List.map_map] at ih ⊢
    by_cases he : e.1 = p
    · simp only [if_pos he, if_true]
      rw [ih]
    · simp only [if_neg he]
      rw [ih]

theorem uploadScan_lookup_unselected (emailAddress uploadURL : String)
    (l : List (Nat × MavlinkLogFiles)) (p : Nat) (r : MavlinkLogFiles)
    (h : lookupRecord l p = some r) (hsel : r.selected = false) :
    lookupRecord (uploadScan emailAddress uploadURL l).1 p = some r := by
  induction l with
  | nil => simp [lookupRecord] at h
  | cons e rest ih =>
    simp only [lookupRecord] at h
    unfold uploadScan
    by_cases he : e.1 = p
    · rw [if_pos he] at h
      cases h
      have hs : ¬ (e.2.selected = true) := by rw [hsel]; simp
      rw [if_neg hs]
      simp only [lookupRecord, if_pos he]
    · rw [if_neg he] at h
      split_ifs
      · simp only [lookupRecord, if_neg he]; exact h
      · simp only [lookupRecord, if_neg he]; exact ih h
      · simp only [lookupRecord, if_neg he]; exact ih h

theorem uploadFinished_rescan (m : MavlinkLogManager) (http_code : Int) (fileOk : Bool)
    (p : Nat) (r : MavlinkLogFiles)
    (hdel : m.deleteAfterUpload = false) (hcur : m.currentLogfile = some p)
    (hl : lookupRecord m.logFiles p = some r) :
    ∃ m3 : MavlinkLogManager,
      m._uploadFinished http_code fileOk = m3.uploadLog fileOk ∧
      releasedTarget m3 = finishedTarget m p http_code ∧
      m3.currentLogfile = some p ∧
      m3.emailAddress = m.emailAddress ∧ m3.uploadURL = m.uploadURL ∧
      lookupRecord m3.logFiles p ≠ none ∧
      (Effect.failed ∈ m3.effects ↔ (Effect.failed ∈ m.effects ∨ http_code ≠ 200)) := by
  by_cases hc : http_code = 200
  · refine ⟨{ m with
        logFiles := updateRecord m.logFiles p fun x => x.setUploaded true
        effects := m.effects ++ [Effect.readyRead] ++ [Effect.succeed] ++
          [Effect.createSidecar ((m._makeFilename r.name).replace kUlogExtension kSidecarExtension)]
        replies := m.replies - 1 }, ?_, ?_, hcur, rfl, rfl, ?_, ?_⟩
    · simp [MavlinkLogManager._uploadFinished, MavlinkLogManager._processUploadResponse, hc,
        hdel, hcur, hl, MavlinkLogManager._makeFilename]
    · simp only [releasedTarget, hcur, finishedTarget, if_pos hc, updateRecord_updateRecord]
    · simp only [lookupRecord_updateRecord_self _ _ _ _ hl]
      simp
    · simp [hc]
  · refine ⟨{ m with
        effects := m.effects ++ [Effect.readyRead] ++ [Effect.failed]
        replies := m.replies - 1 }, ?_, ?_, hcur, rfl, rfl, ?_, ?_⟩
    · simp [MavlinkLogManager._uploadFinished, MavlinkLogManager._processUploadResponse, hc]
    · simp only [releasedTarget, hcur, finishedTarget, if_neg hc]
    · simp only [hl]; simp
    · simp [hc]

theorem uploadScan_target_alive (emailAddress uploadURL : String)
    (l : List (Nat × MavlinkLogFiles)) (p : Nat)
    (h : (uploadScan emailAddress uploadURL l).2 = some p) :
    ∃ r, lookupRecord (uploadScan emailAddress uploadURL l).1 p = some r := by
  induction l with
  | nil => simp [uploadScan] at h
  | cons e rest ih =>
    unfold uploadScan at h ⊢
    split_ifs at h ⊢ with h1 h2
    · simp only [Option.some.injEq] at h
      exact ⟨((e.2.setSelected false).setUploading true).setProgress 0, by
        simp only [lookupRecord, if_pos h]⟩
    · obtain ⟨r, hr⟩ := ih h
      simp only [lookupRecord]
      split_ifs
      · exact ⟨_, rfl⟩
      · exact ⟨r, hr⟩
    · obtain ⟨r, hr⟩ := ih h
      simp only [lookupRecord]
      split_ifs
      · exact ⟨_, rfl⟩
      · exact ⟨r, hr⟩

theorem uploadLog_scan (m : MavlinkLogManager) (fileOk : Bool)
    (hcur : ∀ p, m.currentLogfile = some p → lookupRecord m.logFiles p ≠ none) :
    ∃ m', m.uploadLog fileOk = some m' ∧
      m'.logFiles = (uploadScan m.emailAddress m.uploadURL (releasedTarget m)).1 ∧
      m'.currentLogfile = (uploadScan m.emailAddress m.uploadURL (releasedTarget m)).2 ∧
      (Effect.failed ∈ m'.effects ↔ Effect.failed ∈ m.effects) := by
  rw [uploadLog_released m fileOk hcur]
  cases hs : (uploadScan m.emailAddress m.uploadURL (releasedTarget m)).2 with
  | none => exact ⟨_, rfl, rfl, hs.symm ▸ rfl, Iff.rfl⟩
  | some q =>
    obtain ⟨r, hr⟩ := uploadScan_target_alive _ _ _ q hs
    simp only [hr]
    refine ⟨_, rfl, ?_, ?_, ?_⟩
    · simp only [MavlinkLogManager._sendLog]
      split_ifs <;> rfl
    · simp only [MavlinkLogManager._sendLog]
      split_ifs <;> rfl
    · simp only [MavlinkLogManager._sendLog]
      split_ifs <;> simp

/-! ## Removing records -/

theorem removeOne_eq_filter (l : List (Nat × MavlinkLogFiles)) (p : Nat)
    (hnd : (l.map Prod.fst).Nodup) :
    removeOne l p = l.filter fun e => decide (e.1 ≠ p) := by
  induction l with
  | nil => rfl
  | cons e rest ih =>
    rw [List.map_cons, List.nodup_cons] at hnd
    by_cases he : e.1 = p
    · simp only [removeOne, if_pos he]
      have hall : ∀ x ∈ rest, decide (x.1 ≠ p) = true := by
        intro x hx
        have : x.1 ≠ p := by
          intro hxp
          exact hnd.1 (by rw [he, ← hxp]; exact List.mem_map_of_mem Prod.fst hx)
        simpa using this
      rw [List.filter_cons_of_neg (by simpa using he), List.filter_eq_self.mpr hall]
    · simp only [removeOne, if_neg he]
      rw [List.filter_cons_of_pos (by simpa using he), ih hnd.2]

theorem lookupRecord_filter_ne (l : List (Nat × MavlinkLogFiles)) (p : Nat) :
    lookupRecord (l.filter fun e => decide (e.1 ≠ p)) p = none := by
  induction l with
  | nil => rfl
  | cons e rest ih =>
    by_cases he : e.1 = p
    · rw [List.filter_cons_of_neg (by simpa using he)]
      exact ih
    · rw [List.filter_cons_of_pos (by simpa using he)]
      simp only [lookupRecord, if_neg he]
      exact ih

/-- C17: with a capture session whose record is in the collection, a start
acknowledgement with a non-zero result leaves no session, removes exactly the
session's record from the collection (every other record as it was, in order),
stops the timer and clears `logRunning`; a stop acknowledgement with a non-zero
result only stops the timer. Distinct records have distinct addresses. -/
theorem start_rejected (m : MavlinkLogManager) (result : Nat) (po : ProcessorObject)
    (r : MavlinkLogFiles)
    (hp : m.logProcessor = some po) (hrec : po.state.record.isSome = true)
    (hl : lookupRecord m.logFiles po.record = some r) (hres : result ≠ 0)
    (hnd : (m.logFiles.map Prod.fst).Nodup) :
    (∃ m', m._commandLongAck MAV_CMD_LOGGING_START result = some m' ∧
      m'.logProcessor = none ∧
      m'.logFiles = (m.logFiles.filter fun e => decide (e.1 ≠ po.record)) ∧
      lookupRecord m'.logFiles po.record = none ∧
      m'.ackTimer = false ∧ m'.logRunning = false) ∧
    m._commandLongAck MAV_CMD_LOGGING_STOP result = some { m with ackTimer := false } := by
  refine ⟨?_, ?_⟩
  · refine ⟨{ m with
        ackTimer := false
        effects := m.effects ++
          [Effect.removeFile (m._makeFilename r.name),
           Effect.removeSidecar ((m._makeFilename r.name).replace kUlogExtension kSidecarExtension)]
        logFiles := m.logFiles.filter fun e => decide (e.1 ≠ po.record)
        logProcessor := none
        logRunning := false }, ?_, rfl, rfl, lookupRecord_filter_ne _ _, rfl, rfl⟩
    have hne : ¬ (MAV_CMD_LOGGING_START = MAV_CMD_LOGGING_STOP) := by decide
    simp only [MavlinkLogManager._commandLongAck, true_or, if_true, hres, ne_eq,
      not_false_eq_true, if_neg hne, MavlinkLogManager._discardLog, hp, hrec,
      MavlinkLogManager._deleteLog, hl, Option.map_some', Option.some_bind,
      removeOne_eq_filter _ _ hnd]
    rfl
  · simp only [MavlinkLogManager._commandLongAck, or_true, if_true, hres, ne_eq,
      not_false_eq_true]

theorem exists_first_selected (l : List (Nat × MavlinkLogFiles))
    (h : ∃ e ∈ l, e.2.selected = true) :
    ∃ pre e post, l = pre ++ e :: post ∧ (∀ x ∈ pre, x.2.selected = false) ∧
      e.2.selected = true := by
  induction l with
  | nil => obtain ⟨e, he, _⟩ := h; cases he
  | cons a rest ih =>
    by_cases ha : a.2.selected = true
    · exact ⟨[], a, rest, rfl, fun x hx => absurd hx (List.not_mem_nil x), ha⟩
    · have ha' : a.2.selected = false := by simpa using ha
      obtain ⟨e, he, hs⟩ := h
      have hrest : ∃ e ∈ rest, e.2.selected = true := by
        rcases List.mem_cons.mp he with h1 | h1
        · rw [h1] at hs; exact absurd hs ha
        · exact ⟨e, h1, hs⟩
      obtain ⟨pre, e', post, h1, h2, h3⟩ := ih hrest
      refine ⟨a :: pre, e', post, by rw [h1]; rfl, ?_, h3⟩
      intro x hx
      rcases List.mem_cons.mp hx with h4 | h4
      · rw [h4]; exact ha'
      · exact h2 x h4

theorem firstSelectedFrom_none (l : List (Nat × MavlinkLogFiles)) (i : Nat)
    (h : ∀ e ∈ l, e.2.selected = false) : firstSelectedFrom l i = -1 := by
  induction l generalizing i with
  | nil => rfl
  | cons a rest ih =>
    have ha : ¬ (a.2.selected = true) := by rw [h a (List.mem_cons_self _ _)]; simp
    simp only [firstSelectedFrom, if_neg ha]
    exact ih (i + 1) fun e he => h e (List.mem_cons_of_mem _ he)

theorem firstSelectedFrom_split (pre post : List (Nat × MavlinkLogFiles))
    (e : Nat × MavlinkLogFiles) (i : Nat)
    (hpre : ∀ x ∈ pre, x.2.selected = false) (he : e.2.selected = true) :
    firstSelectedFrom (pre ++ e :: post) i = ((i + pre.length : Nat) : Int) := by
  induction pre generalizing i with
  | nil => simp only [List.nil_append, firstSelectedFrom, if_pos he, List.length_nil, Nat.add_zero]
  | cons a rest ih =>
    have ha : ¬ (a.2.selected = true) := by rw [hpre a (List.mem_cons_self _ _)]; simp
    have e1 : firstSelectedFrom ((a :: rest) ++ e :: post) i =
        firstSelectedFrom (rest ++ e :: post) (i + 1) := by
      show firstSelectedFrom (a :: (rest ++ e :: post)) i = _
      simp only [firstSelectedFrom, if_neg ha]
    rw [e1, ih (i + 1) fun x hx => hpre x (List.mem_cons_of_mem _ hx)]
    simp only [List.length_cons]
    congr 1
    omega

theorem filter_unselected_split (pre post : List (Nat × MavlinkLogFiles))
    (e : Nat × MavlinkLogFiles) (he : e.2.selected = true) :
    ((pre ++ e :: post).filter fun x => !x.2.selected) =
      ((pre ++ post).filter fun x => !x.2.selected) := by
  simp [List.filter_append, he]

theorem removeOne_split (pre post : List (Nat × MavlinkLogFiles)) (e : Nat × MavlinkLogFiles)
    (hnd : ((pre ++ e :: post).map Prod.fst).Nodup) :
    removeOne (pre ++ e :: post) e.1 = pre ++ post := by
  induction pre with
  | nil => simp [removeOne]
  | cons a rest ih =>
    simp only [List.cons_append, List.map_cons, List.nodup_cons] at hnd
    have hne : a.1 ≠ e.1 := by
      intro h
      apply hnd.1
      rw [h]
      simp
    show removeOne (a :: (rest ++ e :: post)) e.1 = a :: (rest ++ post)
    simp only [removeOne, if_neg hne]
    rw [ih hnd.2]

theorem deleteLogLoop_spec (fuel : Nat) (m : MavlinkLogManager)
    (hnd : (m.logFiles.map Prod.fst).Nodup) (hfuel : m.logFiles.length < fuel) :
    ∃ m', MavlinkLogManager.deleteLogLoop fuel m = some m' ∧
      m'.logFiles = (m.logFiles.filter fun x => !x.2.selected) ∧
      m'.currentLogfile = m.currentLogfile ∧ m'.logProcessor = m.logProcessor ∧
      m'.replies = m.replies := by
  induction fuel generalizing m with
  | zero => omega
  | succ n ih =>
    by_cases hsel : ∃ e ∈ m.logFiles, e.2.selected = true
    · obtain ⟨pre, e, post, hsplit, hpre, he⟩ := exists_first_selected m.logFiles hsel
      have hidx : m._getFirstSelected = ((pre.length : Nat) : Int) := by
        unfold MavlinkLogManager._getFirstSelected
        rw [hsplit, firstSelectedFrom_split pre post e 0 hpre he]
        simp
      have hget : m.logFiles.get? (m._getFirstSelected).toNat = some e := by
        rw [hidx, hsplit, Int.toNat_ofNat, List.get?_eq_getElem?,
          List.getElem?_append_right (Nat.le_refl _), Nat.sub_self]
        exact List.getElem?_cons_zero
      have hmem : ∃ r, lookupRecord m.logFiles e.1 = some r := by
        rw [hsplit]
        exact lookupRecord_append_self pre post e.1 e.2
      obtain ⟨r, hr⟩ := hmem
      have hrem : removeOne m.logFiles e.1 = pre ++ post := by
        rw [hsplit] at hnd ⊢
        exact removeOne_split pre post e hnd
      have hnd' : ((pre ++ post).map Prod.fst).Nodup := by
        rw [hsplit] at hnd
        simp only [List.map_append, List.map_cons] at hnd ⊢
        exact hnd.sublist (List.Sublist.append_left (List.sublist_cons_self _ _) _)
      have hlen : (pre ++ post).length < n := by
        rw [hsplit] at hfuel
        simp only [List.length_append, List.length_cons] at hfuel ⊢
        omega
      obtain ⟨m', h1, h2, h3, h4, h5⟩ := ih
        { m with
            effects := m.effects ++
              [Effect.removeFile (m._makeFilename r.name),
               Effect.removeSidecar
                 ((m._makeFilename r.name).replace kUlogExtension kSidecarExtension)]
            logFiles := pre ++ post } hnd' hlen
      refine ⟨m', ?_, ?_, h3, h4, h5⟩
      · have hneg : ¬ (m._getFirstSelected < 0) := by rw [hidx]; omega
        simp only [MavlinkLogManager.deleteLogLoop, if_neg hneg, hget, MavlinkLogManager._deleteLog, hr, hrem,
          Option.some_bind]
        exact h1
      · rw [h2, hsplit]
        exact (filter_unselected_split pre post e he).symm
    · have hall : ∀ e ∈ m.logFiles, e.2.selected = false := by
        intro e he
        by_contra hne
        exact hsel ⟨e, he, by simpa using hne⟩
      have hidx : m._getFirstSelected = -1 :=
        firstSelectedFrom_none m.logFiles 0 hall
      refine ⟨m, ?_, ?_, rfl, rfl, rfl⟩
      · simp only [MavlinkLogManager.deleteLogLoop, hidx]
        rfl
      · symm
        apply List.filter_eq_self.mpr
        intro e he
        simp [hall e he]

/-- C18: `deleteLog()` returns (any number of rounds above the number of records is
enough), and the collection is then the records that were not selected, as they
were and in their order; no selected record remains. Distinct records have
distinct addresses. -/
theorem deleteLog_removes_selected (m : MavlinkLogManager)
    (hnd : (m.logFiles.map Prod.fst).Nodup) :
    (∀ fuel, m.logFiles.length < fuel →
      ∃ m', MavlinkLogManager.deleteLogLoop fuel m = some m' ∧
        m'.logFiles = (m.logFiles.filter fun x => !x.2.selected)) ∧
    (∃ m', m.deleteLog = some m' ∧
      m'.logFiles = (m.logFiles.filter fun x => !x.2.selected) ∧
      (∀ e ∈ m'.logFiles, e.2.selected = false)) := by
  refine ⟨fun fuel hf => ?_, ?_⟩
  · obtain ⟨m', h1, h2, _⟩ := deleteLogLoop_spec fuel m hnd hf
    exact ⟨m', h1, h2⟩
  · obtain ⟨m', h1, h2, _⟩ := deleteLogLoop_spec (m.logFiles.length + 1) m hnd (Nat.lt_succ_self _)
    refine ⟨m', h1, h2, fun e he => ?_⟩
    rw [h2] at he
    have := (List.mem_filter.mp he).2
    simpa using this

theorem start_rejected_witness :
    ∃ m', started7._commandLongAck MAV_CMD_LOGGING_START 1 = some m' ∧
      m'.logProcessor = none ∧ m'.logFiles = [] ∧ m'.ackTimer = false ∧ m'.logRunning = false := by
  obtain ⟨⟨m', h1, h2, h3, _, h5, h6⟩, _⟩ := start_rejected started7 1
    (started7.logProcessor.getD ⟨MavlinkLogProcessor.new, 0⟩)
    ((lookupRecord started7.logFiles 0).getD (MavlinkLogFiles.newFile ""))
    rfl rfl rfl (by decide) (by decide)
  exact ⟨m', h1, h2, h3, h5, h6⟩

theorem deleteLog_removes_selected_witness :
    ∃ m', bcSelected.deleteLog = some m' ∧
      m'.logFiles = [(0, MavlinkLogFiles.existing "/data/MavlinkLogs/a.ulg" 20 true)] := by
  obtain ⟨m', h1, h2, _⟩ := (deleteLog_removes_selected bcSelected (by decide)).2
  exact ⟨m', h1, h2⟩

theorem uploadLog_selects_first_eligible_witness :
    ∃ m', bcSelected.uploadLog true = some m' ∧ m'.currentLogfile = some 1 ∧ m'.replies = 1 := by
  obtain ⟨m', h1, h2, _, h4⟩ :=
    (uploadLog_selects_first_eligible bcSelected true (fun p h => by cases h)).1
      (by decide) (by decide)
      [(0, MavlinkLogFiles.existing "/data/MavlinkLogs/a.ulg" 20 true)]
      [(2, (MavlinkLogFiles.existing "/data/MavlinkLogs/c.ulg" 5 false).setSelected true)]
      1 ((MavlinkLogFiles.existing "/data/MavlinkLogs/b.ulg" 10 false).setSelected true)
      rfl rfl rfl (by decide)
  exact ⟨m', h1, h2, h4⟩

/-- C19: `cancelUpload()` maps the collection record by record: the upload target is
left as it was and every other record has `selected` cleared and no other field
written, so membership, order, and the `uploading`, `uploaded`, `progress`, `writing`
fields are as before; the upload target is the same; and `abortUpload` is signalled
exactly when there is an upload target. -/
theorem cancelUpload_frame (m : MavlinkLogManager) :
    m.cancelUpload.logFiles =
      (m.logFiles.map fun e =>
        if some e.1 = m.currentLogfile then e else (e.1, { e.2 with selected := false })) ∧
    (∀ e ∈ m.cancelUpload.logFiles, some e.1 ≠ m.currentLogfile → e.2.selected = false) ∧
    m.cancelUpload.logFiles.map Prod.fst = m.logFiles.map Prod.fst ∧
    m.cancelUpload.currentLogfile = m.currentLogfile ∧
    m.cancelUpload.effects =
      m.effects ++ (if m.currentLogfile.isSome = true then [Effect.abortUpload] else []) ∧
    (m.cancelUpload.effects.count Effect.abortUpload = m.effects.count Effect.abortUpload + 1 ↔
      m.currentLogfile ≠ none) := by
  have hfiles : m.cancelUpload.logFiles =
      (m.logFiles.map fun e =>
        if some e.1 = m.currentLogfile then e else (e.1, { e.2 with selected := false })) := by
    simp only [MavlinkLogManager.cancelUpload]
    apply List.map_congr_left
    intro e _
    by_cases hc : some e.1 = m.currentLogfile
    · rw [if_pos hc, if_neg (fun h => h.2 hc)]
    · rw [if_neg hc]
      by_cases hs : e.2.selected = true
      · rw [if_pos ⟨hs, hc⟩]
        rfl
      · rw [if_neg (fun h => hs h.1)]
        have hs' : e.2.selected = false := by simpa using hs
        obtain ⟨p, r⟩ := e
        cases r
        simp only at hs'
        simp only [hs']
  refine ⟨hfiles, ?_, ?_, rfl, ?_, ?_⟩
  · intro e he hne
    rw [hfiles] at he
    obtain ⟨a, _, ha⟩ := List.mem_map.mp he
    by_cases hc : some a.1 = m.currentLogfile
    · rw [if_pos hc] at ha
      rw [← ha] at hne
      exact absurd hc hne
    · rw [if_neg hc] at ha
      rw [← ha]
  · rw [hfiles, List.map_map]
    apply List.map_congr_left
    intro e _
    simp only [Function.comp]
    split_ifs <;> rfl
  · simp only [MavlinkLogManager.cancelUpload]
    split_ifs <;> simp
  · simp only [MavlinkLogManager.cancelUpload]
    cases hcur : m.currentLogfile with
    | none => simp
    | some p => simp [List.count_append]

/-! ## The order of the collection -/

theorem insertSorted_split (newLog : Nat × MavlinkLogFiles) (l : List (Nat × MavlinkLogFiles)) :
    ∃ pre post, l = pre ++ post ∧ insertSorted newLog l = pre ++ newLog :: post ∧
      (∀ e ∈ pre, e.2.name.data ≤ newLog.2.name.data) ∧
      (∀ f, post.head? = some f → newLog.2.name.data < f.2.name.data) := by
  induction l with
  | nil => exact ⟨[], [], rfl, rfl, fun e he => absurd he (List.not_mem_nil e),
      fun f hf => by cases hf⟩
  | cons f rest ih =>
    by_cases h : newLog.2.name.data < f.2.name.data
    · refine ⟨[], f :: rest, rfl, ?_, fun e he => absurd he (List.not_mem_nil e), ?_⟩
      · simp only [insertSorted, if_pos h, List.nil_append]
      · intro g hg
        cases hg
        exact h
    · obtain ⟨pre, post, h1, h2, h3, h4⟩ := ih
      refine ⟨f :: pre, post, by rw [h1]; rfl, ?_, ?_, h4⟩
      · simp only [insertSorted, if_neg h, h2, List.cons_append]
      · intro e he
        rcases List.mem_cons.mp he with h5 | h5
        · rw [h5]; exact not_lt.mp h
        · exact h3 e h5

theorem insertSorted_sorted (newLog : Nat × MavlinkLogFiles) (l : List (Nat × MavlinkLogFiles))
    (h : SortedByName l) : SortedByName (insertSorted newLog l) := by
  obtain ⟨pre, post, h1, h2, h3, h4⟩ := insertSorted_split newLog l
  rw [h2]
  rw [h1] at h
  unfold SortedByName at h ⊢
  rw [List.pairwise_append] at h ⊢
  obtain ⟨hp, hq, hpq⟩ := h
  refine ⟨hp, ?_, ?_⟩
  · rw [List.pairwise_cons]
    refine ⟨?_, hq⟩
    intro b hb
    cases post with
    | nil => exact absurd hb (List.not_mem_nil b)
    | cons g rest =>
      have hg := le_of_lt (h4 g rfl)
      rcases List.mem_cons.mp hb with h5 | h5
      · rw [h5]; exact hg
      · exact le_trans hg ((List.pairwise_cons.mp hq).1 b h5)
  · intro a ha b hb
    rcases List.mem_cons.mp hb with h5 | h5
    · rw [h5]; exact h3 a ha
    · exact hpq a ha b h5

theorem removeOne_sublist (l : List (Nat × MavlinkLogFiles)) (p : Nat) :
    (removeOne l p).Sublist l := by
  induction l with
  | nil => exact List.Sublist.refl _
  | cons e rest ih =>
    by_cases he : e.1 = p
    · simp only [removeOne, if_pos he]
      exact List.sublist_cons_self _ _
    · simp only [removeOne, if_neg he]
      exact ih.cons₂ _

theorem updateRecord_sorted (l : List (Nat × MavlinkLogFiles)) (p : Nat)
    (f : MavlinkLogFiles → MavlinkLogFiles) (hf : ∀ r, (f r).name = r.name)
    (h : SortedByName l) : SortedByName (updateRecord l p f) := by
  unfold SortedByName updateRecord at *
  rw [List.pairwise_map]
  refine h.imp ?_
  intro a b hab
  have ha : (if a.1 = p then (a.1, f a.2) else a).2.name = a.2.name := by
    split_ifs
    · exact hf a.2
    · rfl
  have hb : (if b.1 = p then (b.1, f b.2) else b).2.name = b.2.name := by
    split_ifs
    · exact hf b.2
    · rfl
  rw [ha, hb]
  exact hab

/-- C20: when the collection is sorted by name, ascending, `_insertNewLog(r)` leaves
it sorted and made of the records it had, in their order, with `r` put between
two of them (or at one end); so every collection built from the empty one by
insertions, deletions and the setters of the records is sorted by name. -/
theorem insertNewLog_keeps_sorted (m : MavlinkLogManager) (newLog : Nat × MavlinkLogFiles)
    (h : SortedByName m.logFiles) :
    SortedByName (m._insertNewLog newLog).logFiles ∧
    (∃ pre post, m.logFiles = pre ++ post ∧
      (m._insertNewLog newLog).logFiles = pre ++ newLog :: post) ∧
    (∀ l, CollectionReachable l → SortedByName l) := by
  refine ⟨insertSorted_sorted newLog m.logFiles h, ?_, ?_⟩
  · obtain ⟨pre, post, h1, h2, _⟩ := insertSorted_split newLog m.logFiles
    exact ⟨pre, post, h1, h2⟩
  · intro l hl
    induction hl with
    | empty => exact List.Pairwise.nil
    | insert l newLog _ ih => exact insertSorted_sorted newLog l ih
    | delete l log _ ih => exact List.Pairwise.sublist (removeOne_sublist l log) ih
    | update l p f hf _ ih => exact updateRecord_sorted l p f hf ih

theorem insertNewLog_keeps_sorted_witness :
    SortedByName threeLogs.logFiles ∧
    SortedByName (threeLogs._insertNewLog
      (3, MavlinkLogFiles.existing "/data/MavlinkLogs/b0.ulg" 1 false)).logFiles ∧
    (threeLogs._insertNewLog
      (3, MavlinkLogFiles.existing "/data/MavlinkLogs/b0.ulg" 1 false)).logFiles.map Prod.fst
      = [0, 1, 3, 2] :=
  have hs : SortedByName threeLogs.logFiles := by
    unfold SortedByName
    decide
  ⟨hs, (insertNewLog_keeps_sorted threeLogs
      (3, MavlinkLogFiles.existing "/data/MavlinkLogs/b0.ulg" 1 false) hs).1, by decide⟩

/-! ## Record extraction -/

/-- C23 at its failing input: a payload of two complete records. `_writeUlogMessage`
writes the first record and returns the second, `[2, 0, 66, 8, 9]`, which is a
complete record under the framing rule (2 + 256 * 0 + 3 = 5 bytes): the
remainder that becomes the buffered message starts with a complete record. -/
theorem writeUlogMessage_returns_complete_record :
    ((session "007.ulg" File.empty)._writeUlogMessage twoRecordPayload).map
        (fun r => (sink r.1, r.2)) = some ([1, 0, 65, 7], [2, 0, 66, 8, 9]) ∧
    2 < ([2, 0, 66, 8, 9] : List Nat).length ∧
    2 + 256 * 0 + 3 ≤ ([2, 0, 66, 8, 9] : List Nat).length ∧
    firstMessage [2, 0, 66, 8, 9] = 5 := by
  decide

/-! ## Buffered messages -/

theorem writeData_any (s : MavlinkLogProcessor) (f : File) (data : List Nat) (len : Nat)
    (he : s.error = false) (hfd : s.fd = some f) (hlen : len ≤ data.length) :
    ∃ s', s._writeData data len = some s' ∧ s'.fd = some (fwrite data len f).2 ∧
      (s'.error = true ↔ (fwrite data len f).1 ≠ len) ∧
      s'.ulogMessage = s.ulogMessage ∧ s'.gotHeader = s.gotHeader := by
  have hlen' : ¬ data.length < len := by omega
  by_cases hn : (fwrite data len f).1 = len
  · refine ⟨{ s with
                fd := some (fwrite data len f).2
                error := false
                written := (s.written + len) % 4294967296
                record := s.record.map
                  (fun rec => rec.setSize ((s.written + len) % 4294967296)) },
        ?_, rfl, ?_, rfl, rfl⟩
    · simp only [MavlinkLogProcessor._writeData, he, hfd, if_true, if_neg hlen', if_pos hn]
    · simp [hn]
  · refine ⟨{ s with fd := some (fwrite data len f).2, error := true }, ?_, rfl, ?_, rfl, rfl⟩
    · simp only [MavlinkLogProcessor._writeData, he, hfd, if_true, if_neg hlen', if_neg hn]
    · simp [hn]

theorem writeUlogMessage_flush (s : MavlinkLogProcessor) (f : File) (data : List Nat)
    (he : s.error = false) (hfd : s.fd = some f) (hl : f.limits = []) :
    ∃ s' f', s._writeUlogMessage data = some (s', data.drop (firstMessage data)) ∧
      s'.error = false ∧ s'.fd = some f' ∧ f'.limits = [] ∧
      f'.contents = f.contents ++ data.take (firstMessage data) ∧
      s'.ulogMessage = s.ulogMessage ∧ s'.gotHeader = s.gotHeader := by
  rw [writeUlogMessage_reliable s f data he hfd hl]
  by_cases h0 : firstMessage data = 0
  · rw [if_pos h0]
    refine ⟨s, f, rfl, he, hfd, hl, ?_, rfl, rfl⟩
    rw [h0]; simp
  · rw [if_neg h0]
    exact ⟨_, _, rfl, rfl, rfl, rfl, rfl, rfl, rfl⟩

theorem processBody_no_drops (s : MavlinkLogProcessor) (k : Nat) (data : List Nat) :
    s.processBody 0 k data = s.processTail k data := by
  simp [MavlinkLogProcessor.processBody]

theorem processTail_straddle (s : MavlinkLogProcessor) (f : File) (k : Nat) (data : List Nat)
    (he : s.error = false) (hfd : s.fd = some f) (hl : f.limits = [])
    (hb : s.ulogMessage ≠ []) (hk : k ≠ 255) (hkl : k ≤ data.length) :
    ∃ (s1 : MavlinkLogProcessor) (f1 : File), s1.error = false ∧ s1.fd = some f1 ∧ f1.limits = [] ∧
      f1.contents = f.contents ++ s.ulogMessage ++ data.take k ∧
      s1.ulogMessage = [] ∧ s1.gotHeader = s.gotHeader ∧
      s.processTail k data =
        (s1._writeUlogMessage (data.drop k)).bind fun r =>
          some { r.1 with ulogMessage := r.2 } := by
  have hlen : s.ulogMessage.length ≠ 0 := fun h => hb (List.length_eq_zero.mp h)
  have h255 : ¬ (k = 255 ∧ s.ulogMessage.length > 0) := fun h => hk h.1
  have hdrop : (if k ≠ 0 then data.drop k else data) = data.drop k := by
    by_cases h : k = 0
    · subst h; simp
    · rw [if_pos h]
  unfold MavlinkLogProcessor.processTail
  rw [if_neg h255, if_pos hlen, hdrop,
    writeData_reliable s f s.ulogMessage s.ulogMessage.length he hfd hl (Nat.le_refl _),
    List.take_length]
  by_cases h0 : k = 0
  · subst h0
    refine ⟨{ wrote s f s.ulogMessage with ulogMessage := [] }, _, rfl, rfl, rfl, ?_, rfl, rfl, ?_⟩
    · simp [wrote]
    · simp
  · have hk2 : k ≤ (data.take k).length := by simp [hkl]
    have ht : (data.take k).take k = data.take k := by simp
    obtain ⟨g, hg1, hg2, hg3⟩ : ∃ g, (wrote s f s.ulogMessage).fd = some g ∧ g.limits = [] ∧
        g.contents = f.contents ++ s.ulogMessage := ⟨_, rfl, rfl, rfl⟩
    simp only [Option.some_bind, if_pos h0]
    rw [writeData_reliable (wrote s f s.ulogMessage) g (data.take k) k rfl hg1 hg2 hk2, ht]
    refine ⟨{ wrote (wrote s f s.ulogMessage) g (data.take k) with ulogMessage := [] }, _,
      rfl, rfl, rfl, ?_, rfl, rfl, ?_⟩
    · simp [hg3]
    · simp

/-- C24: completing a straddling record. For a chunk accepted with no drops in a
session whose header is in, with a non-empty buffered message `b`, an offset
`k < 255` within the payload, and a stream that takes its writes: the call
succeeds; it first brings the stream to its old contents followed by `b` and by
`payload[0..k)`, with the buffer emptied; `_writeUlogMessage` is then applied to
`payload[k..)`, and what it returns is the new buffer. So the stream gains `b`,
the `k` leading bytes (once), and what the extraction writes of `payload[k..)`,
in this order, and the buffer holds what the extraction left. -/
theorem straddling_record_completed (s : MavlinkLogProcessor) (f : File)
    (sequence k : Nat) (data : List Nat)
    (hfd : s.fd = some f) (hl : f.limits = []) (hg : s.gotHeader = true)
    (hb : s.ulogMessage ≠ []) (hk : k < 255) (hkl : k ≤ data.length)
    (hacc : AcceptedNoDrops s sequence) :
    ∃ (s' : MavlinkLogProcessor) (f' : File) (s1 : MavlinkLogProcessor) (f1 : File),
      s.processStreamData sequence k data = some (true, s') ∧ s'.fd = some f' ∧
      s1.fd = some f1 ∧ f1.contents = f.contents ++ s.ulogMessage ++ data.take k ∧
      s1.ulogMessage = [] ∧
      (s1._writeUlogMessage (data.drop k)).map (fun r => { r.1 with ulogMessage := r.2 })
        = some s' ∧
      f'.contents = f.contents ++ s.ulogMessage ++ data.take k ++
        (data.drop k).take (firstMessage (data.drop k)) ∧
      s'.ulogMessage = (data.drop k).drop (firstMessage (data.drop k)) := by
  obtain ⟨h1, _, _, _, h5, _⟩ := checkSequence_frame s sequence
  rw [processStreamData_header_in s sequence k data hg, if_pos hacc.1, hacc.2,
    processBody_no_drops]
  generalize hs0 : ({ (s._checkSequence sequence).2.2 with error := false } :
    MavlinkLogProcessor) = s0
  have e1 : s0.fd = some f := by rw [← hs0]; exact h1.trans hfd
  have e4 : s0.error = false := by rw [← hs0]
  have e5 : s0.ulogMessage = s.ulogMessage := by rw [← hs0]; exact h5
  obtain ⟨s1, f1, he1, hfd1, hl1, hc1, hu1, _, htail⟩ :=
    processTail_straddle s0 f k data e4 e1 hl (by rw [e5]; exact hb) (by omega) hkl
  obtain ⟨s2, f2, hw, he2, hfd2, _, hc2, _, _⟩ :=
    writeUlogMessage_flush s1 f1 (data.drop k) he1 hfd1 hl1
  rw [e5] at hc1
  refine ⟨{ s2 with ulogMessage := (data.drop k).drop (firstMessage (data.drop k)) }, f2, s1, f1,
    ?_, hfd2, hfd1, hc1, hu1, ?_, ?_, rfl⟩
  · rw [htail, hw]
    simp [he2]
  · rw [hw]; rfl
  · rw [hc2, hc1]

theorem straddling_record_completed_witness :
    ∃ (s' : MavlinkLogProcessor) (f' : File) (s1 : MavlinkLogProcessor) (f1 : File),
      straddling.processStreamData 101 2 [8, 9, 1, 0, 65, 7, 3, 0] = some (true, s') ∧
      s'.fd = some f' ∧
      s1.fd = some f1 ∧
      f1.contents = File.empty.contents ++ straddling.ulogMessage ++
        List.take 2 [8, 9, 1, 0, 65, 7, 3, 0] ∧
      s1.ulogMessage = [] ∧
      (s1._writeUlogMessage (List.drop 2 [8, 9, 1, 0, 65, 7, 3, 0])).map
        (fun r => { r.1 with ulogMessage := r.2 }) = some s' ∧
      f'.contents = File.empty.contents ++ straddling.ulogMessage ++
        List.take 2 [8, 9, 1, 0, 65, 7, 3, 0] ++
        (List.drop 2 [8, 9, 1, 0, 65, 7, 3, 0]).take
          (firstMessage (List.drop 2 [8, 9, 1, 0, 65, 7, 3, 0])) ∧
      s'.ulogMessage = (List.drop 2 [8, 9, 1, 0, 65, 7, 3, 0]).drop
        (firstMessage (List.drop 2 [8, 9, 1, 0, 65, 7, 3, 0])) :=
  straddling_record_completed straddling File.empty 101 2 [8, 9, 1, 0, 65, 7, 3, 0] rfl rfl rfl
    (by decide) (by decide) (by decide) ⟨by decide, by decide⟩

/-! ## A gap without a record boundary -/

theorem processBody_gap_no_boundary (s : MavlinkLogProcessor) (d : Int) (data : List Nat)
    (hg : s.gotHeader = true) (hd : 0 < d) :
    s.processBody d 255 data =
      (s._writeData (MavlinkLogProcessor.bogus (if d > 25 then 25 else d)) 5).bind fun s1 =>
        (s1._writeUlogMessage s1.ulogMessage).bind fun r => some { r.1 with ulogMessage := [] } := by
  have hd' : d > 0 := hd
  unfold MavlinkLogProcessor.processBody
  rw [if_pos ⟨hg, hd'⟩]
  simp only [if_pos hd', if_true]

/-- C25: a gap with no record boundary. For a chunk accepted with `d > 0` drops in a
session whose header is in, with `first_message = 255`: the call returns, and
its result does not depend on the payload (it is the result for the empty
payload), so no payload byte is written or buffered. The `fwrite` calls of the
call are handed the 5-byte dropout record followed by a prefix `w` of the old
buffered message, the stream gains the bytes it takes of these (all of them,
with the call succeeding, when it takes its writes whole), and the buffer is
empty afterwards. -/
theorem gap_without_boundary (s : MavlinkLogProcessor) (f : File) (sequence : Nat)
    (data : List Nat) (hfd : s.fd = some f) (hg : s.gotHeader = true)
    (hacc : (s._checkSequence sequence).1 = true)
    (hd : 0 < (s._checkSequence sequence).2.1) :
    ∃ (ok : Bool) (s' : MavlinkLogProcessor) (f' : File) (cs : List FwriteCall) (w : List Nat),
      s.processStreamData sequence 255 data = some (ok, s') ∧
      s.processStreamData sequence 255 [] = some (ok, s') ∧
      s'.fd = some f' ∧ s'.ulogMessage = [] ∧
      f'.calls = f.calls ++ cs ∧
      f'.contents = f.contents ++ acceptedBytes cs ∧
      w <+: s.ulogMessage ∧
      (cs.map fun c => c.data).flatten =
        [2, 0, 79, (10 * min (s._checkSequence sequence).2.1 25).toNat, 0] ++ w ∧
      acceptedBytes cs <+:
        [2, 0, 79, (10 * min (s._checkSequence sequence).2.1 25).toNat, 0] ++ w ∧
      (f.limits = [] →
        ok = true ∧
        w = s.ulogMessage.take (firstMessage s.ulogMessage) ∧
        f'.contents = f.contents ++
          [2, 0, 79, (10 * min (s._checkSequence sequence).2.1 25).toNat, 0] ++ w) := by
  obtain ⟨h1, _, h3, _, h5, _⟩ := checkSequence_frame s sequence
  obtain ⟨hb, _⟩ := bogus_fourth_byte _ hd
  rw [processStreamData_header_in s sequence 255 data hg,
    processStreamData_header_in s sequence 255 [] hg, if_pos hacc, if_pos hacc]
  generalize hs1 : ({ (s._checkSequence sequence).2.2 with error := false } :
    MavlinkLogProcessor) = s1
  have e1 : s1.fd = some f := by rw [← hs1]; exact h1.trans hfd
  have e3 : s1.gotHeader = true := by rw [← hs1]; exact h3.trans hg
  have e4 : s1.error = false := by rw [← hs1]
  have e5 : s1.ulogMessage = s.ulogMessage := by rw [← hs1]; exact h5
  generalize (s._checkSequence sequence).2.1 = d at *
  rw [processBody_gap_no_boundary s1 d data e3 hd, processBody_gap_no_boundary s1 d [] e3 hd, hb]
  generalize hbb : [2, 0, 79, (10 * min d 25).toNat, 0] = b
  have hb5 : 5 ≤ b.length := by rw [← hbb]; exact Nat.le_refl 5
  have hbt : b.take 5 = b := by rw [← hbb]; rfl
  obtain ⟨s2, w2, hfd2, her2, hu2, _⟩ := writeData_any s1 f b 5 e4 e1 hb5
  rw [w2]
  simp only [Option.some_bind]
  rw [hu2, e5]
  by_cases hn : (fwrite b 5 f).1 = 5
  · -- the dropout record is taken whole
    have he2 : s2.error = false := by
      cases h : s2.error
      · rfl
      · exact absurd hn (her2.mp h)
    rw [writeUlogMessage_eq]
    by_cases h0 : firstMessage s.ulogMessage = 0
    · rw [if_pos h0]
      simp only [Option.some_bind, he2, Bool.not_false]
      refine ⟨true, _, (fwrite b 5 f).2, [{ data := b.take 5, len := 5, ret := (fwrite b 5 f).1 }],
        [], rfl, rfl, hfd2, rfl, ?_, ?_, List.nil_prefix, ?_, ?_, fun _ => ⟨rfl, ?_, ?_⟩⟩
      · rw [fwrite_snd]
      · rw [fwrite_snd]
        simp [acceptedBytes, hbt]
      · simp [hbt]
      · simp [acceptedBytes, hn, hbt]
      · rw [h0]; rfl
      · rw [fwrite_snd]
        simp [hn, hbt]
    · rw [if_neg h0]
      obtain ⟨s3, w3, hfd3, her3, _, _⟩ := writeData_any s2 (fwrite b 5 f).2 s.ulogMessage
        (firstMessage s.ulogMessage) he2 hfd2 (firstMessage_le _)
      rw [w3]
      simp only [Option.map_some', Option.some_bind]
      generalize hn3 : firstMessage s.ulogMessage = n3 at *
      generalize hf2 : (fwrite b 5 f).2 = f2 at *
      have hf2c : f2.calls = f.calls ++ [{ data := b.take 5, len := 5, ret := 5 }] := by
        rw [← hf2, fwrite_snd, hn]
      have hf2d : f2.contents = f.contents ++ b := by
        rw [← hf2, fwrite_snd, hn, hbt]
      have hf2l : f2.limits = f.limits.tail := by
        rw [← hf2, fwrite_snd]
      have hle3 := fwrite_fst_le s.ulogMessage n3 f2
      refine ⟨!s3.error, _, (fwrite s.ulogMessage n3 f2).2,
        [{ data := b.take 5, len := 5, ret := 5 },
         { data := s.ulogMessage.take n3, len := n3, ret := (fwrite s.ulogMessage n3 f2).1 }],
        s.ulogMessage.take n3, rfl, rfl, hfd3, rfl, ?_, ?_, List.take_prefix _ _, ?_, ?_,
        fun hl => ?_⟩
      · rw [fwrite_snd, hf2c]
        simp
      · rw [fwrite_snd, hf2d]
        simp [acceptedBytes, hbt, List.take_take, Nat.min_eq_left hle3]
      · simp [hbt]
      · simp only [acceptedBytes, hbt, List.append_nil, List.take_take, Nat.min_eq_left hle3]
        have ht : s.ulogMessage.take (fwrite s.ulogMessage n3 f2).1 =
            (s.ulogMessage.take n3).take (fwrite s.ulogMessage n3 f2).1 := by
          rw [List.take_take, Nat.min_eq_left hle3]
        rw [ht]
        exact (List.prefix_append_right_inj b).mpr ( List.take_prefix _ _)
      · have hl2 : f2.limits = [] := by rw [hf2l, hl]; rfl
        have hr : (fwrite s.ulogMessage n3 f2).1 = n3 := fwrite_fst_reliable _ _ _ hl2
        have he3 : s3.error = false := by
          cases h : s3.error
          · rfl
          · exact absurd hr (her3.mp h)
        refine ⟨by rw [he3]; rfl, rfl, ?_⟩
        rw [fwrite_snd, hf2d, hr]
  · -- the dropout record is cut short: nothing else is written
    have he2 : s2.error = true := her2.mpr hn
    rw [writeUlogMessage_error_set s2 _ he2]
    simp only [Option.some_bind, he2, Bool.not_true]
    refine ⟨false, _, (fwrite b 5 f).2, [{ data := b.take 5, len := 5, ret := (fwrite b 5 f).1 }],
      [], rfl, rfl, hfd2, rfl, ?_, ?_, List.nil_prefix, ?_, ?_, fun hl => ?_⟩
    · rw [fwrite_snd]
    · rw [fwrite_snd]
      simp [acceptedBytes, hbt]
    · simp [hbt]
    · simp only [acceptedBytes, hbt, List.append_nil]
      exact List.take_prefix _ _
    · exact absurd (fwrite_fst_reliable b 5 f hl) hn

theorem gap_without_boundary_witness :
    ∃ ok s', pendingRecord.processStreamData 103 255 [9, 9, 9] = some (ok, s') ∧
      ok = true ∧ s'.ulogMessage = [] ∧ sink s' = [2, 0, 79, 20, 0, 1, 0, 65, 7] := by
  obtain ⟨ok, s', f', cs, w, h1, _, h3, h4, _, _, _, _, _, h10⟩ :=
    gap_without_boundary pendingRecord File.empty 103 [9, 9, 9] rfl rfl (by decide) (by decide)
  obtain ⟨hok, hw, hc⟩ := h10 rfl
  refine ⟨ok, s', h1, hok, h4, ?_⟩
  simp only [sink, h3, hc, hw]
  decide

/-! ## Byte conservation -/

theorem processTail_zero (s : MavlinkLogProcessor) (f : File) (data : List Nat)
    (he : s.error = false) (hfd : s.fd = some f) (hl : f.limits = []) :
    ∃ (s' : MavlinkLogProcessor) (f' : File), s.processTail 0 data = some s' ∧ s'.error = false ∧
      s'.fd = some f' ∧ f'.limits = [] ∧
      f'.contents ++ s'.ulogMessage = f.contents ++ s.ulogMessage ++ data ∧
      s'.gotHeader = s.gotHeader := by
  by_cases hb : s.ulogMessage = []
  · obtain ⟨s2, f2, hw, he2, hfd2, hl2, hc2, _, hg2⟩ := writeUlogMessage_flush s f data he hfd hl
    refine ⟨{ s2 with ulogMessage := data.drop (firstMessage data) }, f2, ?_, he2, hfd2, hl2, ?_,
      hg2⟩
    · simp [MavlinkLogProcessor.processTail, hb, hw]
    · show f2.contents ++ data.drop (firstMessage data) = _
      rw [hc2, hb, List.append_nil, List.append_assoc, List.take_append_drop]
  · obtain ⟨s1, f1, he1, hfd1, hl1, hc1, _, hg1, htail⟩ :=
      processTail_straddle s f 0 data he hfd hl hb (by decide) (Nat.zero_le _)
    obtain ⟨s2, f2, hw, he2, hfd2, hl2, hc2, _, hg2⟩ :=
      writeUlogMessage_flush s1 f1 (data.drop 0) he1 hfd1 hl1
    refine ⟨{ s2 with ulogMessage := (data.drop 0).drop (firstMessage (data.drop 0)) }, f2, ?_,
      he2, hfd2, hl2, ?_, hg2.trans hg1⟩
    · rw [htail, hw]; rfl
    · show f2.contents ++ (data.drop 0).drop (firstMessage (data.drop 0)) = _
      rw [hc2, hc1, List.append_assoc, List.take_append_drop]
      simp

theorem clean_chunk_conserved (s : MavlinkLogProcessor) (f : File) (seq : Nat) (data : List Nat)
    (hfd : s.fd = some f) (hl : f.limits = []) (hacc : AcceptedNoDrops s seq)
    (hlen : s.gotHeader = false → 16 ≤ data.length ∧ s.ulogMessage = []) :
    ∃ (s' : MavlinkLogProcessor) (f' : File),
      s.processStreamData seq 0 data = some (true, s') ∧ s'.fd = some f' ∧
      f'.limits = [] ∧ f'.contents ++ s'.ulogMessage = f.contents ++ s.ulogMessage ++ data ∧
      s'.gotHeader = true := by
  obtain ⟨h1, _, h3, _, h5, _⟩ := checkSequence_frame s seq
  by_cases hg : s.gotHeader = true
  · rw [processStreamData_header_in s seq 0 data hg, if_pos hacc.1, hacc.2, processBody_no_drops]
    generalize hs0 : ({ (s._checkSequence seq).2.2 with error := false } :
      MavlinkLogProcessor) = s0
    have e1 : s0.fd = some f := by rw [← hs0]; exact h1.trans hfd
    have e3 : s0.gotHeader = true := by rw [← hs0]; exact h3.trans hg
    have e4 : s0.error = false := by rw [← hs0]
    have e5 : s0.ulogMessage = s.ulogMessage := by rw [← hs0]; exact h5
    obtain ⟨s', f', hw, he', hfd', hl', hc', hg'⟩ := processTail_zero s0 f data e4 e1 hl
    refine ⟨s', f', ?_, hfd', hl', ?_, hg'.trans e3⟩
    · rw [hw]; simp [he']
    · rw [hc', e5]
  · have hg' : s.gotHeader = false := by simpa using hg
    obtain ⟨h16, hb⟩ := hlen hg'
    unfold MavlinkLogProcessor.processStreamData
    rw [checkSequence_error_irrelevant]
    simp only []
    rw [if_pos hacc.1, if_pos (h3.trans hg'), if_neg (by omega : ¬ data.length < 16), hacc.2]
    generalize hs0 : ({ (s._checkSequence seq).2.2 with error := false } :
      MavlinkLogProcessor) = s0
    have e1 : s0.fd = some f := by rw [← hs0]; exact h1.trans hfd
    have e4 : s0.error = false := by rw [← hs0]
    have e5 : s0.ulogMessage = [] := by rw [← hs0]; exact h5.trans hb
    rw [writeData_reliable s0 f data 16 e4 e1 hl h16]
    simp only [Option.some_bind]
    rw [processBody_no_drops]
    obtain ⟨s', f', hw, he', hfd', hl', hc', hg''⟩ :=
      processTail_zero { wrote s0 f (data.take 16) with gotHeader := true } _ (data.drop 16)
        rfl rfl rfl
    refine ⟨s', f', ?_, hfd', hl', ?_, hg''⟩
    · rw [hw]; simp [he']
    · rw [hc', hb]
      show f.contents ++ data.take 16 ++ s0.ulogMessage ++ data.drop 16 = _
      rw [e5]
      simp

theorem clean_run_conserved (fileName : String) (f0 : File)
    (hl : f0.limits = []) (hc : f0.contents = [])
    (s : MavlinkLogProcessor) (chunks : List (Nat × List Nat))
    (h : CleanRun fileName f0 s chunks) :
    ∃ f, s.fd = some f ∧ f.limits = [] ∧
      f.contents ++ s.ulogMessage = (chunks.map Prod.snd).flatten ∧
      (s.gotHeader = false → chunks = [] ∧ s.ulogMessage = []) := by
  induction h with
  | create => exact ⟨f0, rfl, hl, by rw [hc]; rfl, fun _ => ⟨rfl, rfl⟩⟩
  | chunk s s' ok seq data chunks _ hacc h16 hstep ih =>
    obtain ⟨f, hfd, hlf, hcf, hhead⟩ := ih
    obtain ⟨s2, f2, hw, hfd2, hl2, hc2, hg2⟩ := clean_chunk_conserved s f seq data hfd hlf hacc
      (fun hg => ⟨h16 (hhead hg).1, (hhead hg).2⟩)
    rw [hstep] at hw
    have e2 : s' = s2 := congrArg Prod.snd (Option.some.inj hw)
    subst e2
    refine ⟨f2, hfd2, hl2, ?_, fun hg => ?_⟩
    · rw [hc2, hcf]
      simp
    · rw [hg2] at hg; cases hg

/-- C26: byte conservation. In a session on a new, empty file that takes its
writes, after any sequence of chunks that were each accepted with no drops and
with `first_message = 0`, the first of them with at least 16 bytes, the bytes in
the stream followed by the buffered message are the payloads processed so far,
in order; and the next such chunk is processed with success and keeps it so. -/
theorem byte_conservation (fileName : String) (f0 : File)
    (hl : f0.limits = []) (hc : f0.contents = [])
    (s : MavlinkLogProcessor) (chunks : List (Nat × List Nat))
    (h : CleanRun fileName f0 s chunks) :
    sink s ++ s.ulogMessage = (chunks.map Prod.snd).flatten ∧
    ∀ (seq : Nat) (data : List Nat), AcceptedNoDrops s seq → (chunks = [] → 16 ≤ data.length) →
      ∃ s', s.processStreamData seq 0 data = some (true, s') ∧
        CleanRun fileName f0 s' (chunks ++ [(seq, data)]) ∧
        sink s' ++ s'.ulogMessage = (chunks.map Prod.snd).flatten ++ data := by
  obtain ⟨f, hfd, hlf, hcf, hhead⟩ := clean_run_conserved fileName f0 hl hc s chunks h
  refine ⟨by simp only [sink, hfd]; exact hcf, fun seq data hacc h16 => ?_⟩
  obtain ⟨s2, f2, hw, hfd2, hl2, hc2, hg2⟩ := clean_chunk_conserved s f seq data hfd hlf hacc
    (fun hg => ⟨h16 (hhead hg).1, (hhead hg).2⟩)
  refine ⟨s2, hw, CleanRun.chunk s s2 true seq data chunks h hacc h16 hw, ?_⟩
  simp only [sink, hfd2]
  rw [hc2, hcf]

theorem byte_conservation_witness :
    sink afterTwoRecords ++ afterTwoRecords.ulogMessage = twoRecords ∧
    afterTwoRecords.ulogMessage = [2, 0, 66, 8, 9] ∧
    ∃ s', afterTwoRecords.processStreamData 1 0 [3, 0, 67] = some (true, s') ∧
      sink s' ++ s'.ulogMessage = twoRecords ++ [3, 0, 67] := by
  have hrun : CleanRun "007.ulg" File.empty afterTwoRecords ([] ++ [(0, twoRecords)]) :=
    CleanRun.chunk (session "007.ulg" File.empty) afterTwoRecords true 0 twoRecords []
      CleanRun.create ⟨by decide, by decide⟩ (fun _ => by decide) (by decide)
  obtain ⟨h1, h2⟩ := byte_conservation "007.ulg" File.empty rfl rfl afterTwoRecords _ hrun
  refine ⟨h1, by decide, ?_⟩
  obtain ⟨s', h3, _, h4⟩ := h2 1 [3, 0, 67] ⟨by decide, by decide⟩ (fun h => by cases h)
  exact ⟨s', h3, h4⟩

/-! ## Log data outside a capture -/

theorem new_session (emailAddress description uploadURL : String)
    (enableAutoUpload enableAutoStart deleteAfterUpload : Bool) (logPath : String)
    (pathOk : Bool) (found : List (String × Nat × Bool)) :
    (MavlinkLogManager.new emailAddress description uploadURL enableAutoUpload enableAutoStart
      deleteAfterUpload logPath pathOk found).logProcessor = none := by
  have hfold : ∀ (l : List (String × Nat × Bool)) (m : MavlinkLogManager),
      (l.foldl (fun m file =>
        { m with
            logFiles := insertSorted
              (m.nextRecord, MavlinkLogFiles.existing file.1 file.2.1 file.2.2) m.logFiles
            nextRecord := m.nextRecord + 1 }) m).logProcessor = m.logProcessor := by
    intro l
    induction l with
    | nil => intro m; rfl
    | cons a rest ih => intro m; rw [List.foldl_cons, ih]
  unfold MavlinkLogManager.new
  simp only []
  split_ifs <;> first | rfl | rw [hfold]

theorem sendLog_frame (m : MavlinkLogManager) (logFile : String) (fileOk : Bool) :
    (m._sendLog logFile fileOk).2.logProcessor = m.logProcessor ∧
    (m._sendLog logFile fileOk).2.logRunning = m.logRunning ∧
    (m._sendLog logFile fileOk).2.vehicle = m.vehicle ∧
    (m._sendLog logFile fileOk).2.loggingCmdTryCount = m.loggingCmdTryCount ∧
    (m._sendLog logFile fileOk).2.ackTimer = m.ackTimer := by
  unfold MavlinkLogManager._sendLog
  split_ifs <;> exact ⟨rfl, rfl, rfl, rfl, rfl⟩

theorem uploadLog_frame (m m' : MavlinkLogManager) (fileOk : Bool)
    (h : m.uploadLog fileOk = some m') :
    m'.logProcessor = m.logProcessor ∧ m'.logRunning = m.logRunning ∧
    m'.vehicle = m.vehicle ∧ m'.loggingCmdTryCount = m.loggingCmdTryCount ∧
    m'.ackTimer = m.ackTimer := by
  unfold MavlinkLogManager.uploadLog at h
  simp only [Option.bind_eq_some] at h
  obtain ⟨files, _, h2⟩ := h
  split at h2
  · split at h2
    · cases h2
    · cases h2
      exact sendLog_frame _ _ _
  · cases h2
    exact ⟨rfl, rfl, rfl, rfl, rfl⟩

theorem deleteLog_frame (m m' : MavlinkLogManager) (log : Nat)
    (h : m._deleteLog log = some m') :
    m'.logProcessor = m.logProcessor ∧ m'.logRunning = m.logRunning ∧
    m'.currentLogfile = m.currentLogfile := by
  unfold MavlinkLogManager._deleteLog at h
  split at h
  · cases h
  · cases h
    exact ⟨rfl, rfl, rfl⟩

theorem deleteLogLoop_frame (fuel : Nat) (m m' : MavlinkLogManager)
    (h : MavlinkLogManager.deleteLogLoop fuel m = some m') :
    m'.logProcessor = m.logProcessor ∧ m'.logRunning = m.logRunning := by
  induction fuel generalizing m with
  | zero => simp [MavlinkLogManager.deleteLogLoop] at h
  | succ n ih =>
    unfold MavlinkLogManager.deleteLogLoop at h
    split_ifs at h
    · cases h
      exact ⟨rfl, rfl⟩
    · split at h
      · cases h
      · simp only [Option.bind_eq_some] at h
        obtain ⟨m1, h1, h2⟩ := h
        obtain ⟨a1, a2, _⟩ := deleteLog_frame m m1 _ h1
        obtain ⟨b1, b2⟩ := ih m1 h2
        exact ⟨b1.trans a1, b2.trans a2⟩

theorem stopLogging_session (m m' : MavlinkLogManager) (fileOk : Bool)
    (h : m.stopLogging fileOk = some m') : m'.logProcessor = none := by
  unfold MavlinkLogManager.stopLogging at h
  simp only [] at h
  split at h
  · simp only [Option.bind_eq_some] at h
    obtain ⟨m4, _, h2⟩ := h
    cases h2
    rfl
  · rename_i hnone
    cases h
    exact hnone

theorem discardLog_session (m m' : MavlinkLogManager) (h : m._discardLog = some m') :
    m'.logProcessor = none := by
  unfold MavlinkLogManager._discardLog at h
  simp only [Option.bind_eq_some] at h
  obtain ⟨m2, h1, h2⟩ := h
  cases h2
  show m2.logProcessor = none
  split at h1
  · simp only [Option.map_eq_some'] at h1
    obtain ⟨m1, _, h3⟩ := h1
    rw [← h3]
  · rename_i hnone
    cases h1
    exact hnone

theorem startLogging_session (m : MavlinkLogManager) (timestamp : String) (fopen : Option File)
    (hinv : m.logProcessor.isSome = true → m.logRunning = true) :
    (m.startLogging timestamp fopen).logProcessor.isSome = true →
      (m.startLogging timestamp fopen).logRunning = true := by
  unfold MavlinkLogManager.startLogging
  cases hv : m.vehicle with
  | none => exact hinv
  | some v =>
    simp only []
    by_cases hc : (m._createNewLog v timestamp fopen).1 = true
    · rw [if_pos hc]
      intro _
      rfl
    · rw [if_neg hc]
      intro hsome
      exfalso
      cases fopen <;>
        simp [MavlinkLogManager._createNewLog, MavlinkLogProcessor.create] at hc hsome

theorem handle_session (m m' : MavlinkLogManager) (e : Event)
    (hinv : m.logProcessor.isSome = true → m.logRunning = true)
    (h : m.handle e = some m') :
    m'.logProcessor.isSome = true → m'.logRunning = true := by
  cases e with
  | setEmailAddress email => cases h; exact hinv
  | setDescription description => cases h; exact hinv
  | setUploadURL url => cases h; exact hinv
  | setEnableAutoUpload enable => cases h; exact hinv
  | setEnableAutoStart enable => cases h; exact hinv
  | setDeleteAfterUpload enable => cases h; exact hinv
  | setSelected log selected =>
    simp only [MavlinkLogManager.handle, MavlinkLogManager.selectRecord] at h
    split at h
    · cases h
    · cases h; exact hinv
  | uploadLog fileOk =>
    obtain ⟨h1, h2, _⟩ := uploadLog_frame m m' fileOk h
    rw [h1, h2]; exact hinv
  | deleteLog =>
    obtain ⟨h1, h2⟩ := deleteLogLoop_frame _ m m' h
    rw [h1, h2]; exact hinv
  | cancelUpload => cases h; exact hinv
  | startLogging timestamp fopen =>
    cases h
    exact startLogging_session m timestamp fopen hinv
  | stopLogging fileOk =>
    intro hs
    rw [stopLogging_session m m' fileOk h] at hs
    cases hs
  | uploadFinished http_code fileOk =>
    simp only [MavlinkLogManager.handle, MavlinkLogManager._uploadFinished,
      Option.bind_eq_some] at h
    obtain ⟨m3, h3, h4⟩ := h
    obtain ⟨h1, h2, _⟩ := uploadLog_frame _ m' fileOk h4
    rw [h1, h2]
    show m3.logProcessor.isSome = true → m3.logRunning = true
    have h5 : m3.logProcessor = m.logProcessor ∧ m3.logRunning = m.logRunning := by
      simp only [MavlinkLogManager._processUploadResponse] at h3
      split_ifs at h3
      · split at h3
        · simp only [Option.map_eq_some'] at h3
          obtain ⟨m2, h6, h7⟩ := h3
          obtain ⟨a1, a2, _⟩ := deleteLog_frame _ m2 _ h6
          rw [← h7]
          exact ⟨a1, a2⟩
        · cases h3; exact ⟨rfl, rfl⟩
      · split at h3
        · split at h3
          · cases h3
          · cases h3; exact ⟨rfl, rfl⟩
        · cases h3; exact ⟨rfl, rfl⟩
      · cases h3; exact ⟨rfl, rfl⟩
    rw [h5.1, h5.2]; exact hinv
  | uploadProgress bytesSent bytesTotal =>
    simp only [MavlinkLogManager.handle, MavlinkLogManager._uploadProgress] at h
    split_ifs at h
    · split at h
      · split at h
        · cases h
        · cases h; exact hinv
      · cases h; exact hinv
    · cases h; exact hinv
  | activeVehicleChanged vehicle fileOk =>
    simp only [MavlinkLogManager.handle, MavlinkLogManager._activeVehicleChanged,
      Option.bind_eq_some] at h
    obtain ⟨m1, h1, h2⟩ := h
    have hm1 : m1.logProcessor.isSome = true → m1.logRunning = true := by
      split at h1
      · intro hs
        rw [stopLogging_session _ m1 fileOk h1] at hs
        cases hs
      · cases h1; exact hinv
    split at h2
    · cases h2; exact hm1
    · cases h2; exact hm1
  | processCmdAck =>
    simp only [MavlinkLogManager.handle, MavlinkLogManager._processCmdAck] at h
    split_ifs at h <;>
      first
      | (cases h; exact hinv)
      | (intro hs; rw [discardLog_session _ m' h] at hs; cases hs)
      | (split at h <;> (cases h; exact hinv))
  | mavlinkLogData seq first_message data =>
    simp only [MavlinkLogManager.handle, MavlinkLogManager._mavlinkLogData] at h
    have hm1 : ∀ m1 : MavlinkLogManager,
        m1 = (if m.logRunning = true then { m with ackTimer := false } else m) →
        m1.logProcessor = m.logProcessor ∧ m1.logRunning = m.logRunning := by
      intro m1 e
      rw [e]
      split_ifs <;> exact ⟨rfl, rfl⟩
    generalize hg : (if m.logRunning = true then { m with ackTimer := false } else m) = m1 at h
    obtain ⟨e1, e2⟩ := hm1 m1 hg.symm
    split at h
    · rename_i p hp
      split_ifs at h
      · split at h
        · cases h
        · simp only [Option.bind_eq_some] at h
          obtain ⟨m2, h2, h3⟩ := h
          have hm2 : m2.logRunning = m1.logRunning := by
            split at h2
            · cases h2; rfl
            · split_ifs at h2
              cases h2; rfl
          split_ifs at h3
          · split at h3
            · cases h3
              intro hs
              cases hs
            · cases h3
          · cases h3
            intro _
            show m2.logRunning = true
            rw [hm2, e2]
            apply hinv
            rw [← e1, hp]
            rfl
      · cases h
        rw [e1, e2]; exact hinv
    · cases h
      rw [e1, e2]; exact hinv
  | commandLongAck command result =>
    simp only [MavlinkLogManager.handle, MavlinkLogManager._commandLongAck] at h
    split_ifs at h
    · cases h; exact hinv
    · intro hs
      rw [discardLog_session _ m' h] at hs
      cases hs
    · cases h; exact hinv
    · cases h; exact hinv
  | armedChanged armed timestamp fopen fileOk =>
    simp only [MavlinkLogManager.handle, MavlinkLogManager._armedChanged] at h
    split at h
    · split_ifs at h
      · cases h
        exact startLogging_session m timestamp fopen hinv
      · cases h; exact hinv
      · intro hs
        rw [stopLogging_session m m' fileOk h] at hs
        cases hs
      · cases h; exact hinv
    · cases h; exact hinv

theorem reachable_session (m : MavlinkLogManager) (h : ManagerReachable m) :
    m.logProcessor.isSome = true → m.logRunning = true := by
  induction h with
  | init emailAddress description uploadURL enableAutoUpload enableAutoStart deleteAfterUpload
      logPath pathOk found =>
    intro hs
    rw [new_session] at hs
    cases hs
  | event m m' e _ hstep ih => exact handle_session m m' e ih hstep

/-- C22: unexpected log data is ignored. In every state of the manager reached from
its construction through calls and events, when `_logRunning` is false there is
no processor, and `_mavlinkLogData` with any sequence number, offset and payload
returns with the manager exactly as it was: the collection and every record,
`_logRunning`, the retry counter, the timer, the upload target, and no effect
on any file. -/
theorem unexpected_log_data_ignored (m : MavlinkLogManager) (hreach : ManagerReachable m)
    (hidle : m.logRunning = false) (sequence first_message : Nat) (data : List Nat) :
    m.logProcessor = none ∧ m._mavlinkLogData sequence first_message data = some m := by
  have hnone : m.logProcessor = none := by
    cases hp : m.logProcessor with
    | none => rfl
    | some p =>
      have := reachable_session m hreach (by rw [hp]; rfl)
      rw [hidle] at this
      cases this
  refine ⟨hnone, ?_⟩
  simp [MavlinkLogManager._mavlinkLogData, hidle, hnone]

theorem unexpected_log_data_ignored_witness :
    stopped7.logRunning = false ∧ stopped7.ackTimer = true ∧ stopped7.logProcessor = none ∧
    stopped7._mavlinkLogData 5 0 [1, 2, 3] = some stopped7 := by
  have h0 : ManagerReachable (MavlinkLogManager.new "pilot@example.org" "" "" true true false
      "/data" true []) := ManagerReachable.init _ _ _ _ _ _ _ _ _
  have h1 : ManagerReachable idle7 :=
    ManagerReachable.event _ idle7 (Event.activeVehicleChanged (some 7) true) h0 (by decide)
  have h2 : ManagerReachable started7 :=
    ManagerReachable.event _ started7
      (Event.startLogging "2016-11-01-10-00-00-000" (some File.empty)) h1 rfl
  have h3 : ManagerReachable stopped7 :=
    ManagerReachable.event _ stopped7 (Event.stopLogging true) h2 (by decide)
  exact ⟨by decide, by decide,
    unexpected_log_data_ignored stopped7 h3 (by decide) 5 0 [1, 2, 3]⟩

/-! ## Stopping a capture -/

theorem uploadScan_writing (emailAddress uploadURL : String)
    (l : List (Nat × MavlinkLogFiles)) (p : Nat) (r : MavlinkLogFiles)
    (h : lookupRecord l p = some r) :
    ∃ r', lookupRecord (uploadScan emailAddress uploadURL l).1 p = some r' ∧
      r'.writing = r.writing := by
  induction l with
  | nil => simp [lookupRecord] at h
  | cons e rest ih =>
    simp only [lookupRecord] at h
    unfold uploadScan
    by_cases he : e.1 = p
    · rw [if_pos he] at h
      cases h
      split_ifs <;> simp only [lookupRecord, if_pos he] <;> exact ⟨_, rfl, rfl⟩
    · rw [if_neg he] at h
      split_ifs <;> simp only [lookupRecord, if_neg he]
      · exact ⟨r, h, rfl⟩
      · exact ih h
      · exact ih h

theorem stopLoggingQueued_frame (m : MavlinkLogManager) (p : Nat) :
    (stopLoggingQueued m p).logFiles =
      updateRecord (updateRecord m.logFiles p fun r => r.setWriting false) p
        (fun r => r.setSelected true) ∧
    (stopLoggingQueued m p).currentLogfile = m.currentLogfile ∧
    (stopLoggingQueued m p).vehicle = m.vehicle ∧
    (stopLoggingQueued m p).replies = m.replies := by
  unfold stopLoggingQueued
  cases hv : m.vehicle <;> first | exact ⟨rfl, rfl, rfl, rfl⟩ | exact ⟨rfl, rfl, hv, rfl⟩

theorem stopLoggingQueued_lookup (m : MavlinkLogManager) (p : Nat) (r : MavlinkLogFiles)
    (hl : lookupRecord m.logFiles p = some r) :
    lookupRecord (stopLoggingQueued m p).logFiles p =
      some { r with writing := false, selected := true } := by
  rw [(stopLoggingQueued_frame m p).1]
  exact lookupRecord_updateRecord_self _ p _ (fun x => x.setSelected true)
    (lookupRecord_updateRecord_self m.logFiles p r (fun x => x.setWriting false) hl)

theorem stopLogging_unfold (m : MavlinkLogManager) (fileOk : Bool)
    (po : ProcessorObject) (r : MavlinkLogFiles)
    (hp : m.logProcessor = some po) (hrec : po.state.record.isSome = true)
    (hl : lookupRecord m.logFiles po.record = some r) :
    m.stopLogging fileOk =
      (if m.enableAutoUpload = true then
        if m.currentLogfile = none then (stopLoggingQueued m po.record).uploadLog fileOk
        else some (stopLoggingQueued m po.record)
      else
        some { stopLoggingQueued m po.record with
                logFiles := updateRecord m.logFiles po.record fun x => x.setWriting false }).bind
        fun (m4 : MavlinkLogManager) =>
          some { m4 with
                  logProcessor := none
                  logRunning := false
                  loggingCmdTryCount := if m4.vehicle.isSome then 0 else m4.loggingCmdTryCount
                  ackTimer := if m4.vehicle.isSome then true else m4.ackTimer } := by
  unfold MavlinkLogManager.stopLogging stopLoggingQueued
  cases hv : m.vehicle <;> cases hc : m.currentLogfile <;> cases ha : m.enableAutoUpload <;>
    simp [hp, hrec, hl, MavlinkLogManager.uploading, hc, ha]

/-- C21: `stopLogging()` with a capture session whose record is in the collection.
The call returns; afterwards there is no processor, the record of the session
has `writing = false` and `_logRunning` is false; with a vehicle the retry
counter is 0 and the timer runs. With auto-upload on, the record is marked
selected; if an upload is in progress that is all (the record stays selected,
target and transfers as before), and if none is, the collection, the upload
target and the transfers are those of `uploadLog()` run on the manager right
after the selection. With auto-upload off, the collection is the old one with
`writing` cleared in the record of the session, and the upload target and the
transfers are as before. -/
theorem stopLogging_closes_session (m : MavlinkLogManager) (fileOk : Bool)
    (po : ProcessorObject) (r : MavlinkLogFiles)
    (hp : m.logProcessor = some po) (hrec : po.state.record.isSome = true)
    (hl : lookupRecord m.logFiles po.record = some r) :
    ∃ m', m.stopLogging fileOk = some m' ∧
      m'.logProcessor = none ∧ m'.logRunning = false ∧
      (∃ r', lookupRecord m'.logFiles po.record = some r' ∧ r'.writing = false) ∧
      (m.vehicle ≠ none → m'.loggingCmdTryCount = 0 ∧ m'.ackTimer = true) ∧
      (m.enableAutoUpload = true →
        lookupRecord (stopLoggingQueued m po.record).logFiles po.record =
          some { r with writing := false, selected := true } ∧
        (m.currentLogfile ≠ none →
          m'.logFiles = (stopLoggingQueued m po.record).logFiles ∧
          m'.currentLogfile = m.currentLogfile ∧ m'.replies = m.replies) ∧
        (m.currentLogfile = none →
          ∃ u, (stopLoggingQueued m po.record).uploadLog fileOk = some u ∧
            m'.logFiles = u.logFiles ∧ m'.currentLogfile = u.currentLogfile ∧
            m'.replies = u.replies ∧ m'.effects = u.effects)) ∧
      (m.enableAutoUpload = false →
        m'.logFiles = updateRecord m.logFiles po.record (fun x => x.setWriting false) ∧
        lookupRecord m'.logFiles po.record = some { r with writing := false } ∧
        m'.currentLogfile = m.currentLogfile ∧ m'.replies = m.replies) := by
  have hq := stopLoggingQueued_lookup m po.record r hl
  have hw := lookupRecord_updateRecord_self m.logFiles po.record r (fun x => x.setWriting false) hl
  obtain ⟨q1, q2, q3, q4⟩ := stopLoggingQueued_frame m po.record
  have hveh : ∀ (m4 : MavlinkLogManager), m4.vehicle = m.vehicle → m.vehicle ≠ none →
      (if m4.vehicle.isSome then (0 : Int) else m4.loggingCmdTryCount) = 0 ∧
      (if m4.vehicle.isSome then true else m4.ackTimer) = true := by
    intro m4 h4 hne
    obtain ⟨v, hv⟩ := Option.ne_none_iff_exists'.mp hne
    rw [h4, hv]
    exact ⟨rfl, rfl⟩
  rw [stopLogging_unfold m fileOk po r hp hrec hl]
  by_cases hauto : m.enableAutoUpload = true
  · have hnauto : ¬ (m.enableAutoUpload = false) := by rw [hauto]; simp
    rw [if_pos hauto]
    by_cases hcur : m.currentLogfile = none
    · rw [if_pos hcur]
      have hnocur : ∀ q, (stopLoggingQueued m po.record).currentLogfile = some q →
          lookupRecord (stopLoggingQueued m po.record).logFiles q ≠ none := by
        intro q hq'
        rw [q2, hcur] at hq'
        cases hq'
      obtain ⟨u, hu, hfiles, _, _⟩ := uploadLog_scan (stopLoggingQueued m po.record) fileOk hnocur
      obtain ⟨_, _, uv, _, _⟩ := uploadLog_frame _ u fileOk hu
      have hrel : releasedTarget (stopLoggingQueued m po.record) =
          (stopLoggingQueued m po.record).logFiles := by
        unfold releasedTarget
        rw [q2, hcur]
      obtain ⟨r', hr', hwr⟩ := uploadScan_writing (stopLoggingQueued m po.record).emailAddress
        (stopLoggingQueued m po.record).uploadURL _ po.record _ hq
      rw [hu]
      refine ⟨_, rfl, rfl, rfl, ⟨r', ?_, hwr⟩, hveh u (uv.trans q3),
        fun _ => ⟨hq, fun h => absurd hcur h, fun _ => ⟨u, rfl, rfl, rfl, rfl, rfl⟩⟩,
        fun h => absurd h hnauto⟩
      show lookupRecord u.logFiles po.record = some r'
      rw [hfiles, hrel]; exact hr'
    · rw [if_neg hcur]
      exact ⟨_, rfl, rfl, rfl, ⟨_, hq, rfl⟩, hveh _ q3,
        fun _ => ⟨hq, fun _ => ⟨rfl, q2, q4⟩, fun h => absurd h hcur⟩,
        fun h => absurd h hnauto⟩
  · rw [if_neg hauto]
    exact ⟨_, rfl, rfl, rfl, ⟨_, hw, rfl⟩, hveh _ q3, fun h => absurd h hauto,
      fun _ => ⟨rfl, hw, q2, q4⟩⟩

theorem stopLogging_closes_session_witness :
    ∃ m', started7.stopLogging true = some m' ∧
      m'.logProcessor = none ∧ m'.logRunning = false ∧
      m'.loggingCmdTryCount = 0 ∧ m'.ackTimer = true ∧
      (∃ r', lookupRecord m'.logFiles 0 = some r' ∧ r'.writing = false) := by
  obtain ⟨m', h1, h2, h3, h4, h5, _⟩ := stopLogging_closes_session started7 true
    (started7.logProcessor.getD ⟨MavlinkLogProcessor.new, 0⟩)
    ((lookupRecord started7.logFiles 0).getD (MavlinkLogFiles.newFile ""))
    rfl rfl rfl
  obtain ⟨h6, h7⟩ := h5 (by decide)
  exact ⟨m', h1, h2, h3, h6, h7, h4⟩

/-! ## The drop count at the end of its range -/

/-- C1 as stated fails: with the drop count at 2147483647 and last sequence number
100, the chunk numbered 102 is accepted with 1 drop, and the count becomes
-2147483648, not the old count plus 1. -/
theorem numDrops_wraps_at_int_max :
    (dropsAtMax._checkSequence 102).1 = true ∧ (dropsAtMax._checkSequence 102).2.1 = 1 ∧
    (dropsAtMax._checkSequence 102).2.2.numDrops = -2147483648 ∧
    (dropsAtMax._checkSequence 102).2.2.numDrops ≠
      dropsAtMax.numDrops + (dropsAtMax._checkSequence 102).2.1 := by
  decide

/-! ## Dropout records in a running session -/

theorem checkSequence_rejected (s : MavlinkLogProcessor) (seq : Nat)
    (h : (s._checkSequence seq).1 = false) : (s._checkSequence seq).2.2 = s := by
  unfold MavlinkLogProcessor._checkSequence at h ⊢
  split_ifs at h ⊢ <;> rfl

theorem processStreamData_true_header (s s' : MavlinkLogProcessor)
    (sequence first_message : Nat) (data : List Nat)
    (h : s.processStreamData sequence first_message data = some (true, s'))
    (hinv : s.gotHeader = true ∨ s.sequence = -1) :
    s'.gotHeader = true ∨ s'.sequence = -1 := by
  obtain ⟨_, _, h3, _, _, _⟩ := checkSequence_frame s sequence
  by_cases hacc : (s._checkSequence sequence).1 = true
  · left
    by_cases hg : s.gotHeader = true
    · rw [processStreamData_header_in s sequence first_message data hg, if_pos hacc] at h
      simp only [Option.bind_eq_some] at h
      obtain ⟨s2, h2, h4⟩ := h
      have e : s2 = s' := congrArg Prod.snd (Option.some.inj h4)
      rw [← e, processBody_gotHeader _ s2 _ _ _ h2]
      exact h3.trans hg
    · have hg' : s.gotHeader = false := by simpa using hg
      unfold MavlinkLogProcessor.processStreamData at h
      rw [checkSequence_error_irrelevant] at h
      simp only [] at h
      rw [if_pos hacc, if_pos (h3.trans hg')] at h
      by_cases h16 : data.length < 16
      · rw [if_pos h16] at h
        have := congrArg Prod.fst (Option.some.inj h)
        cases this
      · rw [if_neg h16] at h
        simp only [Option.bind_eq_some] at h
        obtain ⟨s1, _, s2, h2, h4⟩ := h
        have e : s2 = s' := congrArg Prod.snd (Option.some.inj h4)
        rw [← e, processBody_gotHeader _ s2 _ _ _ h2]
  · have hrej : (s._checkSequence sequence).1 = false := by simpa using hacc
    unfold MavlinkLogProcessor.processStreamData at h
    rw [checkSequence_error_irrelevant] at h
    simp only [] at h
    rw [if_neg hacc] at h
    have e := congrArg Prod.snd (Option.some.inj h)
    simp only [] at e
    rw [← e, checkSequence_rejected s sequence hrej]
    exact hinv

theorem alive_header (fileName : String) (f0 : File) (s : MavlinkLogProcessor)
    (h : SessionAlive fileName f0 s) : s.gotHeader = true ∨ s.sequence = -1 := by
  induction h with
  | create => exact Or.inr rfl
  | process s s' sequence first_message data _ hstep ih =>
    exact processStreamData_true_header s s' sequence first_message data hstep ih

theorem alive_reachable (fileName : String) (f0 : File) (s : MavlinkLogProcessor)
    (h : SessionAlive fileName f0 s) : SessionReachable fileName f0 s := by
  induction h with
  | create => exact SessionReachable.create
  | process s s' sequence first_message data _ hstep ih =>
    exact SessionReachable.process s s' true sequence first_message data ih hstep

/-- C7: dropout synthesis. In a session on a new file, as the manager runs it (every
earlier call returned true), a chunk accepted with `d > 0` drops finds the header
in, and the call returns with the 5-byte record `[2, 0, 79, 10 * min(d, 25), 0]`
handed to its first `fwrite`, before any byte of the buffered message or of the
payload; the fourth byte is at most 250. When the stream takes its writes whole
the call succeeds and the stream gains that one record, followed by a part `w1`
of the buffered message and a part `w2` of the payload after `first_message`
(none of it when `first_message` is 255). -/
theorem dropout_record_first (fileName : String) (f0 : File)
    (hc : f0.contents = []) (hk : f0.calls = [])
    (s : MavlinkLogProcessor) (halive : SessionAlive fileName f0 s)
    (sequence first_message : Nat) (data : List Nat)
    (hacc : (s._checkSequence sequence).1 = true)
    (hd : 0 < (s._checkSequence sequence).2.1) :
    s.gotHeader = true ∧
    ∃ (f : File) (ok : Bool) (s' : MavlinkLogProcessor) (f' : File) (n : Nat)
        (rest : List FwriteCall),
      s.fd = some f ∧
      s.processStreamData sequence first_message data = some (ok, s') ∧
      s'.fd = some f' ∧
      f'.calls = f.calls ++
        { data := [2, 0, 79, (10 * min (s._checkSequence sequence).2.1 25).toNat, 0]
          len := 5, ret := n } :: rest ∧
      (10 * min (s._checkSequence sequence).2.1 25).toNat ≤ 250 ∧
      (f.limits = [] →
        ok = true ∧
        ∃ w1 w2,
          f'.contents = f.contents ++
            [2, 0, 79, (10 * min (s._checkSequence sequence).2.1 25).toNat, 0] ++ w1 ++ w2 ∧
          w1 <+: s.ulogMessage ∧ w2 <+: data.drop first_message ∧
          (first_message = 255 → w2 = [])) := by
  have hg : s.gotHeader = true := by
    rcases alive_header fileName f0 s halive with h | h
    · exact h
    · rw [checkSequence_unrecorded s sequence h] at hd
      exact absurd hd (Int.lt_irrefl 0)
  obtain ⟨f, r, hfd, _, _, hw, _, _⟩ :=
    reachable_tracked fileName f0 hc hk s (alive_reachable fileName f0 s halive)
  have hw' : s.written < 4294967296 := by rw [hw]; omega
  obtain ⟨ok, s', f', n, rest, h1, h2, h3, h4, h5⟩ :=
    dropout_record_after_header s f sequence first_message data hfd hw' hg hacc hd
  exact ⟨hg, f, ok, s', f', n, rest, hfd, h1, h2, h3, h4, h5⟩

theorem dropout_record_first_witness :
    afterTwoRecords.gotHeader = true ∧
    ∃ ok s', afterTwoRecords.processStreamData 41 0 [1, 0, 65, 7] = some (ok, s') ∧
      ok = true ∧
      sink s' = sink afterTwoRecords ++ [2, 0, 79, 250, 0] ++ [2, 0, 66, 8, 9] ++ [1, 0, 65, 7] := by
  have halive : SessionAlive "007.ulg" File.empty afterTwoRecords :=
    SessionAlive.process (session "007.ulg" File.empty) afterTwoRecords 0 0 twoRecords
      SessionAlive.create (by decide)
  obtain ⟨hg, f, ok, s', f', n, rest, hfd, h2, _, _, _, h6⟩ :=
    dropout_record_first "007.ulg" File.empty rfl rfl afterTwoRecords halive 41 0 [1, 0, 65, 7]
      (by decide) (by decide)
  have hl : f.limits = [] := by
    have e : afterTwoRecords.fd.map (fun g => g.limits) = some [] := by decide
    rw [hfd] at e
    exact Option.some.inj e
  have e : (afterTwoRecords.processStreamData 41 0 [1, 0, 65, 7]).map (fun r => sink r.2) =
      some (sink afterTwoRecords ++ [2, 0, 79, 250, 0] ++ [2, 0, 66, 8, 9] ++ [1, 0, 65, 7]) := by
    decide
  rw [h2] at e
  exact ⟨hg, ok, s', h2, (h6 hl).1, Option.some.inj e⟩

/-! ## Completion of an upload -/

theorem uploadScan_lookup (emailAddress uploadURL : String)
    (l : List (Nat × MavlinkLogFiles)) (p : Nat) (x : MavlinkLogFiles)
    (h : lookupRecord l p = some x) :
    ∃ x', lookupRecord (uploadScan emailAddress uploadURL l).1 p = some x' ∧
      x'.uploaded = x.uploaded ∧ (x'.selected = true → x.selected = true) ∧
      ((uploadScan emailAddress uploadURL l).2 ≠ some p → x'.uploading = x.uploading) ∧
      (x.uploaded = true → x'.uploading = x.uploading) := by
  induction l with
  | nil => simp [lookupRecord] at h
  | cons e rest ih =>
    simp only [lookupRecord] at h
    unfold uploadScan
    by_cases he : e.1 = p
    · rw [if_pos he] at h
      cases h
      split_ifs with h1 h2
      · refine ⟨((e.2.setSelected false).setUploading true).setProgress 0,
          by simp only [lookupRecord, if_pos he], rfl, fun hs => ?_, fun hne => ?_, fun hu => ?_⟩
        · simp [MavlinkLogFiles.setSelected, MavlinkLogFiles.setUploading,
            MavlinkLogFiles.setProgress] at hs
        · exact absurd (congrArg some he) hne
        · rw [h2.1] at hu
          cases hu
      · refine ⟨e.2.setSelected false, by simp only [lookupRecord, if_pos he], rfl,
          fun hs => ?_, fun _ => rfl, fun _ => rfl⟩
        simp [MavlinkLogFiles.setSelected] at hs
      · exact ⟨e.2, by simp only [lookupRecord, if_pos he], rfl, fun hs => hs, fun _ => rfl,
          fun _ => rfl⟩
    · rw [if_neg he] at h
      split_ifs with h1 h2
      · exact ⟨x, by simp only [lookupRecord, if_neg he]; exact h, rfl, fun hs => hs, fun _ => rfl,
          fun _ => rfl⟩
      · simp only [lookupRecord, if_neg he]; exact ih h
      · simp only [lookupRecord, if_neg he]; exact ih h

/-- C16 as stated fails: `b` is being uploaded and the user selects it again during
the transfer; the upload finishes with status 500. The scan that follows picks
`b` again: it ends as the upload target with `uploading = true`, its `uploading`
flag is not cleared, and no other record becomes the target. -/
theorem finished_upload_picked_again :
    reselectedB.map (fun m => m.deleteAfterUpload) = some false ∧
    reselectedB.map (fun m => m.currentLogfile) = some (some 1) ∧
    reselectedB.map (fun m =>
        m.logFiles.map fun f => (f.1, f.2.selected, f.2.uploading, f.2.uploaded))
      = some [(0, false, false, true), (1, true, true, false), (2, false, false, false)] ∧
    (reselectedB.bind fun m => (m._uploadFinished 500 true).map fun m => m.currentLogfile)
      = some (some 1) ∧
    (reselectedB.bind fun m => (m._uploadFinished 500 true).map fun m =>
        m.logFiles.map fun f => (f.1, f.2.selected, f.2.uploading, f.2.uploaded))
      = some [(0, false, false, true), (1, false, true, false), (2, false, false, false)] := by
  decide

/-- C16 (amended): with delete-after-upload off and a live upload target `p`,
`_uploadFinished` with status `http_code` returns. The target is uploaded
afterwards exactly when the status is 200 or it was uploaded before; the
failure notification is raised exactly when the status is not 200; the handler
selects nothing (the target is selected afterwards only if it was before). Its
`uploading` flag is cleared and the scan runs again: the first selected record
that is not uploaded becomes the new target (selected cleared, uploading set,
progress 0), and when there is none, or the email or URL is empty, no target is
left. So the finished record ends with `uploading = false` unless the scan picks
it again, which takes a record that was selected during its transfer and is not
uploaded (a status other than 200); a record that was not selected ends not
selected and not uploading. -/
theorem upload_completion (m : MavlinkLogManager) (http_code : Int) (fileOk : Bool)
    (p : Nat) (r : MavlinkLogFiles)
    (hdel : m.deleteAfterUpload = false) (hcur : m.currentLogfile = some p)
    (hl : lookupRecord m.logFiles p = some r) :
    ∃ m', m._uploadFinished http_code fileOk = some m' ∧
      (∃ r', lookupRecord m'.logFiles p = some r' ∧
        (r'.uploaded = true ↔ (http_code = 200 ∨ r.uploaded = true)) ∧
        (r'.selected = true → r.selected = true) ∧
        (m'.currentLogfile ≠ some p → r'.uploading = false) ∧
        ((http_code = 200 ∨ r.uploaded = true) → r'.uploading = false) ∧
        (r.selected = false → r'.selected = false ∧ r'.uploading = false)) ∧
      (Effect.failed ∈ m'.effects ↔ (Effect.failed ∈ m.effects ∨ http_code ≠ 200)) ∧
      (m.emailAddress ≠ "" → m.uploadURL ≠ "" →
        ∀ (pre post : List (Nat × MavlinkLogFiles)) (q : Nat) (rq : MavlinkLogFiles),
          finishedTarget m p http_code = pre ++ (q, rq) :: post →
          rq.selected = true → rq.uploaded = false →
          (∀ e ∈ pre, ¬ (e.2.selected = true ∧ e.2.uploaded = false)) →
          m'.currentLogfile = some q ∧
          m'.logFiles = (pre.map fun e => (e.1, { e.2 with selected := false })) ++
            (q, { rq with selected := false, uploading := true, progress := 0 }) :: post) ∧
      (((∀ e ∈ finishedTarget m p http_code, ¬ (e.2.selected = true ∧ e.2.uploaded = false)) ∨
          m.emailAddress = "" ∨ m.uploadURL = "") →
        m'.currentLogfile = none) := by
  obtain ⟨m3, e3, hrel, hc3, hem, hurl, halive, hfail⟩ :=
    uploadFinished_rescan m http_code fileOk p r hdel hcur hl
  have hcur3 : ∀ q, m3.currentLogfile = some q → lookupRecord m3.logFiles q ≠ none := by
    intro q hq
    rw [hc3] at hq
    cases hq
    exact halive
  obtain ⟨m', e', hfiles, htarget, hf'⟩ := uploadLog_scan m3 fileOk hcur3
  rw [hrel, hem, hurl] at hfiles htarget
  have hfin : ∃ x, lookupRecord (finishedTarget m p http_code) p = some x ∧
      (x.uploaded = true ↔ (http_code = 200 ∨ r.uploaded = true)) ∧
      x.selected = r.selected ∧ x.uploading = false := by
    by_cases hc : http_code = 200
    · refine ⟨(r.setUploaded true).setUploading false, ?_, ?_, rfl, rfl⟩
      · simp only [finishedTarget, if_pos hc]
        exact lookupRecord_updateRecord_self _ _ _ _ hl
      · simp [MavlinkLogFiles.setUploaded, MavlinkLogFiles.setUploading, hc]
    · refine ⟨r.setUploading false, ?_, ?_, rfl, rfl⟩
      · simp only [finishedTarget, if_neg hc]
        exact lookupRecord_updateRecord_self _ _ _ _ hl
      · simp [MavlinkLogFiles.setUploading, hc]
  obtain ⟨x, hx, hxu, hxs, hxl⟩ := hfin
  obtain ⟨r', hr', hu', hs', hl', hd'⟩ := uploadScan_lookup m.emailAddress m.uploadURL _ p x hx
  refine ⟨m', e3.trans e', ⟨r', by rw [hfiles]; exact hr', ?_, ?_, ?_, ?_, ?_⟩, hf'.trans hfail,
    ?_, ?_⟩
  · rw [hu']; exact hxu
  · intro h; rw [← hxs]; exact hs' h
  · intro hne
    rw [htarget] at hne
    rw [hl' hne]; exact hxl
  · intro hdone
    rw [hd' (hxu.mpr hdone)]; exact hxl
  · intro hsel
    have hxsel : x.selected = false := hxs.trans hsel
    have hsame := uploadScan_lookup_unselected m.emailAddress m.uploadURL _ p x hx hxsel
    rw [hr'] at hsame
    have e : r' = x := Option.some.inj hsame
    rw [e]
    exact ⟨hxsel, hxl⟩
  · intro he hu pre post q rq hsplit hqs hqu hpre
    have hscan := uploadScan_found m.emailAddress m.uploadURL pre post q rq he hu hqs hqu hpre
    rw [← hsplit] at hscan
    rw [hscan] at hfiles htarget
    exact ⟨htarget, hfiles⟩
  · intro h
    rw [uploadScan_none _ _ _ h] at htarget
    exact htarget

theorem upload_completion_witness :
    ∃ m', uploadingB._uploadFinished 200 true = some m' ∧
      (∃ r', lookupRecord m'.logFiles 1 = some r' ∧ r'.uploaded = true ∧
        r'.selected = false ∧ r'.uploading = false) ∧
      m'.currentLogfile = some 2 := by
  obtain ⟨m', h1, ⟨r', h2, h3, _, _, _, h5⟩, _, h6, _⟩ := upload_completion uploadingB 200 true 1
    ((MavlinkLogFiles.existing "/data/MavlinkLogs/b.ulg" 10 false).setUploading true)
    rfl rfl rfl
  refine ⟨m', h1, ⟨r', h2, h3.mpr (Or.inl rfl), (h5 rfl).1, (h5 rfl).2⟩, ?_⟩
  exact (h6 (by decide) (by decide)
    [(0, MavlinkLogFiles.existing "/data/MavlinkLogs/a.ulg" 20 true),
     (1, ((MavlinkLogFiles.existing "/data/MavlinkLogs/b.ulg" 10 false).setUploaded true))]
    []
    2 ((MavlinkLogFiles.existing "/data/MavlinkLogs/c.ulg" 5 false).setSelected true)
    rfl rfl rfl (by decide)).1

end MavlinkLog
